import Mathlib

/-!
Verification of the Dungeon repository.

This file gives a shallow embedding of the dungeon generator
(src/dungeon_gen.py: Rect, Dungeon, the three placement regimes, corridor
carving, door placement, throne-room setup, generate_dungeon) and of the
visibility subsystem of src/main.py (FOV.compute recursive shadow-casting,
evaluate_light_sources, and the per-frame multi-source visibility
composition), together with theorems settling the frozen claims about
room overlap, the large-room quota, door-state consistency, configuration
clamping, throne-room materials, corridor segmentation, shadow-cast
visibility and multi-source lighting.

Modelling conventions.

Python ints are Int.  Python float parameters (linearity, entropy,
complexity, light intensity, shadow-cast slopes) are modelled as Rat;
every float value reachable in the relevant code paths is a rational
number, and the comparisons the claims depend on are exact at the scales
involved.  Python floor division and floor modulus on ints are Int.fdiv
and Int.fmod.  int(x) truncates toward zero (pyInt).  round(x) rounds
half to even (pyRound).

Randomness is modelled by an explicit oracle stream (RNG) threaded
through generation.  random.randint a b yields a + (draw mod (b - a + 1))
and fails -- Option.none -- exactly where Python raises ValueError, namely
when a > b.  random.random is an oracle-chosen rational in the unit
interval; random.choice picks an oracle-chosen index; the float
expressions distance * cos(angle) and distance * sin(angle) are modelled
as oracle-chosen integers bounded by the distance, a superset of the
values the float code can produce.  Theorems about generation quantify
over every oracle, hence over every seed and every float draw.

A raised Python exception is Option.none; a normal return is some.
-/

/- Rat.add, Rat.mul, Rat.sub and Rat.inv are shipped irreducible, which
only hides them from elaborator-level reduction; making them
semireducible again lets decide and rfl evaluate the rational arithmetic
of the embedding (the kernel unfolds them either way). -/
attribute [local semireducible] Rat.add Rat.mul Rat.sub Rat.inv

/-! ## Python arithmetic helpers -/

/-- Python int(q): truncation toward zero. -/
def pyInt (q : ℚ) : Int := if 0 ≤ q then ⌊q⌋ else ⌈q⌉

/-- Python round(q): round half to even. -/
def pyRound (q : ℚ) : Int :=
  let f := ⌊q⌋
  let r := q - (f : ℚ)
  if r < 1/2 then f
  else if 1/2 < r then f + 1
  else if f % 2 = 0 then f else f + 1

/-- Python range(a, b) as a list of Int. -/
def pyRange (a b : Int) : List Int := (List.range (b - a).toNat).map (fun k => a + (k : Int))

/-! ## Oracle randomness -/

/-- Oracle stream standing in for the Mersenne Twister: an arbitrary
sequence of integers and a cursor.  Quantifying over RNG quantifies over
every possible sequence of draws. -/
structure RNG where
  ints : Nat → Int
  idx : Nat

def RNG.take (g : RNG) : Int := g.ints g.idx

def RNG.bump (g : RNG) : RNG := ⟨g.ints, g.idx + 1⟩

/-- random.randint(a, b): any value in [a, b]; raises ValueError (none)
when a > b, exactly as Python does. -/
def randint (a b : Int) (g : RNG) : Option (Int × RNG) :=
  if a ≤ b then some (a + (g.take).emod (b - a + 1), g.bump) else none

/-- random.random(): an oracle-chosen rational in [0, 1). -/
def rand01 (g : RNG) : ℚ × RNG :=
  ((((g.take).emod 1000000 : Int) : ℚ) / 1000000, g.bump)

/-- random.choice over a list of length n: an oracle-chosen index. -/
def choiceIdx (n : Nat) (g : RNG) : Nat × RNG := (((g.take).emod (n : Int)).toNat, g.bump)

/-- random.choice([-1, 1]). -/
def choicePM (g : RNG) : Int × RNG := (if (g.take).emod 2 = 0 then -1 else 1, g.bump)

/-- Oracle model of int(center + distance * cos(angle)) - center and the
sin analogue: an arbitrary integer offset with absolute value at most b,
a superset of what the float expression can produce. -/
def boundedOff (b : Int) (g : RNG) : Int × RNG := ((g.take).emod (2 * b + 1) - b, g.bump)

/-! ## Rect (src/dungeon_gen.py lines 32-90) -/

structure Rect where
  x1 : Int
  y1 : Int
  x2 : Int
  y2 : Int
deriving DecidableEq

/-- Rect(x, y, w, h): x2 = x + w, y2 = y + h. -/
def Rect.mk4 (x y w h : Int) : Rect := ⟨x, y, x + w, y + h⟩

/-- Rect.center: floor-divided midpoint. -/
def Rect.center (r : Rect) : Int × Int := ((r.x1 + r.x2).fdiv 2, (r.y1 + r.y2).fdiv 2)

/-- Rect.intersect: interval overlap on both axes. -/
def Rect.intersect (a b : Rect) : Bool :=
  decide (a.x1 < b.x2 ∧ a.x2 > b.x1 ∧ a.y1 < b.y2 ∧ a.y2 > b.y1)

/-! ## Tile, door and material constants -/

def TILE_FLOOR : Int := 0
def TILE_WALL : Int := 1
def TILE_DOOR : Int := 2

def DOOR_CLOSED : Int := 0
def DOOR_OPEN : Int := 1
def DOOR_LOCKED : Int := 2

def MAT_COBBLE : Int := 0
def MAT_BRICK : Int := 1
def MAT_DIRT : Int := 2
def MAT_IRON : Int := 5
def MAT_MARBLE : Int := 9
def MAT_WOOD : Int := 10

def MIN_LARGE_ROOM_WIDTH : Int := 6
def MIN_LARGE_ROOM_HEIGHT : Int := 4
def MAX_HALLWAY_SEGMENT : Int := 18

/-! ## Dungeon state -/

/-- The Dungeon container: tiles, materials and door states are total
functions on coordinates (the Python nested lists, read at in-bounds
coordinates only), plus the room list and the generator bookkeeping
fields. -/
structure Dungeon where
  w : Int
  h : Int
  tiles : Int → Int → Int
  materials : Int → Int → Int
  doors : Int → Int → Int
  rooms : List Rect
  start_room_index : Int
  throne_room_index : Int
  rooms_total : Nat
  rooms_large : Nat
  max_rooms_planned : Int
  enforce_large_rooms : Bool
  large_width_requirement : Int
  large_height_requirement : Int
  max_hallway_segment : Int

/-- Dungeon.__init__: all walls, brick everywhere, no doors, no rooms. -/
def Dungeon.init (w h : Int) : Dungeon :=
  { w := w
    h := h
    tiles := fun _ _ => TILE_WALL
    materials := fun _ _ => MAT_BRICK
    doors := fun _ _ => -1
    rooms := []
    start_room_index := 0
    throne_room_index := -1
    rooms_total := 0
    rooms_large := 0
    max_rooms_planned := 0
    enforce_large_rooms := true
    large_width_requirement := MIN_LARGE_ROOM_WIDTH
    large_height_requirement := MIN_LARGE_ROOM_HEIGHT
    max_hallway_segment := MAX_HALLWAY_SEGMENT }

def Dungeon.inBounds (d : Dungeon) (x y : Int) : Prop :=
  0 ≤ x ∧ x < d.w ∧ 0 ≤ y ∧ y < d.h

instance (d : Dungeon) (x y : Int) : Decidable (d.inBounds x y) :=
  inferInstanceAs (Decidable (0 ≤ x ∧ x < d.w ∧ 0 ≤ y ∧ y < d.h))

/-- carve_room: interior cells (1-tile border kept) become floor/cobble;
out-of-range coordinates silently clipped. -/
def Dungeon.carve_room (d : Dungeon) (room : Rect) : Dungeon :=
  { d with
    tiles := fun x y =>
      if room.x1 + 1 ≤ x ∧ x < room.x2 - 1 ∧ room.y1 + 1 ≤ y ∧ y < room.y2 - 1 ∧
          d.inBounds x y then TILE_FLOOR else d.tiles x y
    materials := fun x y =>
      if room.x1 + 1 ≤ x ∧ x < room.x2 - 1 ∧ room.y1 + 1 ≤ y ∧ y < room.y2 - 1 ∧
          d.inBounds x y then MAT_COBBLE else d.materials x y }

/-- carve_h_tunnel. -/
def Dungeon.carve_h_tunnel (d : Dungeon) (x1 x2 y : Int) : Dungeon :=
  { d with
    tiles := fun a b =>
      if min x1 x2 ≤ a ∧ a ≤ max x1 x2 ∧ b = y ∧ d.inBounds a b
      then TILE_FLOOR else d.tiles a b
    materials := fun a b =>
      if min x1 x2 ≤ a ∧ a ≤ max x1 x2 ∧ b = y ∧ d.inBounds a b
      then MAT_COBBLE else d.materials a b }

/-- carve_v_tunnel. -/
def Dungeon.carve_v_tunnel (d : Dungeon) (y1 y2 x : Int) : Dungeon :=
  { d with
    tiles := fun a b =>
      if min y1 y2 ≤ b ∧ b ≤ max y1 y2 ∧ a = x ∧ d.inBounds a b
      then TILE_FLOOR else d.tiles a b
    materials := fun a b =>
      if min y1 y2 ≤ b ∧ b ≤ max y1 y2 ∧ a = x ∧ d.inBounds a b
      then MAT_COBBLE else d.materials a b }

/-- _is_large_room. -/
def Dungeon.is_large_room (d : Dungeon) (room : Rect) : Bool :=
  decide (room.x2 - room.x1 ≥ d.large_width_requirement ∧
          room.y2 - room.y1 ≥ d.large_height_requirement)

/-- _register_room. -/
def Dungeon.register_room (d : Dungeon) (room : Rect) : Dungeon :=
  { d with
    rooms := d.rooms ++ [room]
    rooms_total := d.rooms_total + 1
    rooms_large := if d.is_large_room room then d.rooms_large + 1 else d.rooms_large }

/-- _should_force_large_room.  math.ceil((total + 1) / 2) equals
(total + 2) / 2 in Nat arithmetic. -/
def Dungeon.should_force_large_room (d : Dungeon) : Bool :=
  if d.enforce_large_rooms then decide (d.rooms_large < (d.rooms_total + 2) / 2) else false

/-- The 48-attempt sampling loop of _pick_room_size; returns none inside
the option when the attempts are exhausted (fall through to the clamped
fallback), and fails when randint raises. -/
def pickSizeAttempts (room_min room_max lw lh : Int) (force : Bool) :
    Nat → RNG → Option (Option (Int × Int) × RNG)
  | 0, g => some (none, g)
  | n+1, g => do
    let (w, g) ← randint room_min room_max g
    let (h, g) ← randint room_min room_max g
    if force = false ∨ (w ≥ lw ∧ h ≥ lh) then
      some (some (w, h), g)
    else
      pickSizeAttempts room_min room_max lw lh force n g

/-- _pick_room_size. -/
def Dungeon.pick_room_size (d : Dungeon) (room_min room_max : Int) (force_large : Bool)
    (g : RNG) : Option ((Int × Int) × RNG) := do
  let force0 := force_large || d.should_force_large_room
  let force := if d.enforce_large_rooms then force0 else false
  let (res, g) ← pickSizeAttempts room_min room_max
      d.large_width_requirement d.large_height_requirement force 48 g
  match res with
  | some wh => some (wh, g)
  | none =>
      some ((min room_max (max room_min d.large_width_requirement),
             min room_max (max room_min d.large_height_requirement)), g)

/-! ## _axis_steps and corridors -/

/-- The body of the _axis_steps while loop, with fuel.  When the
remaining distance is at most the segment cap the loop jumps to the end;
otherwise it advances by exactly the cap.  The fuel (e - start).natAbs
suffices whenever the segment cap is at least 1. -/
def axisStepsGo (seg : Int) : Nat → Int → Int → List Int
  | 0, _, _ => []
  | n+1, cur, e =>
    if cur = e then []
    else if ((e - cur).natAbs : Int) ≤ seg then [e]
    else
      let step := if e - cur > 0 then seg else -seg
      (cur + step) :: axisStepsGo seg n (cur + step) e

/-- _axis_steps. -/
def Dungeon.axis_steps (d : Dungeon) (start e : Int) : List Int :=
  axisStepsGo d.max_hallway_segment (e - start).natAbs start e

/-- The horizontal phase of _carve_corridor: carve one h-tunnel per axis
step, tracking the running x coordinate. -/
def carveHPhase (cy : Int) (p : Dungeon × Int) (steps : List Int) : Dungeon × Int :=
  steps.foldl (fun p tx => (p.1.carve_h_tunnel p.2 tx cy, tx)) p

/-- The vertical phase of _carve_corridor. -/
def carveVPhase (cx : Int) (p : Dungeon × Int) (steps : List Int) : Dungeon × Int :=
  steps.foldl (fun p ty => (p.1.carve_v_tunnel p.2 ty cx, ty)) p

/-- _carve_corridor. -/
def Dungeon.carve_corridor (d : Dungeon) (s e : Int × Int) (horizontal_first : Bool) :
    Dungeon :=
  let sx := s.1; let sy := s.2
  let ex := e.1; let ey := e.2
  if horizontal_first then
    let ph := carveHPhase sy (d, sx) (d.axis_steps sx ex)
    let pv := carveVPhase ph.2 (ph.1, sy) (ph.1.axis_steps sy ey)
    pv.1
  else
    let pv := carveVPhase sx (d, sy) (d.axis_steps sy ey)
    let ph := carveHPhase pv.2 (pv.1, sx) (pv.1.axis_steps sx ex)
    ph.1

/-! ## _limit_center_distance -/

/-- The clamping while loop at the end of _limit_center_distance, with
structural fuel |dx| + |dy|: every iteration lowers |dx| + |dy| by
exactly 1, so the fuel runs out only when dx = dy = 0, where the loop
body is a no-op (under the guard that forces limit < 0, unreachable at
the call site where limit is at least 1), modelled as an exit. -/
def limitShrinkGo (limit : Int) : Nat → Int → Int → Int × Int
  | 0, dx, dy => (dx, dy)
  | n+1, dx, dy =>
    if ((dx.natAbs : Int) + (dy.natAbs : Int)) > limit then
      if dx.natAbs ≥ dy.natAbs ∧ dx ≠ 0 then
        limitShrinkGo limit n (dx - (if dx > 0 then 1 else -1)) dy
      else if dy ≠ 0 then
        limitShrinkGo limit n dx (dy - (if dy > 0 then 1 else -1))
      else (dx, dy)
    else (dx, dy)

def limitShrink (limit : Int) (dx dy : Int) : Int × Int :=
  limitShrinkGo limit (dx.natAbs + dy.natAbs) dx dy

/-- _limit_center_distance. -/
def Dungeon.limit_center_distance (d : Dungeon) (anchor candidate : Int × Int) :
    Int × Int :=
  let ax := anchor.1; let ay := anchor.2
  let sx := candidate.1; let sy := candidate.2
  let dx := sx - ax
  let dy := sy - ay
  let limit := max 1 d.max_hallway_segment
  if ((dx.natAbs : Int) + (dy.natAbs : Int)) ≤ limit then candidate
  else if dx = 0 ∧ dy = 0 then candidate
  else
    let scale : ℚ := (limit : ℚ) / ((max 1 ((dx.natAbs : Int) + (dy.natAbs : Int)) : Int) : ℚ)
    let ndx0 := pyRound ((dx : ℚ) * scale)
    let ndy0 := pyRound ((dy : ℚ) * scale)
    let ndx1 := if ndx0 = 0 ∧ dx ≠ 0 then (if dx > 0 then 1 else -1) else ndx0
    let ndy1 := if ndy0 = 0 ∧ dy ≠ 0 then (if dy > 0 then 1 else -1) else ndy0
    let nd := limitShrink limit ndx1 ndy1
    (ax + nd.1, ay + nd.2)

/-! ## Doors -/

/-- add_door: returns the success flag together with the updated
dungeon (the Python method mutates in place and returns a bool). -/
def Dungeon.add_door (d : Dungeon) (x y : Int) (locked : Bool) : Bool × Dungeon :=
  if ¬ (0 < x ∧ x < d.w - 1 ∧ 0 < y ∧ y < d.h - 1) then (false, d)
  else if d.tiles x y ≠ TILE_WALL then (false, d)
  else
    if (d.tiles (x-1) y = TILE_FLOOR ∧ d.tiles (x+1) y = TILE_FLOOR ∧
        d.tiles x (y-1) = TILE_WALL ∧ d.tiles x (y+1) = TILE_WALL) ∨
       (d.tiles x (y-1) = TILE_FLOOR ∧ d.tiles x (y+1) = TILE_FLOOR ∧
        d.tiles (x-1) y = TILE_WALL ∧ d.tiles (x+1) y = TILE_WALL) then
      (true,
       { d with
         tiles := fun a b => if a = x ∧ b = y then TILE_DOOR else d.tiles a b
         doors := fun a b =>
           if a = x ∧ b = y then (if locked then DOOR_LOCKED else DOOR_CLOSED)
           else d.doors a b
         materials := fun a b => if a = x ∧ b = y then MAT_WOOD else d.materials a b })
    else (false, d)

/-- _find_room_containing: first room whose strict interior contains the
point. -/
def Dungeon.find_room_containing (d : Dungeon) (x y : Int) : Option Rect :=
  d.rooms.find? (fun r => decide (r.x1 < x ∧ x < r.x2 - 1 ∧ r.y1 < y ∧ y < r.y2 - 1))

/-- _is_room_entrance. -/
def Dungeon.is_room_entrance (d : Dungeon) (x y : Int) : Bool :=
  if d.tiles x y ≠ TILE_WALL then false
  else
    let dirs : List (Int × Int) := [(0, 1), (0, -1), (1, 0), (-1, 0)]
    let floorNbr := fun (p : Int × Int) =>
      decide (d.inBounds (x + p.1) (y + p.2)) &&
      decide (d.tiles (x + p.1) (y + p.2) = TILE_FLOOR)
    let adjacent_to_room := dirs.any (fun p =>
      floorNbr p && (d.find_room_containing (x + p.1) (y + p.2)).isSome)
    let adjacent_to_corridor := dirs.any (fun p =>
      floorNbr p && (d.find_room_containing (x + p.1) (y + p.2)).isNone)
    adjacent_to_room && adjacent_to_corridor

/-! ## Throne room -/

/-- _setup_throne_room: the marble loop touches interior floor tiles, the
iron loop wall tiles of the full rectangle; the conditions are disjoint,
so the two sequential loops are one pointwise update. -/
def Dungeon.setup_throne_room (d : Dungeon) : Dungeon :=
  if d.rooms.length > 0 then
    let tr := d.rooms.getLastD ⟨0, 0, 0, 0⟩
    { d with
      start_room_index := 0
      throne_room_index := (d.rooms.length : Int) - 1
      materials := fun x y =>
        if tr.x1 + 1 ≤ x ∧ x < tr.x2 - 1 ∧ tr.y1 + 1 ≤ y ∧ y < tr.y2 - 1 ∧
            d.inBounds x y ∧ d.tiles x y = TILE_FLOOR then MAT_MARBLE
        else if tr.x1 ≤ x ∧ x < tr.x2 ∧ tr.y1 ≤ y ∧ y < tr.y2 ∧
            d.inBounds x y ∧ d.tiles x y = TILE_WALL then MAT_IRON
        else d.materials x y }
  else d

/-- is_throne_room. -/
def Dungeon.is_throne_room (d : Dungeon) (room_index : Int) : Bool :=
  decide (room_index = d.throne_room_index ∧ d.throne_room_index ≥ 0)

/-- is_wall: closed-world default for out-of-bounds queries. -/
def Dungeon.is_wall (d : Dungeon) (x y : Int) : Bool :=
  if d.inBounds x y then decide (d.tiles x y = TILE_WALL) else true

/-- material_at. -/
def Dungeon.material_at (d : Dungeon) (x y : Int) : Int :=
  if d.inBounds x y then d.materials x y else MAT_BRICK

/-! ## Linear regime (_generate_linear) -/

/-- The 2-tile buffered rectangle used by the linear-regime overlap
test. -/
def bufferedRect (e : Rect) : Rect :=
  Rect.mk4 (e.x1 - 2) (e.y1 - 2) ((e.x2 - e.x1) + 4) ((e.y2 - e.y1) + 4)

/-- Steering a candidate center toward the previous room
(_limit_center_distance applied when the room list is nonempty). -/
def steer (d : Dungeon) (cand0 : Int × Int) : Int × Int :=
  if d.rooms ≠ [] then
    d.limit_center_distance (d.rooms.getLastD ⟨0,0,0,0⟩).center cand0
  else cand0

/-- Clamp a candidate center into bounds and build the room rectangle
(the shared x = max(1, min(w - room_w - 1, cx - room_w // 2)) pattern). -/
def candRoom (d : Dungeon) (wr hr : Int) (cand : Int × Int) : Rect :=
  Rect.mk4 (max 1 (min (d.w - wr - 1) (cand.1 - wr.fdiv 2)))
    (max 1 (min (d.h - hr - 1) (cand.2 - hr.fdiv 2))) wr hr

/-- The buffered overlap rejection test. -/
def overlapsBuffered (d : Dungeon) (room : Rect) : Bool :=
  d.rooms.any (fun e => room.intersect (bufferedRect e))

/-- The direct overlap rejection test. -/
def overlapsAny (d : Dungeon) (room : Rect) : Bool :=
  d.rooms.any (fun o => room.intersect o)

/-- One candidate placement shared by both orientations of
_generate_linear: pick a size, steer toward the candidate center, clamp
into bounds, and either place (carve + register) or adjust the cross-axis
target and retry. -/
def linAttempts (horizontal : Bool) (room_min room_max : Int) (center_main : Int) :
    Nat → Int → Dungeon → RNG → Option (Dungeon × RNG)
  | 0, _, d, g => some (d, g)
  | n+1, target_cross, d, g => do
    let ((wr, hr), g) ← d.pick_room_size room_min room_max false g
    let new_room := candRoom d wr hr (steer d
      (if horizontal then (center_main, target_cross) else (target_cross, center_main)))
    if overlapsBuffered d new_room then do
      let (j, g) ← randint (-3) 3 g
      let t1 := target_cross + j
      let extent := if horizontal then d.h else d.w
      let t2 := max room_max (min (extent - room_max) t1)
      linAttempts horizontal room_min room_max center_main n t2 d g
    else
      some ((d.carve_room new_room).register_room new_room, g)

/-- The main placement loop of _generate_linear (row i, both
orientations): stop at the fuel bound or when the next slot would fall
too close to the far edge. -/
def linLoop (horizontal : Bool) (room_min room_max segment base_c c_variation : Int) :
    Nat → Int → Dungeon → RNG → Option (Dungeon × RNG)
  | 0, _, d, g => some (d, g)
  | n+1, i, d, g =>
    let center_main := segment * (i + 1)
    let extent := if horizontal then d.w else d.h
    if center_main ≥ extent - room_max then some (d, g)
    else do
      let target_cross := base_c + pyInt ((c_variation : ℚ) * (1/2 - 1/2 * (rand01 g).1))
      let (d, g) ← linAttempts horizontal room_min room_max center_main 20 target_cross d
        (rand01 g).2
      linLoop horizontal room_min room_max segment base_c c_variation n (i+1) d g

/-- The corridor pass of _generate_linear: connect consecutive rooms,
preferring a straight run when the centers are nearly axis-aligned. -/
def smartConnect (d : Dungeon) (i : Nat) : Dungeon :=
  if i = 0 then d
  else
    let prev := (d.rooms.getD (i-1) ⟨0,0,0,0⟩).center
    let curr := (d.rooms.getD i ⟨0,0,0,0⟩).center
    let x_diff : Int := (prev.1 - curr.1).natAbs
    let y_diff : Int := (prev.2 - curr.2).natAbs
    if x_diff ≤ 3 ∧ y_diff > x_diff * 2 then
      d.carve_corridor prev curr false
    else if y_diff ≤ 3 ∧ x_diff > y_diff * 2 then
      d.carve_corridor prev curr true
    else
      d.carve_corridor prev curr (decide (x_diff ≥ y_diff))

def connectLoop (d : Dungeon) : Dungeon :=
  (List.range d.rooms.length).foldl smartConnect d

/-- One attempt of the _generate_linear side-room loop.  The draws are,
in Python order: the direction choice, the side distance, and the
bounded cross offset; then a size pick, steering, clamping, the buffered
overlap test, and on success a corridor from the main room center. -/
def linSideAttempts (horizontal : Bool) (room_min room_max : Int) (main_center : Int × Int) :
    Nat → Dungeon → RNG → Option (Dungeon × RNG)
  | 0, d, g => some (d, g)
  | n+1, d, g => do
    let side_direction := (choicePM g).1
    let max_side_distance := max (room_min + 2) (min d.max_hallway_segment (room_max * 2 + 5))
    let (side_distance, g) ← randint (room_min + 2) max_side_distance (choicePM g).2
    let (off, g) ← randint (-room_max) room_max g
    let side_x := if horizontal then main_center.1 + off
      else main_center.1 + side_direction * side_distance
    let side_y := if horizontal then main_center.2 + side_direction * side_distance
      else main_center.2 + off
    let ((wr, hr), g) ← d.pick_room_size room_min room_max false g
    let side_room := candRoom d wr hr (d.limit_center_distance main_center (side_x, side_y))
    if overlapsBuffered d side_room then
      linSideAttempts horizontal room_min room_max main_center n d g
    else
      let d1 := (d.carve_room side_room).register_room side_room
      some (d1.carve_corridor main_center side_room.center horizontal, g)

/-- The side-room count loop of _generate_linear. -/
def linSideLoop (horizontal : Bool) (room_min room_max : Int) :
    Nat → Dungeon → RNG → Option (Dungeon × RNG)
  | 0, d, g => some (d, g)
  | n+1, d, g => do
    let main_room := d.rooms.getD (choiceIdx d.rooms.length g).1 ⟨0,0,0,0⟩
    let (d, g) ← linSideAttempts horizontal room_min room_max main_room.center 10 d
      (choiceIdx d.rooms.length g).2
    linSideLoop horizontal room_min room_max n d g

/-- _generate_linear. -/
def Dungeon.generate_linear (d : Dungeon) (max_rooms room_min room_max : Int)
    (entropy : ℚ) (g : RNG) : Option (Dungeon × RNG) :=
  if max_rooms ≤ 0 then some (d, g)
  else
    let horizontal := d.w > d.h
    let extent := if horizontal then d.w else d.h
    let extent2 := if horizontal then d.h else d.w
    let segment0 := max (room_max + 4) (extent.fdiv max_rooms)
    let segment := min segment0 (d.max_hallway_segment + room_max.fdiv 2 + 2)
    let base_c := extent2.fdiv 2
    let c_variation := min (extent2.fdiv 3) (room_max * 2)
    do
      let (d, g) ← linLoop horizontal room_min room_max segment base_c c_variation
          max_rooms.toNat 0 d g
      let d := connectLoop d
      if entropy > 0 ∧ d.rooms.length > 0 then
        let side_room_count := pyInt (entropy * (d.rooms.length : ℚ) * (3/2))
        linSideLoop horizontal room_min room_max side_room_count.toNat d g
      else
        some (d, g)

/-! ## Biased-linear regime (_generate_biased_linear) -/

/-- The entropy = 0 chain of _generate_biased_linear (both
orientations): place a room per slot, connect it to the previous room
immediately, skip a slot entirely on direct overlap. -/
def biasChain (horizontal : Bool) (room_min room_max segment base_c c_variation : Int) :
    Nat → Int → Dungeon → RNG → Option (Dungeon × RNG)
  | 0, _, d, g => some (d, g)
  | n+1, i, d, g =>
    let center_main := segment * (i + 1)
    let extent := if horizontal then d.w else d.h
    if center_main ≥ extent - room_max then some (d, g)
    else do
      let (c_offset, g) ← randint (-c_variation) c_variation g
      let target_cross := base_c + c_offset
      let ((wr, hr), g) ← d.pick_room_size room_min room_max false g
      let new_room := candRoom d wr hr (steer d
        (if horizontal then (center_main, target_cross) else (target_cross, center_main)))
      if overlapsAny d new_room then
        biasChain horizontal room_min room_max segment base_c c_variation n (i+1) d g
      else
        let d1 := d.carve_room new_room
        let d2 := if d1.rooms ≠ [] then
            d1.carve_corridor (d1.rooms.getLastD ⟨0,0,0,0⟩).center new_room.center horizontal
          else d1
        biasChain horizontal room_min room_max segment base_c c_variation n (i+1)
          (d2.register_room new_room) g

/-- The position draw of one biased placement attempt: the first room
lands toward the start of the progression axis, later rooms are biased
toward the progression position with a variance shrinking in the bias
strength. -/
def biasXY (horizontal : Bool) (max_rooms wr hr : Int) (bias_strength : ℚ)
    (d : Dungeon) (g : RNG) : Option ((Int × Int) × RNG) :=
  if d.rooms = [] then
    if horizontal then do
      let (x, g) ← randint 1 (d.w.fdiv 3) g
      let (y, g) ← randint 1 (max 1 (d.h - hr - 1)) g
      some ((x, y), g)
    else do
      let (x, g) ← randint 1 (max 1 (d.w - wr - 1)) g
      let (y, g) ← randint 1 (d.h.fdiv 3) g
      some ((x, y), g)
  else
    if horizontal then do
      let ideal_x := pyInt (((d.rooms.length : ℚ) / (max_rooms : ℚ)) * ((d.w : ℚ) - (wr : ℚ) - 2)) + 1
      let x_variance := ⌊((1 - bias_strength) * (d.w : ℚ)) / 3⌋
      let (x, g) ← randint (max 1 (ideal_x - x_variance))
          (min (d.w - wr - 1) (ideal_x + x_variance)) g
      let (y, g) ← randint 1 (max 1 (d.h - hr - 1)) g
      some ((x, y), g)
    else do
      let ideal_y := pyInt (((d.rooms.length : ℚ) / (max_rooms : ℚ)) * ((d.h : ℚ) - (hr : ℚ) - 2)) + 1
      let y_variance := ⌊((1 - bias_strength) * (d.h : ℚ)) / 3⌋
      let (y, g) ← randint (max 1 (ideal_y - y_variance))
          (min (d.h - hr - 1) (ideal_y + y_variance)) g
      let (x, g) ← randint 1 (max 1 (d.w - wr - 1)) g
      some ((x, y), g)

/-- The 50-attempt placement loop of the entropy > 0 branch of
_generate_biased_linear. -/
def biasPlaceAttempts (horizontal : Bool) (max_rooms room_min room_max : Int)
    (bias_strength : ℚ) : Nat → Dungeon → RNG → Option (Dungeon × RNG)
  | 0, d, g => some (d, g)
  | n+1, d, g => do
    let ((wr, hr), g) ← d.pick_room_size room_min room_max false g
    let (xy, g) ← biasXY horizontal max_rooms wr hr bias_strength d g
    let new_room := candRoom d wr hr (steer d (xy.1 + wr.fdiv 2, xy.2 + hr.fdiv 2))
    if overlapsAny d new_room then
      biasPlaceAttempts horizontal max_rooms room_min room_max bias_strength n d g
    else
      some ((d.carve_room new_room).register_room new_room, g)

/-- The per-room loop of the entropy > 0 branch. -/
def biasPlaceLoop (horizontal : Bool) (max_rooms room_min room_max : Int)
    (bias_strength : ℚ) : Nat → Dungeon → RNG → Option (Dungeon × RNG)
  | 0, d, g => some (d, g)
  | n+1, d, g => do
    let (d, g) ← biasPlaceAttempts horizontal max_rooms room_min room_max bias_strength 50 d g
    biasPlaceLoop horizontal max_rooms room_min room_max bias_strength n d g

/-- The connect pass of the entropy > 0 branch: each room to its
predecessor, with a randomized orientation biased by the strength. -/
def biasConnectLoop (horizontal : Bool) (bias_strength : ℚ) :
    Nat → Nat → Dungeon → RNG → Dungeon × RNG
  | 0, _, d, g => (d, g)
  | n+1, i, d, g =>
    if i < d.rooms.length then
      let prev := (d.rooms.getD (i-1) ⟨0,0,0,0⟩).center
      let curr := (d.rooms.getD i ⟨0,0,0,0⟩).center
      let hf := if (rand01 g).1 < 1/2 + bias_strength * (3/10) then horizontal else !horizontal
      biasConnectLoop horizontal bias_strength n (i+1) (d.carve_corridor prev curr hf)
        (rand01 g).2
    else (d, g)

/-- One attempt of the biased side-room loop.  The random angle and the
cos/sin products are modelled as two bounded oracle offsets (see the
header); the draw order is: distance, the two offsets, then the size
pick, and after a successful placement one rand01 for the corridor
orientation. -/
def biasSideAttempts (room_min room_max : Int) (main_center : Int × Int) :
    Nat → Dungeon → RNG → Option (Dungeon × RNG)
  | 0, d, g => some (d, g)
  | n+1, d, g => do
    let (distance, g) ← randint (room_max + 2) (room_max * 2) g
    let side_x := main_center.1 + (boundedOff distance g).1
    let side_y := main_center.2 + (boundedOff distance ((boundedOff distance g).2)).1
    let ((wr, hr), g) ← d.pick_room_size room_min room_max false
      ((boundedOff distance ((boundedOff distance g).2)).2)
    let side_room := candRoom d wr hr (d.limit_center_distance main_center (side_x, side_y))
    if overlapsAny d side_room then
      biasSideAttempts room_min room_max main_center n d g
    else
      let d1 := (d.carve_room side_room).register_room side_room
      some (d1.carve_corridor main_center side_room.center (decide ((rand01 g).1 < 1/2)),
        (rand01 g).2)

/-- The side-room count loop of the biased regime. -/
def biasSideLoop (room_min room_max : Int) :
    Nat → Dungeon → RNG → Option (Dungeon × RNG)
  | 0, d, g => some (d, g)
  | n+1, d, g => do
    let main_room := d.rooms.getD (choiceIdx d.rooms.length g).1 ⟨0,0,0,0⟩
    let (d, g) ← biasSideAttempts room_min room_max main_room.center 8 d
      (choiceIdx d.rooms.length g).2
    biasSideLoop room_min room_max n d g

/-- _generate_biased_linear. -/
def Dungeon.generate_biased_linear (d : Dungeon) (max_rooms room_min room_max : Int)
    (linearity entropy : ℚ) (g : RNG) : Option (Dungeon × RNG) :=
  if max_rooms ≤ 0 then some (d, g)
  else
    let horizontal := d.w > d.h
    let bias_strength := (linearity - 2/5) / (2/5)
    if entropy ≤ 0 then
      let extent := if horizontal then d.w else d.h
      let extent2 := if horizontal then d.h else d.w
      let segment0 := max (room_max + 2) (extent.fdiv max_rooms)
      let segment := min segment0 (d.max_hallway_segment + room_max.fdiv 2 + 2)
      let base_c := extent2.fdiv 2
      let c_variation := pyInt ((1 - linearity) * ((min (extent2.fdiv 4) room_max : Int) : ℚ))
      biasChain horizontal room_min room_max segment base_c c_variation max_rooms.toNat 0 d g
    else do
      let (d, g) ← biasPlaceLoop horizontal max_rooms room_min room_max bias_strength
          max_rooms.toNat d g
      let dc := biasConnectLoop horizontal bias_strength (d.rooms.length - 1) 1 d g
      if entropy > 0 ∧ dc.1.rooms.length > 1 then
        let side_room_count := pyInt (entropy * (dc.1.rooms.length : ℚ) * (6/5))
        biasSideLoop room_min room_max side_room_count.toNat dc.1 dc.2
      else
        some (dc.1, dc.2)

/-! ## Random regime (_generate_random) -/

/-- Manhattan distance between a room center and a point, the key of the
nearest-room searches. -/
def centerDist (r : Rect) (c : Int × Int) : Int :=
  ((r.center.1 - c.1).natAbs : Int) + ((r.center.2 - c.2).natAbs : Int)

/-- min(rooms, key=centerDist): Python min keeps the first minimum. -/
def nearestRoom (rooms : List Rect) (c : Int × Int) : Rect :=
  match rooms with
  | [] => ⟨0, 0, 0, 0⟩
  | r :: rs => rs.foldl (fun best x => if centerDist x c < centerDist best c then x else best) r

/-- The steering and reclamping applied to a random candidate when
rooms already exist (the if self.rooms block of _generate_random). -/
def randXY (d : Dungeon) (wr hr x0 y0 : Int) : Int × Int :=
  if d.rooms ≠ [] then
    ((candRoom d wr hr (d.limit_center_distance (d.rooms.getLastD ⟨0,0,0,0⟩).center
        (x0 + wr.fdiv 2, y0 + hr.fdiv 2))).x1,
     (candRoom d wr hr (d.limit_center_distance (d.rooms.getLastD ⟨0,0,0,0⟩).center
        (x0 + wr.fdiv 2, y0 + hr.fdiv 2))).y1)
  else (x0, y0)

/-- The nearest-room variant for the extra-room pass. -/
def randExtraXY (d : Dungeon) (wr hr x0 y0 : Int) : Int × Int :=
  if d.rooms ≠ [] then
    ((candRoom d wr hr (d.limit_center_distance
        (nearestRoom d.rooms (x0 + wr.fdiv 2, y0 + hr.fdiv 2)).center
        (x0 + wr.fdiv 2, y0 + hr.fdiv 2))).x1,
     (candRoom d wr hr (d.limit_center_distance
        (nearestRoom d.rooms (x0 + wr.fdiv 2, y0 + hr.fdiv 2)).center
        (x0 + wr.fdiv 2, y0 + hr.fdiv 2))).y1)
  else (x0, y0)

/-- The 40-attempt placement loop of the entropy > 0 branch of
_generate_random. -/
def randPlaceAttempts (prob : ℚ) (room_min room_max : Int) :
    Nat → Dungeon → RNG → Option (Dungeon × RNG)
  | 0, d, g => some (d, g)
  | n+1, d, g => do
    let ((wr, hr), g) ← d.pick_room_size room_min room_max false g
    let (x0, g) ← randint 1 (max 1 (d.w - wr - 2)) g
    let (y0, g) ← randint 1 (max 1 (d.h - hr - 2)) g
    let new_room := Rect.mk4 (randXY d wr hr x0 y0).1 (randXY d wr hr x0 y0).2 wr hr
    if overlapsAny d new_room then
      randPlaceAttempts prob room_min room_max n d g
    else
      let d1 := d.carve_room new_room
      if d1.rooms ≠ [] then
        let prev := (d1.rooms.getLastD ⟨0,0,0,0⟩).center
        let d2 := d1.carve_corridor prev new_room.center (decide ((rand01 g).1 < prob))
        some (d2.register_room new_room, (rand01 g).2)
      else
        some (d1.register_room new_room, g)

def randPlaceLoop (prob : ℚ) (room_min room_max : Int) :
    Nat → Dungeon → RNG → Option (Dungeon × RNG)
  | 0, d, g => some (d, g)
  | n+1, d, g => do
    let (d, g) ← randPlaceAttempts prob room_min room_max 40 d g
    randPlaceLoop prob room_min room_max n d g

/-- The 30-attempt loop of the extra-room pass of _generate_random. -/
def randExtraAttempts (prob : ℚ) (room_min room_max : Int) :
    Nat → Dungeon → RNG → Option (Dungeon × RNG)
  | 0, d, g => some (d, g)
  | n+1, d, g => do
    let ((wr, hr), g) ← d.pick_room_size room_min room_max false g
    let (x0, g) ← randint 1 (max 1 (d.w - wr - 2)) g
    let (y0, g) ← randint 1 (max 1 (d.h - hr - 2)) g
    let new_room := Rect.mk4 (randExtraXY d wr hr x0 y0).1 (randExtraXY d wr hr x0 y0).2 wr hr
    if overlapsAny d new_room then
      randExtraAttempts prob room_min room_max n d g
    else
      let d1 := d.carve_room new_room
      let near := nearestRoom d1.rooms new_room.center
      let d2 := d1.carve_corridor near.center new_room.center
        (decide ((rand01 g).1 < prob))
      some (d2.register_room new_room, (rand01 g).2)

def randExtraLoop (prob : ℚ) (room_min room_max : Int) :
    Nat → Dungeon → RNG → Option (Dungeon × RNG)
  | 0, d, g => some (d, g)
  | n+1, d, g => do
    let (d, g) ← randExtraAttempts prob room_min room_max 30 d g
    randExtraLoop prob room_min room_max n d g

/-- _generate_random.  With entropy at most 0 it falls back to the
biased-linear regime. -/
def Dungeon.generate_random (d : Dungeon) (max_rooms room_min room_max : Int)
    (linearity entropy : ℚ) (g : RNG) : Option (Dungeon × RNG) :=
  if entropy ≤ 0 then
    d.generate_biased_linear max_rooms room_min room_max linearity entropy g
  else
    let prob := 1/2 + linearity * (1/4)
    do
      let (d, g) ← randPlaceLoop prob room_min room_max max_rooms.toNat d g
      if entropy > 0 ∧ d.rooms.length > 0 then
        let extra := pyInt (entropy * (max_rooms : ℚ) * (4/5))
        randExtraLoop prob room_min room_max extra.toNat d g
      else
        some (d, g)

/-! ## generate and generate_dungeon -/

/-- The door-candidate scan at the end of generate: row-major over the
interior, walls that qualify as room entrances. -/
def doorCandidates (d : Dungeon) : List (Int × Int) :=
  (pyRange 1 (d.h - 1)).flatMap (fun y =>
    (pyRange 1 (d.w - 1)).filterMap (fun x =>
      if d.tiles x y = TILE_WALL ∧ d.is_room_entrance x y then some (x, y) else none))

/-- The door-placement loop: each candidate becomes a door with
probability one half, re-validated by add_door against the current
grid. -/
def doorLoop : List (Int × Int) → Dungeon → RNG → Dungeon × RNG
  | [], d, g => (d, g)
  | (x, y) :: rest, d, g =>
    if (rand01 g).1 < 1/2 then doorLoop rest (d.add_door x y false).2 (rand01 g).2
    else doorLoop rest d (rand01 g).2

/-- Dungeon.generate: reset the quota bookkeeping, derive the large-room
requirements and the hallway-segment cap, run the regime selected by
linearity, set up the throne room, then place doors. -/
def generateSetup (d0 : Dungeon) (max_rooms room_min room_max : Int) : Dungeon :=
  let lw := max MIN_LARGE_ROOM_WIDTH room_min
  let lh := max MIN_LARGE_ROOM_HEIGHT room_min
  { d0 with
    rooms_total := 0
    rooms_large := 0
    max_rooms_planned := max_rooms
    large_width_requirement := lw
    large_height_requirement := lh
    enforce_large_rooms := decide (room_max ≥ lw ∧ room_max ≥ lh)
    max_hallway_segment := max 6 (min MAX_HALLWAY_SEGMENT (max d0.w d0.h)) }

def Dungeon.generate (d0 : Dungeon) (max_rooms room_min room_max : Int)
    (linearity entropy : ℚ) (g : RNG) : Option (Dungeon × RNG) := do
  let d := generateSetup d0 max_rooms room_min room_max
  let (d, g) ←
    if (4/5 : ℚ) ≤ linearity then
      d.generate_linear max_rooms room_min room_max entropy g
    else if (2/5 : ℚ) ≤ linearity then
      d.generate_biased_linear max_rooms room_min room_max linearity entropy g
    else
      d.generate_random max_rooms room_min room_max linearity entropy g
  let d := d.setup_throne_room
  some (doorLoop (doorCandidates d) d g)

/-- The extra-connection loop of generate_dungeon (complexity links). -/
def extraLinksLoop : Nat → Dungeon → RNG → Dungeon × RNG
  | 0, d, g => (d, g)
  | n+1, d, g =>
    if d.rooms.length < 2 then (d, g)
    else
      let ia := (choiceIdx d.rooms.length g).1
      let g1 := (choiceIdx d.rooms.length g).2
      let ib := (choiceIdx d.rooms.length g1).1
      let g2 := (choiceIdx d.rooms.length g1).2
      if ia = ib then extraLinksLoop n d g2
      else
        let ac := (d.rooms.getD ia ⟨0,0,0,0⟩).center
        let bc := (d.rooms.getD ib ⟨0,0,0,0⟩).center
        if ((ac.1 - bc.1).natAbs : Int) + ((ac.2 - bc.2).natAbs : Int) > d.max_hallway_segment then
          extraLinksLoop n d g2
        else
          extraLinksLoop n (d.carve_corridor ac bc (decide ((rand01 g2).1 < 1/2)))
            (rand01 g2).2

/-- The width/height expansion generate_dungeon applies for linear
layouts (linearity at least one half). -/
def gdDims (width height room_max max_rooms : Int) (linearity : ℚ) : Int × Int :=
  if (1/2 : ℚ) ≤ linearity then
    let space_per_room := room_max + 8
    if width > height then
      (if width < max_rooms * space_per_room
       then min 250 (max_rooms * space_per_room + 20) else width, height)
    else
      (width, if height < max_rooms * space_per_room
       then min 250 (max_rooms * space_per_room + 20) else height)
  else (width, height)

/-- generate_dungeon: clamp the room count, expand the dominant
dimension for linear layouts, generate, then add complexity links when
linearity is at most one half. -/
def generate_dungeon (g : RNG) (width height : Int) (complexity : ℚ) (length : Int)
    (room_min room_max : Int) (linearity entropy : ℚ) : Option (Dungeon × RNG) := do
  let max_rooms := max 1 length
  let wh := gdDims width height room_max max_rooms linearity
  let d0 := Dungeon.init wh.1 wh.2
  let (d, g) ← d0.generate max_rooms room_min room_max linearity entropy g
  if linearity ≤ (1/2 : ℚ) then
    let extra_links := max 0 (pyInt (complexity * (max 0 ((d.rooms.length : ℚ) - 1))))
    some (extraLinksLoop extra_links.toNat d g)
  else
    some (d, g)

/-! ## FOV: recursive shadow-casting (src/main.py FOV.compute) -/

/-- The visible set.  The Python set of (x, y) pairs is modelled as a
duplicate-free list: add is insert-if-absent, union is append, and every
statement about the set is a statement about membership. -/
abbrev Vis := List (Int × Int)

/-- set.add: insert if absent. -/
def visInsert (p : Int × Int) (vis : Vis) : Vis := if p ∈ vis then vis else p :: vis

/-- One octant transform (xx, xy, yx, yy). -/
structure Oct where
  xx : Int
  xy : Int
  yx : Int
  yy : Int

/-- The 8 octants, in source order. -/
def octants : List Oct :=
  [⟨1, 0, 0, 1⟩, ⟨0, 1, 1, 0⟩, ⟨0, -1, 1, 0⟩, ⟨1, 0, 0, -1⟩,
   ⟨-1, 0, 0, -1⟩, ⟨0, -1, -1, 0⟩, ⟨0, 1, -1, 0⟩, ⟨-1, 0, 0, 1⟩]

/-- set_visible: math.sqrt(dx*dx + dy*dy) <= radius decided exactly on
squares (for an integer radius the correctly rounded float comparison
agrees with the square comparison, with the sign guard covering a
negative radius). -/
def setVisible (cx cy radius X Y : Int) (vis : Vis) : Vis :=
  if 0 ≤ radius ∧ (X - cx) * (X - cx) + (Y - cy) * (Y - cy) ≤ radius * radius
  then visInsert (X, Y) vis else vis

/-- The state produced by one row scan of cast_shadows: the visible set,
the (possibly narrowed) start slope carried to the next row, and the
blocked flag that terminates the row loop. -/
structure ScanSt where
  vis : Vis
  startSlope : ℚ
  blocked : Bool

/-- World x coordinate of the local octant cell (dx, dy = -i):
cx + dx * xx + dy * xy. -/
def octX (cx : Int) (o : Oct) (i dx : Int) : Int := cx + dx * o.xx + (-i) * o.xy

/-- World y coordinate: cy + dx * yx + dy * yy. -/
def octY (cy : Int) (o : Oct) (i dx : Int) : Int := cy + dx * o.yx + (-i) * o.yy

/-- l_slope = (dx - 0.5) / (dy + 0.5) with dy = -i, exact. -/
def lSlope (i dx : Int) : ℚ := ((dx : ℚ) - 1/2) / (-(i : ℚ) + 1/2)

/-- r_slope = (dx + 0.5) / (dy - 0.5) with dy = -i, exact. -/
def rSlope (i dx : Int) : ℚ := ((dx : ℚ) + 1/2) / (-(i : ℚ) - 1/2)

/-- The visible-set update of one column: mark when the local cell is
inside the squared radius (the set_visible call re-checks the world
distance). -/
def markCell (cx cy radius : Int) (o : Oct) (i dx : Int) (vis : Vis) : Vis :=
  if dx * dx + i * i ≤ radius * radius
  then setVisible cx cy radius (octX cx o i dx) (octY cy o i dx) vis else vis

/-- The outcome of one iteration of the while dx <= 0 loop: either the
loop breaks with a final row state, or it continues with updated
start slope, new_start, blocked flag and visible set. -/
inductive StepRes
  | done : ScanSt → StepRes
  | next : ℚ → ℚ → Bool → Vis → StepRes

/-- One iteration of the while dx <= 0 loop of cast_shadows (dy fixed at
-i): skip out-of-bounds and not-yet-in-window columns, break when the
window is passed, otherwise mark the cell and update the blocking state,
spawning the recursive cast_shadows call (the spawn argument) when a
fresh blocking tile is entered before the last row. -/
def scanStep (d : Dungeon) (cx cy radius : Int) (endSlope : ℚ) (o : Oct)
    (spawn : Int → ℚ → ℚ → Vis → Vis) (i dx : Int)
    (startSlope newStart : ℚ) (blocked : Bool) (vis : Vis) : StepRes :=
  if ¬ d.inBounds (octX cx o i dx) (octY cy o i dx) then
    StepRes.next startSlope newStart blocked vis
  else if startSlope < rSlope i dx then
    StepRes.next startSlope newStart blocked vis
  else if endSlope > lSlope i dx then
    StepRes.done ⟨vis, startSlope, blocked⟩
  else if blocked then
    if d.is_wall (octX cx o i dx) (octY cy o i dx) then
      StepRes.next startSlope (rSlope i dx) true (markCell cx cy radius o i dx vis)
    else
      StepRes.next newStart newStart false (markCell cx cy radius o i dx vis)
  else
    if d.is_wall (octX cx o i dx) (octY cy o i dx) ∧ i < radius then
      StepRes.next startSlope (rSlope i dx) true
        (spawn (i+1) startSlope (lSlope i dx) (markCell cx cy radius o i dx vis))
    else
      StepRes.next startSlope newStart blocked (markCell cx cy radius o i dx vis)

/-- The while dx <= 0 column loop of cast_shadows, with structural fuel
(1 - dx).toNat: the fuel reaches 0 exactly when dx > 0, i.e. at the loop
exit, so the fuelled function is the loop. -/
def scanCols (d : Dungeon) (cx cy radius : Int) (endSlope : ℚ) (o : Oct)
    (spawn : Int → ℚ → ℚ → Vis → Vis) (i : Int) :
    Nat → Int → ℚ → ℚ → Bool → Vis → ScanSt
  | 0, _, startSlope, _, blocked, vis => ⟨vis, startSlope, blocked⟩
  | fuel+1, dx, startSlope, newStart, blocked, vis =>
    if dx > 0 then ⟨vis, startSlope, blocked⟩
    else
      match scanStep d cx cy radius endSlope o spawn i dx startSlope newStart blocked vis with
      | StepRes.done st => st
      | StepRes.next s ns b v =>
          scanCols d cx cy radius endSlope o spawn i fuel (dx+1) s ns b v

/-- One row of cast_shadows: run the column loop (its column fuel
(1 - (-i)).toNat is exact, see scanCols), break the row loop when the
row ended blocked. -/
def rowScan (d : Dungeon) (cx cy radius : Int) (endSlope : ℚ) (o : Oct)
    (spawn : Int → ℚ → ℚ → Vis → Vis) (i : Int) (startSlope : ℚ) (vis : Vis) : ScanSt :=
  scanCols d cx cy radius endSlope o spawn i (1 - (-i)).toNat (-i) startSlope startSlope false vis

/-- The for i in range(row, radius + 1) row loop of cast_shadows, with
structural fuel (radius + 1 - i).toNat, which reaches 0 exactly when
i > radius, i.e. at the loop exit. -/
def castRows (d : Dungeon) (cx cy radius : Int) (endSlope : ℚ) (o : Oct)
    (spawn : Int → ℚ → ℚ → Vis → Vis) : Nat → Int → ℚ → Vis → Vis
  | 0, _, _, vis => vis
  | fuel+1, i, startSlope, vis =>
    if i > radius then vis
    else if (rowScan d cx cy radius endSlope o spawn i startSlope vis).blocked then
      (rowScan d cx cy radius endSlope o spawn i startSlope vis).vis
    else
      castRows d cx cy radius endSlope o spawn fuel (i+1)
        (rowScan d cx cy radius endSlope o spawn i startSlope vis).startSlope
        (rowScan d cx cy radius endSlope o spawn i startSlope vis).vis

/-- cast_shadows with a fuel bound on the recursion depth.  Each
recursive call starts at a strictly larger row and rows never exceed the
radius, so fuel radius + 1 is never exhausted from row 1. -/
def castShadowsF (d : Dungeon) (cx cy radius : Int) (o : Oct) :
    Nat → Int → ℚ → ℚ → Vis → Vis
  | 0, _, _, _, vis => vis
  | fuel+1, row, startSlope, endSlope, vis =>
    if startSlope < endSlope then vis
    else castRows d cx cy radius endSlope o (castShadowsF d cx cy radius o fuel)
      (radius + 1 - row).toNat row startSlope vis

/-- FOV.compute: origin plus the union of the 8 octant scans. -/
def FOV.compute (d : Dungeon) (cx cy radius : Int) : Vis :=
  octants.foldl (fun vis o => castShadowsF d cx cy radius o (radius.toNat + 1) 1 1 0 vis)
    [(cx, cy)]

/-! ## Lighting (src/main.py evaluate_light_sources and the per-frame
visibility composition) -/

inductive Falloff
  | quadratic
  | linear
deriving DecidableEq

structure LightSource where
  pos : Int × Int
  radius : ℚ
  intensity : ℚ
  falloff : Falloff
  is_torch : Bool

/-- A monotone rational stand-in for the float square root, used only in
the linear-falloff brightness value (which no claim compares exactly);
every comparison that gates behaviour is decided exactly on squares. -/
def ratSqrt (q : ℚ) : ℚ :=
  if q ≤ 0 then 0 else ((Nat.sqrt (⌊q * 1000000000000⌋).toNat : ℚ)) / 1000000

/-- The body of the evaluate_light_sources loop for one source.
dist > radius and dist <= 0.5 are decided exactly on squares; the
quadratic value intensity * (1 - (dist/radius)^2) equals
intensity * (1 - distSq/radius^2) exactly. -/
def lightStep (wx wy : Int) (best : ℚ × Option (Int × Int)) (src : LightSource) :
    ℚ × Option (Int × Int) :=
  let dx := wx - src.pos.1
  let dy := wy - src.pos.2
  let distSq : ℚ := ((dx * dx + dy * dy : Int) : ℚ)
  if src.radius < 0 ∨ distSq > src.radius * src.radius then best
  else if src.radius ≤ 1/1000000 then best
  else
    let val0 :=
      if src.is_torch = true then
        src.intensity * max 0 (1 - distSq / (src.radius * src.radius))
      else
        match src.falloff with
        | Falloff.linear => src.intensity * max 0 (1 - ratSqrt distSq / src.radius)
        | Falloff.quadratic => src.intensity * max 0 (1 - distSq / (src.radius * src.radius))
    let val := if distSq ≤ 1/4 then max val0 src.intensity else val0
    if val > best.1 then (val, some src.pos) else best

/-- evaluate_light_sources: best brightness and its source position. -/
def evaluate_light_sources (sources : List LightSource) (wx wy : Int) :
    ℚ × Option (Int × Int) :=
  sources.foldl (lightStep wx wy) (0, none)

/-- A static torch as used by the per-frame composition. -/
structure Torch where
  x : Int
  y : Int
  radius : ℚ

/-- ceil(sqrt S + r) for a nonnegative integer S and rational r, i.e.
the least integer m with m - r nonnegative and (m - r)^2 at least S;
used for the extended radius (math.ceil of dist + torch radius). -/
def ceilSqrtPlus (S : Int) (r : ℚ) : Int :=
  let base : Int := (Nat.sqrt S.toNat : Int)
  let c1 := ⌈(base : ℚ) + r⌉
  if 0 ≤ (c1 : ℚ) - r ∧ (S : ℚ) ≤ ((c1 : ℚ) - r) * ((c1 : ℚ) - r) then c1 else c1 + 1

/-- The square scan around one torch in the composition loop: in-bounds
tiles within the torch radius (with the 1e-6 slack) that passed the
shadow cast. -/
def torchDisc (d : Dungeon) (los : Vis) (t : Torch) : Vis :=
  los.filter (fun p => decide (
    ((p.1 - t.x).natAbs : Int) ≤ ⌈t.radius⌉ ∧ ((p.2 - t.y).natAbs : Int) ≤ ⌈t.radius⌉ ∧
    d.inBounds p.1 p.2 ∧
    (((p.1 - t.x) * (p.1 - t.x) + (p.2 - t.y) * (p.2 - t.y) : Int) : ℚ) ≤
      t.radius * t.radius + 1/1000000))

/-- The per-frame composed visible set (main loop, non-debug branch):
player tiles within the base radius plus, for every torch whose tile
passed the shadow cast, the torch disc; the shadow cast runs once at the
extended radius covering every source reach. -/
def composedVisible (d : Dungeon) (px py : Int) (light_radius : ℚ)
    (torches : List Torch) : Vis :=
  let base_radius := max 1 (pyInt (light_radius - 1/2))
  let extended_radius := torches.foldl (fun acc t =>
      max acc (ceilSqrtPlus ((t.x - px) * (t.x - px) + (t.y - py) * (t.y - py)) t.radius))
    base_radius
  let los := FOV.compute d px py extended_radius
  let base := los.filter (fun p => decide (
    (p.1 - px) * (p.1 - px) + (p.2 - py) * (p.2 - py) ≤ base_radius * base_radius))
  torches.foldl (fun acc t => if (t.x, t.y) ∈ los then acc ++ torchDisc d los t else acc) base

/-! # Theorems -/

/-! ## C6: corridor axis runs are bounded by max_hallway_segment -/

/-- The while-loop invariant of _axis_steps: with a positive segment cap
and enough fuel, the produced points form a chain whose consecutive
differences are bounded by the cap, ending exactly at the endpoint. -/
theorem axisStepsGo_spec (seg : Int) (hseg : 1 ≤ seg) :
    ∀ (fuel : Nat) (cur e : Int), (e - cur).natAbs ≤ fuel →
      List.Chain' (fun a b => ((b - a).natAbs : Int) ≤ seg) (cur :: axisStepsGo seg fuel cur e) ∧
      (cur :: axisStepsGo seg fuel cur e).getLast? = some e := by
  intro fuel
  induction fuel with
  | zero =>
    intro cur e h
    have : cur = e := by omega
    subst this
    simp [axisStepsGo]
  | succ n ih =>
    intro cur e h
    by_cases hce : cur = e
    · subst hce; simp [axisStepsGo]
    · by_cases hnear : ((e - cur).natAbs : Int) ≤ seg
      · rw [axisStepsGo, if_neg hce, if_pos hnear]
        refine ⟨?_, by simp⟩
        simp [List.chain'_cons]
        rw [Int.abs_eq_natAbs]
        omega
      · rw [axisStepsGo, if_neg hce, if_neg hnear]
        by_cases hpos : e - cur > 0
        · simp only [if_pos hpos]
          have hrec := ih (cur + seg) e (by omega)
          refine ⟨?_, ?_⟩
          · exact List.Chain'.cons (by omega) hrec.1
          · have := hrec.2
            cases hx : axisStepsGo seg n (cur + seg) e with
            | nil => simp [hx] at this ⊢; omega
            | cons a l => simp [hx] at this ⊢; exact this
        · simp only [if_neg hpos]
          have hrec := ih (cur + -seg) e (by omega)
          refine ⟨?_, ?_⟩
          · exact List.Chain'.cons (by omega) hrec.1
          · have := hrec.2
            cases hx : axisStepsGo seg n (cur + -seg) e with
            | nil => simp [hx] at this ⊢; omega
            | cons a l => simp [hx] at this ⊢; exact this

/-- C6: every corridor axis run is split so that consecutive points
produced by _axis_steps differ by at most max_hallway_segment, and the
sequence ends exactly at the requested endpoint.  The hypothesis that
the cap is at least 1 always holds during generation, where it is set to
max 6 (min 18 (max w h)). -/
theorem c6_axis_steps_segment_bound (d : Dungeon) (hseg : 1 ≤ d.max_hallway_segment)
    (s e : Int) :
    List.Chain' (fun a b => ((b - a).natAbs : Int) ≤ d.max_hallway_segment)
      (s :: d.axis_steps s e) ∧
    (s :: d.axis_steps s e).getLast? = some e :=
  axisStepsGo_spec d.max_hallway_segment hseg (e - s).natAbs s e le_rfl

/-- Witness for C6 at a concrete instance: cap 2, from 0 to 5. -/
theorem c6_axis_steps_segment_bound_witness :
    List.Chain' (fun a b => ((b - a).natAbs : Int) ≤ (Dungeon.init 20 10).max_hallway_segment)
      (0 :: (Dungeon.init 20 10).axis_steps 0 5) ∧
    (0 :: (Dungeon.init 20 10).axis_steps 0 5).getLast? = some 5 :=
  c6_axis_steps_segment_bound (Dungeon.init 20 10) (by decide) 0 5

/-! ## FOV basics: the scan only ever adds tiles -/

theorem visInsert_grow (p : Int × Int) (vis : Vis) : vis ⊆ visInsert p vis := by
  unfold visInsert
  split
  · exact List.Subset.refl _
  · exact fun a ha => List.mem_cons_of_mem _ ha

theorem visInsert_mem (q p : Int × Int) (vis : Vis) :
    q ∈ visInsert p vis ↔ q = p ∨ q ∈ vis := by
  unfold visInsert
  split
  · rename_i hmem
    constructor
    · exact Or.inr
    · rintro (rfl | h)
      · exact hmem
      · exact h
  · exact List.mem_cons

theorem setVisible_grow (cx cy radius X Y : Int) (vis : Vis) :
    vis ⊆ setVisible cx cy radius X Y vis := by
  unfold setVisible
  split
  · exact visInsert_grow _ _
  · exact List.Subset.refl _

theorem markCell_grow (cx cy radius : Int) (o : Oct) (i dx : Int) (vis : Vis) :
    vis ⊆ markCell cx cy radius o i dx vis := by
  unfold markCell
  split
  · exact setVisible_grow ..
  · exact List.Subset.refl _

theorem scanStep_grow_done (d : Dungeon) (cx cy radius : Int) (endSlope : ℚ) (o : Oct)
    (spawn : Int → ℚ → ℚ → Vis → Vis) (i dx : Int)
    (s ns : ℚ) (b : Bool) (vis : Vis) (st : ScanSt)
    (h : scanStep d cx cy radius endSlope o spawn i dx s ns b vis = StepRes.done st) :
    vis ⊆ st.vis := by
  unfold scanStep at h
  split_ifs at h
  all_goals cases h
  all_goals exact List.Subset.refl _

theorem scanStep_grow_next (d : Dungeon) (cx cy radius : Int) (endSlope : ℚ) (o : Oct)
    (spawn : Int → ℚ → ℚ → Vis → Vis)
    (hspawn : ∀ r s e v, v ⊆ spawn r s e v) (i dx : Int)
    (s ns : ℚ) (b : Bool) (vis : Vis) (s2 ns2 : ℚ) (b2 : Bool) (v2 : Vis)
    (h : scanStep d cx cy radius endSlope o spawn i dx s ns b vis = StepRes.next s2 ns2 b2 v2) :
    vis ⊆ v2 := by
  unfold scanStep at h
  split_ifs at h
  all_goals cases h
  all_goals first
    | exact List.Subset.refl _
    | exact markCell_grow cx cy radius o i dx vis
    | exact List.Subset.trans (markCell_grow cx cy radius o i dx vis) (hspawn _ _ _ _)

theorem scanCols_grow (d : Dungeon) (cx cy radius : Int) (endSlope : ℚ) (o : Oct)
    (spawn : Int → ℚ → ℚ → Vis → Vis)
    (hspawn : ∀ r s e v, v ⊆ spawn r s e v) (i : Int) :
    ∀ (fuel : Nat) (dx : Int) (s ns : ℚ) (b : Bool) (vis : Vis),
      vis ⊆ (scanCols d cx cy radius endSlope o spawn i fuel dx s ns b vis).vis := by
  intro fuel
  induction fuel with
  | zero => intro dx s ns b vis; exact List.Subset.refl _
  | succ n ih =>
    intro dx s ns b vis
    rw [scanCols]
    split
    · exact List.Subset.refl _
    · cases hstep : scanStep d cx cy radius endSlope o spawn i dx s ns b vis with
      | done st => exact scanStep_grow_done d cx cy radius endSlope o spawn i dx s ns b vis st hstep
      | next s2 ns2 b2 v2 =>
          exact List.Subset.trans
            (scanStep_grow_next d cx cy radius endSlope o spawn hspawn i dx s ns b vis s2 ns2 b2 v2 hstep)
            (ih (dx+1) s2 ns2 b2 v2)

theorem rowScan_grow (d : Dungeon) (cx cy radius : Int) (endSlope : ℚ) (o : Oct)
    (spawn : Int → ℚ → ℚ → Vis → Vis)
    (hspawn : ∀ r s e v, v ⊆ spawn r s e v) (i : Int) (s : ℚ) (vis : Vis) :
    vis ⊆ (rowScan d cx cy radius endSlope o spawn i s vis).vis :=
  scanCols_grow d cx cy radius endSlope o spawn hspawn i (1 - (-i)).toNat (-i) s s false vis

theorem castRows_grow (d : Dungeon) (cx cy radius : Int) (endSlope : ℚ) (o : Oct)
    (spawn : Int → ℚ → ℚ → Vis → Vis)
    (hspawn : ∀ r s e v, v ⊆ spawn r s e v) :
    ∀ (fuel : Nat) (i : Int) (s : ℚ) (vis : Vis),
      vis ⊆ castRows d cx cy radius endSlope o spawn fuel i s vis := by
  intro fuel
  induction fuel with
  | zero => intro i s vis; exact List.Subset.refl _
  | succ n ih =>
    intro i s vis
    rw [castRows]
    split_ifs
    · exact List.Subset.refl _
    · exact rowScan_grow d cx cy radius endSlope o spawn hspawn i s vis
    · exact List.Subset.trans
        (rowScan_grow d cx cy radius endSlope o spawn hspawn i s vis)
        (ih (i+1) _ _)

theorem castShadowsF_grow (d : Dungeon) (cx cy radius : Int) (o : Oct) :
    ∀ (fuel : Nat) (row : Int) (s e : ℚ) (vis : Vis),
      vis ⊆ castShadowsF d cx cy radius o fuel row s e vis := by
  intro fuel
  induction fuel with
  | zero => intro row s e vis; exact List.Subset.refl _
  | succ fuel ih =>
    intro row s e vis
    rw [castShadowsF]
    split
    · exact List.Subset.refl _
    · exact castRows_grow d cx cy radius e o (castShadowsF d cx cy radius o fuel)
        (fun r s v w => ih r s v w) (radius + 1 - row).toNat row s vis

theorem compute_grow (d : Dungeon) (cx cy radius : Int) :
    ([(cx, cy)] : Vis) ⊆ FOV.compute d cx cy radius := by
  unfold FOV.compute
  generalize ([(cx, cy)] : Vis) = v0
  induction octants generalizing v0 with
  | nil => exact List.Subset.refl _
  | cons o os ih =>
      exact List.Subset.trans (castShadowsF_grow d cx cy radius o (radius.toNat + 1) 1 1 0 v0) (ih _)

/-- With a non-positive radius every octant scan is a no-op: row 1
already exceeds the radius. -/
theorem castShadowsF_nonpos (d : Dungeon) (cx cy radius : Int) (o : Oct)
    (hrad : radius ≤ 0) (fuel : Nat) (s e : ℚ) (vis : Vis) :
    castShadowsF d cx cy radius o fuel 1 s e vis = vis := by
  cases fuel with
  | zero => rfl
  | succ fuel =>
    rw [castShadowsF]
    split
    · rfl
    · rw [show (radius + 1 - 1).toNat = 0 from by omega]
      rfl

/-- C9: FOV.compute never raises (it is a total function of the embedded
state, with no grid access outside is_wall and no division by zero:
the slope denominators at row i are i - 1/2 and i + 1/2 with i at least
1), it always contains its origin, and for a non-positive radius it
returns exactly the origin singleton. -/
theorem c9_fov_total_origin (d : Dungeon) (cx cy radius : Int) :
    (cx, cy) ∈ FOV.compute d cx cy radius ∧
    (radius ≤ 0 → FOV.compute d cx cy radius = [(cx, cy)]) := by
  constructor
  · exact compute_grow d cx cy radius (List.mem_singleton.2 rfl)
  · intro hrad
    unfold FOV.compute
    have : ∀ (os : List Oct) (v : Vis),
        os.foldl (fun vis o => castShadowsF d cx cy radius o (radius.toNat + 1) 1 1 0 vis) v = v := by
      intro os
      induction os with
      | nil => intro v; rfl
      | cons o os ih =>
          intro v
          rw [List.foldl_cons, castShadowsF_nonpos d cx cy radius o hrad]
          exact ih v
    exact this octants _

/-- Witness for C9 at radius 0 on a concrete dungeon. -/
theorem c9_fov_total_origin_witness :
    (2, 2) ∈ FOV.compute (Dungeon.init 5 5) 2 2 0 ∧
    FOV.compute (Dungeon.init 5 5) 2 2 0 = [(2, 2)] := by
  have h := c9_fov_total_origin (Dungeon.init 5 5) 2 2 0
  exact ⟨h.1, h.2 le_rfl⟩

/-! ## C10: the visible set never leaks out of bounds or past the radius -/

/-- Soundness predicate for the visible set: every tile other than the
origin is in bounds and within the Euclidean radius. -/
def fovSound (d : Dungeon) (cx cy radius : Int) (vis : Vis) : Prop :=
  ∀ p ∈ vis, p = (cx, cy) ∨
    (d.inBounds p.1 p.2 ∧
     (p.1 - cx) * (p.1 - cx) + (p.2 - cy) * (p.2 - cy) ≤ radius * radius)

theorem setVisible_sound (d : Dungeon) (cx cy radius X Y : Int) (vis : Vis)
    (hXY : d.inBounds X Y) (hv : fovSound d cx cy radius vis) :
    fovSound d cx cy radius (setVisible cx cy radius X Y vis) := by
  unfold setVisible
  split
  · rename_i hc
    intro p hp
    rcases (visInsert_mem p (X, Y) vis).1 hp with h | h
    · subst h
      exact Or.inr ⟨hXY, hc.2⟩
    · exact hv p h
  · exact hv

theorem markCell_sound (d : Dungeon) (cx cy radius : Int) (o : Oct) (i dx : Int) (vis : Vis)
    (hXY : d.inBounds (octX cx o i dx) (octY cy o i dx))
    (hv : fovSound d cx cy radius vis) :
    fovSound d cx cy radius (markCell cx cy radius o i dx vis) := by
  unfold markCell
  split
  · exact setVisible_sound d cx cy radius _ _ vis hXY hv
  · exact hv

theorem scanStep_sound (d : Dungeon) (cx cy radius : Int) (endSlope : ℚ) (o : Oct)
    (spawn : Int → ℚ → ℚ → Vis → Vis)
    (hspawn : ∀ r s e v, fovSound d cx cy radius v → fovSound d cx cy radius (spawn r s e v))
    (i dx : Int) (s ns : ℚ) (b : Bool) (vis : Vis)
    (hv : fovSound d cx cy radius vis) :
    (∀ st, scanStep d cx cy radius endSlope o spawn i dx s ns b vis = StepRes.done st →
      fovSound d cx cy radius st.vis) ∧
    (∀ s2 ns2 b2 v2,
      scanStep d cx cy radius endSlope o spawn i dx s ns b vis = StepRes.next s2 ns2 b2 v2 →
      fovSound d cx cy radius v2) := by
  constructor
  · intro st h
    unfold scanStep at h
    split_ifs at h
    all_goals cases h
    all_goals exact hv
  · intro s2 ns2 b2 v2 h
    unfold scanStep at h
    split_ifs at h
    all_goals cases h
    all_goals first
      | exact hv
      | exact markCell_sound d cx cy radius o i dx vis (by tauto) hv
      | exact hspawn _ _ _ _ (markCell_sound d cx cy radius o i dx vis (by tauto) hv)

theorem scanCols_sound (d : Dungeon) (cx cy radius : Int) (endSlope : ℚ) (o : Oct)
    (spawn : Int → ℚ → ℚ → Vis → Vis)
    (hspawn : ∀ r s e v, fovSound d cx cy radius v → fovSound d cx cy radius (spawn r s e v))
    (i : Int) :
    ∀ (fuel : Nat) (dx : Int) (s ns : ℚ) (b : Bool) (vis : Vis),
      fovSound d cx cy radius vis →
      fovSound d cx cy radius (scanCols d cx cy radius endSlope o spawn i fuel dx s ns b vis).vis := by
  intro fuel
  induction fuel with
  | zero => intro dx s ns b vis hv; exact hv
  | succ n ih =>
    intro dx s ns b vis hv
    rw [scanCols]
    split
    · exact hv
    · cases hstep : scanStep d cx cy radius endSlope o spawn i dx s ns b vis with
      | done st =>
          exact (scanStep_sound d cx cy radius endSlope o spawn hspawn i dx s ns b vis hv).1
            st hstep
      | next s2 ns2 b2 v2 =>
          exact ih (dx+1) s2 ns2 b2 v2
            ((scanStep_sound d cx cy radius endSlope o spawn hspawn i dx s ns b vis hv).2
              s2 ns2 b2 v2 hstep)

theorem castRows_sound (d : Dungeon) (cx cy radius : Int) (endSlope : ℚ) (o : Oct)
    (spawn : Int → ℚ → ℚ → Vis → Vis)
    (hspawn : ∀ r s e v, fovSound d cx cy radius v → fovSound d cx cy radius (spawn r s e v)) :
    ∀ (fuel : Nat) (i : Int) (s : ℚ) (vis : Vis),
      fovSound d cx cy radius vis →
      fovSound d cx cy radius (castRows d cx cy radius endSlope o spawn fuel i s vis) := by
  intro fuel
  induction fuel with
  | zero => intro i s vis hv; exact hv
  | succ n ih =>
    intro i s vis hv
    rw [castRows]
    split_ifs
    · exact hv
    · exact scanCols_sound d cx cy radius endSlope o spawn hspawn i (1 - (-i)).toNat (-i)
        s s false vis hv
    · exact ih (i+1) _ _
        (scanCols_sound d cx cy radius endSlope o spawn hspawn i (1 - (-i)).toNat (-i)
          s s false vis hv)

theorem castShadowsF_sound (d : Dungeon) (cx cy radius : Int) (o : Oct) :
    ∀ (fuel : Nat) (row : Int) (s e : ℚ) (vis : Vis),
      fovSound d cx cy radius vis →
      fovSound d cx cy radius (castShadowsF d cx cy radius o fuel row s e vis) := by
  intro fuel
  induction fuel with
  | zero => intro row s e vis hv; exact hv
  | succ fuel ih =>
    intro row s e vis hv
    rw [castShadowsF]
    split
    · exact hv
    · exact castRows_sound d cx cy radius e o (castShadowsF d cx cy radius o fuel)
        (fun r s v w => ih r s v w) (radius + 1 - row).toNat row s vis hv

/-- C10: every tile returned by FOV.compute other than the origin is in
bounds and within the Euclidean radius, whatever the grid contents. -/
theorem c10_fov_in_bounds_in_disc (d : Dungeon) (cx cy radius : Int)
    (p : Int × Int) (hp : p ∈ FOV.compute d cx cy radius) (hne : p ≠ (cx, cy)) :
    d.inBounds p.1 p.2 ∧
    (p.1 - cx) * (p.1 - cx) + (p.2 - cy) * (p.2 - cy) ≤ radius * radius := by
  have hsound : fovSound d cx cy radius (FOV.compute d cx cy radius) := by
    unfold FOV.compute
    have base : fovSound d cx cy radius ([(cx, cy)] : Vis) := by
      intro q hq
      exact Or.inl (List.mem_singleton.1 hq)
    generalize ([(cx, cy)] : Vis) = v0 at base ⊢
    induction octants generalizing v0 with
    | nil => exact base
    | cons o os ih =>
        exact ih _ (castShadowsF_sound d cx cy radius o (radius.toNat + 1) 1 1 0 v0 base)
  rcases hsound p hp with h | h
  · exact absurd h hne
  · exact h

/-- Witness for C10 on a concrete open dungeon: the tile (1, 2) is seen
from (2, 2) at radius 1 and indeed lies in bounds inside the disc. -/
theorem c10_fov_in_bounds_in_disc_witness :
    ({ Dungeon.init 5 5 with tiles := fun _ _ => TILE_FLOOR } : Dungeon).inBounds 1 2 ∧
    ((1 : Int) - 2) * (1 - 2) + ((2 : Int) - 2) * (2 - 2) ≤ 1 * 1 :=
  c10_fov_in_bounds_in_disc { Dungeon.init 5 5 with tiles := fun _ _ => TILE_FLOOR }
    2 2 1 (1, 2) (by decide) (by decide)

/-! ## Generator invariants (C1, C2, C3, C5)

The generator only ever extends the room list through register_room, and
every register site is guarded by an intersection test; carving never
touches door state and never produces door tiles; room interiors are
carved to floor before registration and later carving can only turn
tiles into floor.  GInv packages these facts and is carried through
every placement loop by induction. -/

def countLarge (lw lh : Int) (rooms : List Rect) : Nat :=
  (rooms.filter (fun r => decide (r.x2 - r.x1 ≥ lw ∧ r.y2 - r.y1 ≥ lh))).length

structure GInv (d : Dungeon) : Prop where
  pairwise : d.rooms.Pairwise (fun a b => a.intersect b = false)
  total_eq : d.rooms_total = d.rooms.length
  large_eq : d.rooms_large = countLarge d.large_width_requirement d.large_height_requirement d.rooms
  quota : d.enforce_large_rooms = true → d.rooms.length ≤ 2 * d.rooms_large
  doors_none : ∀ x y, d.doors x y = -1
  no_door_tiles : ∀ x y, d.tiles x y ≠ TILE_DOOR
  interiors_floor : ∀ r ∈ d.rooms, ∀ x y, r.x1 + 1 ≤ x → x < r.x2 - 1 →
    r.y1 + 1 ≤ y → y < r.y2 - 1 → d.inBounds x y → d.tiles x y = TILE_FLOOR

/-- The generator fields that stay fixed throughout one generate run. -/
def FieldsEq (d d' : Dungeon) : Prop :=
  d'.w = d.w ∧ d'.h = d.h ∧
  d'.large_width_requirement = d.large_width_requirement ∧
  d'.large_height_requirement = d.large_height_requirement ∧
  d'.enforce_large_rooms = d.enforce_large_rooms ∧
  d'.max_hallway_segment = d.max_hallway_segment

theorem fieldsEq_refl (d : Dungeon) : FieldsEq d d := ⟨rfl, rfl, rfl, rfl, rfl, rfl⟩

theorem fieldsEq_trans {a b c : Dungeon} (h1 : FieldsEq a b) (h2 : FieldsEq b c) :
    FieldsEq a c := by
  obtain ⟨w1, h1', lw1, lh1, e1, m1⟩ := h1
  obtain ⟨w2, h2', lw2, lh2, e2, m2⟩ := h2
  exact ⟨w2.trans w1, h2'.trans h1', lw2.trans lw1, lh2.trans lh1, e2.trans e1, m2.trans m1⟩

/-- When large rooms are enforced the requirements fit between room_min
and room_max; established by generate and constant afterwards. -/
def SizeOK (room_min room_max : Int) (d : Dungeon) : Prop :=
  d.enforce_large_rooms = true →
    room_min ≤ d.large_width_requirement ∧ d.large_width_requirement ≤ room_max ∧
    room_min ≤ d.large_height_requirement ∧ d.large_height_requirement ≤ room_max

theorem sizeOK_transfer {rm rM : Int} {d d' : Dungeon} (h : SizeOK rm rM d)
    (hf : FieldsEq d d') : SizeOK rm rM d' := by
  intro he
  obtain ⟨-, -, lw, lh, e, -⟩ := hf
  rw [lw, lh]
  exact h (e ▸ he)

/-- What any pure carving step does: rooms, counters, fields and doors
unchanged, tiles only ever turned into floor. -/
def CarveLike (d d' : Dungeon) : Prop :=
  d'.rooms = d.rooms ∧ d'.rooms_total = d.rooms_total ∧ d'.rooms_large = d.rooms_large ∧
  FieldsEq d d' ∧ d'.doors = d.doors ∧
  (∀ x y, d'.tiles x y = d.tiles x y ∨ d'.tiles x y = TILE_FLOOR)

theorem carveLike_refl (d : Dungeon) : CarveLike d d :=
  ⟨rfl, rfl, rfl, fieldsEq_refl d, rfl, fun _ _ => Or.inl rfl⟩

theorem carveLike_trans {a b c : Dungeon} (h1 : CarveLike a b) (h2 : CarveLike b c) :
    CarveLike a c := by
  obtain ⟨r1, t1, l1, f1, d1, til1⟩ := h1
  obtain ⟨r2, t2, l2, f2, d2, til2⟩ := h2
  refine ⟨r2.trans r1, t2.trans t1, l2.trans l1, fieldsEq_trans f1 f2, d2.trans d1, ?_⟩
  intro x y
  rcases til2 x y with h | h
  · rw [h]; exact til1 x y
  · exact Or.inr h

theorem carveLike_floor {d d' : Dungeon} (h : CarveLike d d') {x y : Int}
    (hf : d.tiles x y = TILE_FLOOR) : d'.tiles x y = TILE_FLOOR := by
  rcases h.2.2.2.2.2 x y with h1 | h1
  · rw [h1, hf]
  · exact h1

theorem carveLike_inBounds {d d' : Dungeon} (h : CarveLike d d') (x y : Int) :
    d'.inBounds x y ↔ d.inBounds x y := by
  obtain ⟨-, -, -, ⟨hw, hh, -, -, -, -⟩, -, -⟩ := h
  unfold Dungeon.inBounds
  rw [hw, hh]

theorem carveLike_ginv {d d' : Dungeon} (h : CarveLike d d') (hg : GInv d) : GInv d' := by
  obtain ⟨hr, ht, hl, hf, hd, htil⟩ := h
  obtain ⟨hw, hh, hlw, hlh, he, hm⟩ := hf
  refine ⟨?_, ?_, ?_, ?_, ?_, ?_, ?_⟩
  · rw [hr]; exact hg.pairwise
  · rw [ht, hr]; exact hg.total_eq
  · rw [hl, hr, hlw, hlh]; exact hg.large_eq
  · rw [he, hr, hl]; exact hg.quota
  · intro x y; rw [hd]; exact hg.doors_none x y
  · intro x y
    rcases htil x y with h1 | h1
    · rw [h1]; exact hg.no_door_tiles x y
    · rw [h1]; intro hc; exact absurd hc (by decide)
  · intro r hrm x y h1 h2 h3 h4 hb
    rcases htil x y with ht1 | ht1
    · rw [ht1]
      exact hg.interiors_floor r (hr ▸ hrm) x y h1 h2 h3 h4
        ((carveLike_inBounds ⟨hr, ht, hl, ⟨hw, hh, hlw, hlh, he, hm⟩, hd, htil⟩ x y).1 hb)
    · exact ht1

theorem carve_room_carveLike (d : Dungeon) (room : Rect) :
    CarveLike d (d.carve_room room) := by
  refine ⟨rfl, rfl, rfl, fieldsEq_refl _, rfl, ?_⟩
  intro x y
  unfold Dungeon.carve_room
  dsimp only
  split
  · exact Or.inr rfl
  · exact Or.inl rfl

theorem carve_h_tunnel_carveLike (d : Dungeon) (x1 x2 y : Int) :
    CarveLike d (d.carve_h_tunnel x1 x2 y) := by
  refine ⟨rfl, rfl, rfl, fieldsEq_refl _, rfl, ?_⟩
  intro a b
  unfold Dungeon.carve_h_tunnel
  dsimp only
  split
  · exact Or.inr rfl
  · exact Or.inl rfl

theorem carve_v_tunnel_carveLike (d : Dungeon) (y1 y2 x : Int) :
    CarveLike d (d.carve_v_tunnel y1 y2 x) := by
  refine ⟨rfl, rfl, rfl, fieldsEq_refl _, rfl, ?_⟩
  intro a b
  unfold Dungeon.carve_v_tunnel
  dsimp only
  split
  · exact Or.inr rfl
  · exact Or.inl rfl

theorem carveHPhase_carveLike (cy : Int) :
    ∀ (steps : List Int) (d : Dungeon) (cx : Int),
      CarveLike d (carveHPhase cy (d, cx) steps).1 := by
  intro steps
  induction steps with
  | nil => intro d cx; exact carveLike_refl d
  | cons t ts ih =>
      intro d cx
      exact carveLike_trans (carve_h_tunnel_carveLike d cx t cy) (ih _ t)

theorem carveVPhase_carveLike (cx : Int) :
    ∀ (steps : List Int) (d : Dungeon) (cy : Int),
      CarveLike d (carveVPhase cx (d, cy) steps).1 := by
  intro steps
  induction steps with
  | nil => intro d cy; exact carveLike_refl d
  | cons t ts ih =>
      intro d cy
      exact carveLike_trans (carve_v_tunnel_carveLike d cy t cx) (ih _ t)

theorem carve_corridor_carveLike (d : Dungeon) (s e : Int × Int) (hf : Bool) :
    CarveLike d (d.carve_corridor s e hf) := by
  unfold Dungeon.carve_corridor
  dsimp only
  split
  · exact carveLike_trans (carveHPhase_carveLike s.2 _ d s.1)
      (carveVPhase_carveLike _ _ _ s.2)
  · exact carveLike_trans (carveVPhase_carveLike s.1 _ d s.2)
      (carveHPhase_carveLike _ _ _ s.1)

theorem intersect_symm (a b : Rect) : a.intersect b = b.intersect a := by
  unfold Rect.intersect
  by_cases h : a.x1 < b.x2 ∧ a.x2 > b.x1 ∧ a.y1 < b.y2 ∧ a.y2 > b.y1
  · rw [decide_eq_true h, decide_eq_true (by omega : b.x1 < a.x2 ∧ b.x2 > a.x1 ∧ b.y1 < a.y2 ∧ b.y2 > a.y1)]
  · rw [decide_eq_false h, decide_eq_false (by omega : ¬ (b.x1 < a.x2 ∧ b.x2 > a.x1 ∧ b.y1 < a.y2 ∧ b.y2 > a.y1))]

/-- Intersecting a room implies intersecting its 2-tile buffer, so the
buffered rejection test is at least as strict as the raw one. -/
theorem intersect_buffered (a e : Rect) (h : a.intersect e = true) :
    a.intersect (bufferedRect e) = true := by
  unfold Rect.intersect at h ⊢
  unfold bufferedRect Rect.mk4
  rw [decide_eq_true_eq] at h
  exact decide_eq_true (by dsimp only; omega)

/-- Reading a false any as the universal negative for the overlap
tests. -/
theorem any_intersect_false {rooms : List Rect} {room : Rect}
    (h : (rooms.any (fun e => room.intersect (bufferedRect e))) = false) :
    ∀ e ∈ rooms, room.intersect e = false := by
  intro e he
  have := (List.any_eq_false).1 h e he
  by_cases hx : room.intersect e = true
  · exact absurd (intersect_buffered room e hx) this
  · exact Bool.eq_false_iff.2 hx

theorem any_intersect_false_direct {rooms : List Rect} {room : Rect}
    (h : (rooms.any (fun o => room.intersect o)) = false) :
    ∀ e ∈ rooms, room.intersect e = false := by
  intro e he
  exact Bool.eq_false_iff.2 ((List.any_eq_false).1 h e he)

/-- _should_force_large_room fires exactly while the large count is at
most half the placed count. -/
theorem should_force_iff (d : Dungeon) :
    d.should_force_large_room = true ↔
      (d.enforce_large_rooms = true ∧ 2 * d.rooms_large ≤ d.rooms_total) := by
  unfold Dungeon.should_force_large_room
  split
  · rename_i he
    simp only [he, true_and, decide_eq_true_eq]
    omega
  · rename_i he
    simp only [Bool.not_eq_true] at he
    simp [he]

/-- The sampling loop of _pick_room_size returns a large pair whenever
it is forcing. -/
theorem pickSizeAttempts_forced (rm rM lw lh : Int) :
    ∀ (n : Nat) (g : RNG) (res : Option (Int × Int)) (g' : RNG),
      pickSizeAttempts rm rM lw lh true n g = some (res, g') →
      ∀ w h : Int, res = some (w, h) → lw ≤ w ∧ lh ≤ h := by
  intro n
  induction n with
  | zero =>
    intro g res g' h w hh hres
    unfold pickSizeAttempts at h
    cases h
    cases hres
  | succ n ih =>
    intro g res g' h w hh hres
    unfold pickSizeAttempts at h
    cases hr1 : randint rm rM g with
    | none => rw [hr1] at h; cases h
    | some p1 =>
      obtain ⟨v1, g1⟩ := p1
      rw [hr1] at h
      simp only [Option.pure_def, Option.bind_eq_bind, Option.some_bind] at h
      cases hr2 : randint rm rM g1 with
      | none => rw [hr2] at h; cases h
      | some p2 =>
        obtain ⟨v2, g2⟩ := p2
        rw [hr2] at h
        simp only [Option.bind] at h
        split at h
        · rename_i hcond
          cases h
          cases hres
          rcases hcond with hc | hc
          · cases hc
          · omega
        · exact ih g2 res g' h w hh hres

/-- _pick_room_size under the forcing condition yields a large size:
either a large sample or the clamped fallback, which SizeOK makes exactly
the large requirements. -/
theorem pick_room_size_forced (d : Dungeon) (rm rM : Int) (g : RNG)
    (w h : Int) (g' : RNG) (hsz : SizeOK rm rM d)
    (hp : d.pick_room_size rm rM false g = some ((w, h), g'))
    (he : d.enforce_large_rooms = true) (hq : 2 * d.rooms_large ≤ d.rooms_total) :
    d.large_width_requirement ≤ w ∧ d.large_height_requirement ≤ h := by
  unfold Dungeon.pick_room_size at hp
  have hforce : (false || d.should_force_large_room) = true := by
    rw [Bool.false_or]
    exact (should_force_iff d).2 ⟨he, hq⟩
  rw [hforce, he] at hp
  simp only [if_true] at hp
  cases hatt : pickSizeAttempts rm rM d.large_width_requirement d.large_height_requirement
      true 48 g with
  | none => rw [hatt] at hp; cases hp
  | some pr =>
    obtain ⟨r1, gr⟩ := pr
    rw [hatt] at hp
    simp only [Option.pure_def, Option.bind_eq_bind, Option.some_bind] at hp
    cases hres : r1 with
    | some wh =>
      rw [hres] at hp
      cases hp
      exact pickSizeAttempts_forced rm rM _ _ 48 g r1 _ hatt w h hres
    | none =>
      rw [hres] at hp
      cases hp
      obtain ⟨h1, h2, h3, h4⟩ := hsz he
      constructor
      · omega
      · omega

/-- carve_room floors the in-bounds interior of the carved room. -/
theorem carve_room_self_floor (d : Dungeon) (room : Rect) (x y : Int)
    (h1 : room.x1 + 1 ≤ x) (h2 : x < room.x2 - 1) (h3 : room.y1 + 1 ≤ y)
    (h4 : y < room.y2 - 1) (hb : d.inBounds x y) :
    (d.carve_room room).tiles x y = TILE_FLOOR := by
  unfold Dungeon.carve_room
  dsimp only
  rw [if_pos ⟨h1, h2, h3, h4, hb⟩]

/-- _register_room keeps the invariant when the new room was carved,
does not intersect any existing room, and is large whenever the forcing
condition held at size-pick time. -/
theorem register_room_ginv (dm : Dungeon) (room : Rect)
    (hg : GInv dm)
    (hfloor : ∀ x y, room.x1 + 1 ≤ x → x < room.x2 - 1 → room.y1 + 1 ≤ y →
      y < room.y2 - 1 → dm.inBounds x y → dm.tiles x y = TILE_FLOOR)
    (hnov : ∀ e ∈ dm.rooms, room.intersect e = false)
    (hpick : dm.enforce_large_rooms = true → 2 * dm.rooms_large ≤ dm.rooms_total →
      dm.is_large_room room = true) :
    GInv (dm.register_room room) := by
  unfold Dungeon.register_room
  refine ⟨?_, ?_, ?_, ?_, ?_, ?_, ?_⟩
  · dsimp only
    rw [List.pairwise_append]
    refine ⟨hg.pairwise, List.pairwise_singleton _ _, ?_⟩
    intro a ha b hb
    rw [List.mem_singleton] at hb
    subst hb
    rw [intersect_symm]
    exact hnov a ha
  · dsimp only
    rw [hg.total_eq, List.length_append, List.length_singleton]
  · dsimp only
    unfold countLarge
    rw [List.filter_append]
    simp only [List.length_append]
    unfold Dungeon.is_large_room
    split
    · rename_i hlarge
      rw [hg.large_eq]
      unfold countLarge
      simp only [List.filter_cons, List.filter_nil]
      rw [if_pos hlarge]
      rfl
    · rename_i hlarge
      rw [hg.large_eq]
      unfold countLarge
      simp only [List.filter_cons, List.filter_nil]
      rw [if_neg hlarge]
      rfl
  · dsimp only
    intro he
    rw [List.length_append, List.length_singleton]
    by_cases hq : 2 * dm.rooms_large ≤ dm.rooms_total
    · have hlarge := hpick he hq
      rw [if_pos hlarge]
      have := hg.quota he
      omega
    · have := hg.quota he
      have htot := hg.total_eq
      split <;> omega
  · exact hg.doors_none
  · exact hg.no_door_tiles
  · dsimp only
    intro r hrm x y h1 h2 h3 h4 hb
    rw [List.mem_append, List.mem_singleton] at hrm
    rcases hrm with hrm | hrm
    · exact hg.interiors_floor r hrm x y h1 h2 h3 h4 hb
    · subst hrm
      exact hfloor x y h1 h2 h3 h4 hb

theorem is_large_mk4 (d : Dungeon) (x y w h : Int)
    (hw : d.large_width_requirement ≤ w) (hh : d.large_height_requirement ≤ h) :
    d.is_large_room (Rect.mk4 x y w h) = true := by
  unfold Dungeon.is_large_room Rect.mk4
  exact decide_eq_true ⟨by dsimp only; omega, by dsimp only; omega⟩

theorem carveLike_fieldsEq {d d' : Dungeon} (h : CarveLike d d') : FieldsEq d d' :=
  h.2.2.2.1

theorem register_room_fieldsEq (dm : Dungeon) (room : Rect) :
    FieldsEq dm (dm.register_room room) := ⟨rfl, rfl, rfl, rfl, rfl, rfl⟩

/-- The shape of every successful placement: carve the room, possibly
carve more (corridors), then register.  The overlap guard and the size
pick give the invariant for the registered state. -/
theorem place_via_mid_ginv (d dm : Dungeon) (room : Rect)
    (hmid : CarveLike (d.carve_room room) dm)
    (hg : GInv d)
    (hnov : ∀ e ∈ d.rooms, room.intersect e = false)
    (hlarge : d.enforce_large_rooms = true → 2 * d.rooms_large ≤ d.rooms_total →
        d.is_large_room room = true) :
    GInv (dm.register_room room) ∧ FieldsEq d (dm.register_room room) := by
  have cl : CarveLike d dm := carveLike_trans (carve_room_carveLike d room) hmid
  obtain ⟨clr, clt, cll, clf, cld, cltil⟩ := cl
  obtain ⟨cw, ch, clw, clh, ce, cm⟩ := clf
  constructor
  · apply register_room_ginv dm room
      (carveLike_ginv ⟨clr, clt, cll, ⟨cw, ch, clw, clh, ce, cm⟩, cld, cltil⟩ hg)
    · intro x y h1 h2 h3 h4 hb
      have hb' : d.inBounds x y := by
        unfold Dungeon.inBounds at hb ⊢
        rw [cw, ch] at hb
        exact hb
      exact carveLike_floor hmid (carve_room_self_floor d room x y h1 h2 h3 h4 hb')
    · rw [clr]; exact hnov
    · intro he hq
      have hlr := hlarge (ce ▸ he) (by rw [clt, cll] at hq; exact hq)
      unfold Dungeon.is_large_room at hlr ⊢
      rw [clw, clh]
      exact hlr
  · exact fieldsEq_trans ⟨cw, ch, clw, clh, ce, cm⟩ (register_room_fieldsEq dm room)

/-- The corridor pass of _generate_linear only carves. -/
theorem smartConnect_carveLike (d : Dungeon) (i : Nat) : CarveLike d (smartConnect d i) := by
  unfold smartConnect
  split
  · exact carveLike_refl d
  · dsimp only
    split_ifs
    · exact carve_corridor_carveLike ..
    · exact carve_corridor_carveLike ..
    · exact carve_corridor_carveLike ..

theorem connectLoop_carveLike (d : Dungeon) : CarveLike d (connectLoop d) := by
  unfold connectLoop
  generalize List.range d.rooms.length = l
  induction l generalizing d with
  | nil => exact carveLike_refl d
  | cons a l ih =>
      exact carveLike_trans (smartConnect_carveLike d a) (ih _)

theorem overlapsBuffered_false {d : Dungeon} {room : Rect}
    (h : overlapsBuffered d room = false) : ∀ e ∈ d.rooms, room.intersect e = false :=
  any_intersect_false h

theorem overlapsAny_false {d : Dungeon} {room : Rect}
    (h : overlapsAny d room = false) : ∀ e ∈ d.rooms, room.intersect e = false :=
  any_intersect_false_direct h

theorem linAttempts_ginv (horizontal : Bool) (rm rM cm : Int) :
    ∀ (n : Nat) (tc : Int) (d : Dungeon) (g : RNG) (d' : Dungeon) (g' : RNG),
      linAttempts horizontal rm rM cm n tc d g = some (d', g') →
      GInv d → SizeOK rm rM d →
      GInv d' ∧ FieldsEq d d' := by
  intro n
  induction n with
  | zero =>
    intro tc d g d' g' h hg hsz
    unfold linAttempts at h
    cases h
    exact ⟨hg, fieldsEq_refl d⟩
  | succ n ih =>
    intro tc d g d' g' h hg hsz
    unfold linAttempts at h
    cases hp : d.pick_room_size rm rM false g with
    | none => rw [hp] at h; cases h
    | some pr =>
      obtain ⟨⟨wr, hr⟩, g1⟩ := pr
      rw [hp] at h
      simp only [Option.pure_def, Option.bind_eq_bind, Option.some_bind] at h
      by_cases hov : overlapsBuffered d (candRoom d wr hr (steer d
          (if horizontal = true then (cm, tc) else (tc, cm)))) = true
      · rw [if_pos hov] at h
        cases hj : randint (-3) 3 g1 with
        | none => rw [hj] at h; simp at h
        | some pj =>
          obtain ⟨j, g2⟩ := pj
          rw [hj] at h
          simp only [Option.bind] at h
          exact ih _ d g2 d' g' h hg hsz
      · rw [if_neg hov] at h
        cases h
        refine place_via_mid_ginv d _ _ (carveLike_refl _) hg
          (overlapsBuffered_false ((Bool.not_eq_true _) ▸ hov)) ?_
        intro he hq
        exact is_large_mk4 d _ _ wr hr
          (pick_room_size_forced d rm rM g wr hr g' hsz hp he hq).1
          (pick_room_size_forced d rm rM g wr hr g' hsz hp he hq).2

theorem linLoop_ginv (horizontal : Bool) (rm rM seg bc cv : Int) :
    ∀ (n : Nat) (i : Int) (d : Dungeon) (g : RNG) (d' : Dungeon) (g' : RNG),
      linLoop horizontal rm rM seg bc cv n i d g = some (d', g') →
      GInv d → SizeOK rm rM d →
      GInv d' ∧ FieldsEq d d' := by
  intro n
  induction n with
  | zero =>
    intro i d g d' g' h hg hsz
    unfold linLoop at h
    cases h
    exact ⟨hg, fieldsEq_refl d⟩
  | succ n ih =>
    intro i d g d' g' h hg hsz
    unfold linLoop at h
    dsimp only at h
    by_cases hbrk : seg * (i + 1) ≥ (if horizontal = true then d.w else d.h) - rM
    · rw [if_pos hbrk] at h
      cases h
      exact ⟨hg, fieldsEq_refl d⟩
    · rw [if_neg hbrk] at h
      simp only [Option.pure_def, Option.bind_eq_bind, Option.some_bind] at h
      cases hA : linAttempts horizontal rm rM (seg * (i + 1)) 20
          (bc + pyInt ((cv : ℚ) * (1/2 - 1/2 * (rand01 g).1))) d (rand01 g).2 with
      | none => rw [hA] at h; simp at h
      | some pa =>
        obtain ⟨d1, g1⟩ := pa
        rw [hA] at h
        simp only [Option.bind] at h
        obtain ⟨hg1, hf1⟩ := linAttempts_ginv horizontal rm rM _ 20 _ d _ d1 g1 hA hg hsz
        obtain ⟨hg2, hf2⟩ := ih (i+1) d1 g1 d' g' h hg1 (sizeOK_transfer hsz hf1)
        exact ⟨hg2, fieldsEq_trans hf1 hf2⟩

theorem linSideAttempts_ginv (horizontal : Bool) (rm rM : Int) (mc : Int × Int) :
    ∀ (n : Nat) (d : Dungeon) (g : RNG) (d' : Dungeon) (g' : RNG),
      linSideAttempts horizontal rm rM mc n d g = some (d', g') →
      GInv d → SizeOK rm rM d →
      GInv d' ∧ FieldsEq d d' := by
  intro n
  induction n with
  | zero =>
    intro d g d' g' h hg hsz
    unfold linSideAttempts at h
    cases h
    exact ⟨hg, fieldsEq_refl d⟩
  | succ n ih =>
    intro d g d' g' h hg hsz
    unfold linSideAttempts at h
    dsimp only at h
    cases hd1 : randint (rm + 2)
        (max (rm + 2) (min d.max_hallway_segment (rM * 2 + 5))) (choicePM g).2 with
    | none => rw [hd1] at h; simp at h
    | some p1 =>
      obtain ⟨sd, g1⟩ := p1
      rw [hd1] at h
      simp only [Option.pure_def, Option.bind_eq_bind, Option.some_bind] at h
      cases hd2 : randint (-rM) rM g1 with
      | none => rw [hd2] at h; simp at h
      | some p2 =>
        obtain ⟨off, g2⟩ := p2
        rw [hd2] at h
        simp only [Option.bind] at h
        cases hp : d.pick_room_size rm rM false g2 with
        | none => rw [hp] at h; simp at h
        | some pr =>
          obtain ⟨⟨wr, hr⟩, g3⟩ := pr
          rw [hp] at h
          simp only [Option.bind] at h
          by_cases hov : overlapsBuffered d (candRoom d wr hr (d.limit_center_distance mc
              (if horizontal = true then mc.1 + off else mc.1 + (choicePM g).1 * sd,
               if horizontal = true then mc.2 + (choicePM g).1 * sd else mc.2 + off))) = true
          · rw [if_pos hov] at h
            exact ih d g3 d' g' h hg hsz
          · rw [if_neg hov] at h
            cases h
            obtain ⟨hgp, hfp⟩ := place_via_mid_ginv d _ _ (carveLike_refl _) hg
              (overlapsBuffered_false ((Bool.not_eq_true _) ▸ hov))
              (fun he hq => is_large_mk4 d _ _ wr hr
                (pick_room_size_forced d rm rM g2 wr hr _ hsz hp he hq).1
                (pick_room_size_forced d rm rM g2 wr hr _ hsz hp he hq).2)
            refine ⟨carveLike_ginv (carve_corridor_carveLike ..) hgp, ?_⟩
            exact fieldsEq_trans hfp (carveLike_fieldsEq (carve_corridor_carveLike ..))

theorem linSideLoop_ginv (horizontal : Bool) (rm rM : Int) :
    ∀ (n : Nat) (d : Dungeon) (g : RNG) (d' : Dungeon) (g' : RNG),
      linSideLoop horizontal rm rM n d g = some (d', g') →
      GInv d → SizeOK rm rM d →
      GInv d' ∧ FieldsEq d d' := by
  intro n
  induction n with
  | zero =>
    intro d g d' g' h hg hsz
    unfold linSideLoop at h
    cases h
    exact ⟨hg, fieldsEq_refl d⟩
  | succ n ih =>
    intro d g d' g' h hg hsz
    unfold linSideLoop at h
    simp only [Option.pure_def, Option.bind_eq_bind, Option.some_bind] at h
    cases hA : linSideAttempts horizontal rm rM
        (d.rooms.getD (choiceIdx d.rooms.length g).1 ⟨0,0,0,0⟩).center 10 d
        (choiceIdx d.rooms.length g).2 with
    | none => rw [hA] at h; simp at h
    | some pa =>
      obtain ⟨d1, g1⟩ := pa
      rw [hA] at h
      simp only [Option.bind] at h
      obtain ⟨hg1, hf1⟩ := linSideAttempts_ginv horizontal rm rM _ 10 d _ d1 g1 hA hg hsz
      obtain ⟨hg2, hf2⟩ := ih d1 g1 d' g' h hg1 (sizeOK_transfer hsz hf1)
      exact ⟨hg2, fieldsEq_trans hf1 hf2⟩

theorem generate_linear_ginv (rm rM : Int) (max_rooms : Int) (entropy : ℚ)
    (d : Dungeon) (g : RNG) (d' : Dungeon) (g' : RNG)
    (h : d.generate_linear max_rooms rm rM entropy g = some (d', g'))
    (hg : GInv d) (hsz : SizeOK rm rM d) :
    GInv d' ∧ FieldsEq d d' := by
  unfold Dungeon.generate_linear at h
  split at h
  · cases h; exact ⟨hg, fieldsEq_refl d⟩
  · simp only [Option.pure_def, Option.bind_eq_bind, Option.some_bind] at h
    cases hL : linLoop (d.w > d.h) rm rM
        (min (max (rM + 4) ((if d.w > d.h then d.w else d.h).fdiv max_rooms))
          (d.max_hallway_segment + rM.fdiv 2 + 2))
        ((if d.w > d.h then d.h else d.w).fdiv 2)
        (min ((if d.w > d.h then d.h else d.w).fdiv 3) (rM * 2)) max_rooms.toNat 0 d g with
    | none => rw [hL] at h; simp at h
    | some pa =>
      obtain ⟨d1, g1⟩ := pa
      rw [hL] at h
      simp only [Option.bind] at h
      obtain ⟨hg1, hf1⟩ := linLoop_ginv _ rm rM _ _ _ _ 0 d g d1 g1 hL hg hsz
      have hg2 : GInv (connectLoop d1) := carveLike_ginv (connectLoop_carveLike d1) hg1
      have hf2 : FieldsEq d (connectLoop d1) :=
        fieldsEq_trans hf1 (carveLike_fieldsEq (connectLoop_carveLike d1))
      split at h
      · obtain ⟨hg3, hf3⟩ := linSideLoop_ginv _ rm rM _ (connectLoop d1) g1 d' g' h hg2
          (sizeOK_transfer hsz hf2)
        exact ⟨hg3, fieldsEq_trans hf2 hf3⟩
      · cases h
        exact ⟨hg2, hf2⟩

theorem biasChain_ginv (horizontal : Bool) (rm rM seg bc cv : Int) :
    ∀ (n : Nat) (i : Int) (d : Dungeon) (g : RNG) (d' : Dungeon) (g' : RNG),
      biasChain horizontal rm rM seg bc cv n i d g = some (d', g') →
      GInv d → SizeOK rm rM d →
      GInv d' ∧ FieldsEq d d' := by
  intro n
  induction n with
  | zero =>
    intro i d g d' g' h hg hsz
    unfold biasChain at h
    cases h
    exact ⟨hg, fieldsEq_refl d⟩
  | succ n ih =>
    intro i d g d' g' h hg hsz
    unfold biasChain at h
    dsimp only at h
    by_cases hbrk : seg * (i + 1) ≥ (if horizontal = true then d.w else d.h) - rM
    · rw [if_pos hbrk] at h
      cases h
      exact ⟨hg, fieldsEq_refl d⟩
    · rw [if_neg hbrk] at h
      cases hco : randint (-cv) cv g with
      | none => rw [hco] at h; simp at h
      | some pco =>
        obtain ⟨co, g1⟩ := pco
        rw [hco] at h
        simp only [Option.pure_def, Option.bind_eq_bind, Option.some_bind] at h
        cases hp : d.pick_room_size rm rM false g1 with
        | none => rw [hp] at h; simp at h
        | some pr =>
          obtain ⟨⟨wr, hr⟩, g2⟩ := pr
          rw [hp] at h
          simp only [Option.bind] at h
          by_cases hov : overlapsAny d (candRoom d wr hr (steer d
              (if horizontal = true then (seg * (i + 1), bc + co)
               else (bc + co, seg * (i + 1))))) = true
          · rw [if_pos hov] at h
            exact ih (i+1) d g2 d' g' h hg hsz
          · rw [if_neg hov] at h
            by_cases hne : (d.carve_room (candRoom d wr hr (steer d
                (if horizontal = true then (seg * (i + 1), bc + co)
                 else (bc + co, seg * (i + 1)))))).rooms ≠ []
            · rw [if_pos hne] at h
              obtain ⟨hg1, hf1⟩ := place_via_mid_ginv d
                ((d.carve_room (candRoom d wr hr (steer d
                (if horizontal = true then (seg * (i + 1), bc + co)
                 else (bc + co, seg * (i + 1)))))).carve_corridor
                  ((d.carve_room (candRoom d wr hr (steer d
                (if horizontal = true then (seg * (i + 1), bc + co)
                 else (bc + co, seg * (i + 1)))))).rooms.getLastD ⟨0,0,0,0⟩).center
                  ((candRoom d wr hr (steer d
                (if horizontal = true then (seg * (i + 1), bc + co)
                 else (bc + co, seg * (i + 1)))))).center horizontal) (candRoom d wr hr (steer d
                (if horizontal = true then (seg * (i + 1), bc + co)
                 else (bc + co, seg * (i + 1)))))
                (carve_corridor_carveLike ..) hg
                (overlapsAny_false ((Bool.not_eq_true _) ▸ hov))
                (fun he hq => is_large_mk4 d _ _ wr hr
                  (pick_room_size_forced d rm rM g1 wr hr g2 hsz hp he hq).1
                  (pick_room_size_forced d rm rM g1 wr hr g2 hsz hp he hq).2)
              obtain ⟨hg2, hf2⟩ := ih (i+1) _ g2 d' g' h hg1 (sizeOK_transfer hsz hf1)
              exact ⟨hg2, fieldsEq_trans hf1 hf2⟩
            · rw [if_neg hne] at h
              obtain ⟨hg1, hf1⟩ := place_via_mid_ginv d
                (d.carve_room (candRoom d wr hr (steer d
                (if horizontal = true then (seg * (i + 1), bc + co)
                 else (bc + co, seg * (i + 1)))))) (candRoom d wr hr (steer d
                (if horizontal = true then (seg * (i + 1), bc + co)
                 else (bc + co, seg * (i + 1)))))
                (carveLike_refl _) hg
                (overlapsAny_false ((Bool.not_eq_true _) ▸ hov))
                (fun he hq => is_large_mk4 d _ _ wr hr
                  (pick_room_size_forced d rm rM g1 wr hr g2 hsz hp he hq).1
                  (pick_room_size_forced d rm rM g1 wr hr g2 hsz hp he hq).2)
              obtain ⟨hg2, hf2⟩ := ih (i+1) _ g2 d' g' h hg1 (sizeOK_transfer hsz hf1)
              exact ⟨hg2, fieldsEq_trans hf1 hf2⟩

theorem biasPlaceAttempts_ginv (horizontal : Bool) (mr rm rM : Int) (bs : ℚ) :
    ∀ (n : Nat) (d : Dungeon) (g : RNG) (d' : Dungeon) (g' : RNG),
      biasPlaceAttempts horizontal mr rm rM bs n d g = some (d', g') →
      GInv d → SizeOK rm rM d →
      GInv d' ∧ FieldsEq d d' := by
  intro n
  induction n with
  | zero =>
    intro d g d' g' h hg hsz
    unfold biasPlaceAttempts at h
    cases h
    exact ⟨hg, fieldsEq_refl d⟩
  | succ n ih =>
    intro d g d' g' h hg hsz
    unfold biasPlaceAttempts at h
    cases hp : d.pick_room_size rm rM false g with
    | none => rw [hp] at h; cases h
    | some pr =>
      obtain ⟨⟨wr, hr⟩, g1⟩ := pr
      rw [hp] at h
      simp only [Option.pure_def, Option.bind_eq_bind, Option.some_bind] at h
      cases hxy : biasXY horizontal mr wr hr bs d g1 with
      | none => rw [hxy] at h; simp at h
      | some pxy =>
        obtain ⟨xy, g2⟩ := pxy
        rw [hxy] at h
        simp only [Option.bind] at h
        by_cases hov : overlapsAny d (candRoom d wr hr
            (steer d (xy.1 + wr.fdiv 2, xy.2 + hr.fdiv 2))) = true
        · rw [if_pos hov] at h
          exact ih d g2 d' g' h hg hsz
        · rw [if_neg hov] at h
          cases h
          refine place_via_mid_ginv d _ _ (carveLike_refl _) hg
            (overlapsAny_false ((Bool.not_eq_true _) ▸ hov)) ?_
          intro he hq
          exact is_large_mk4 d _ _ wr hr
            (pick_room_size_forced d rm rM g wr hr g1 hsz hp he hq).1
            (pick_room_size_forced d rm rM g wr hr g1 hsz hp he hq).2

theorem biasPlaceLoop_ginv (horizontal : Bool) (mr rm rM : Int) (bs : ℚ) :
    ∀ (n : Nat) (d : Dungeon) (g : RNG) (d' : Dungeon) (g' : RNG),
      biasPlaceLoop horizontal mr rm rM bs n d g = some (d', g') →
      GInv d → SizeOK rm rM d →
      GInv d' ∧ FieldsEq d d' := by
  intro n
  induction n with
  | zero =>
    intro d g d' g' h hg hsz
    unfold biasPlaceLoop at h
    cases h
    exact ⟨hg, fieldsEq_refl d⟩
  | succ n ih =>
    intro d g d' g' h hg hsz
    unfold biasPlaceLoop at h
    simp only [Option.pure_def, Option.bind_eq_bind, Option.some_bind] at h
    cases hA : biasPlaceAttempts horizontal mr rm rM bs 50 d g with
    | none => rw [hA] at h; simp at h
    | some pa =>
      obtain ⟨d1, g1⟩ := pa
      rw [hA] at h
      simp only [Option.bind] at h
      obtain ⟨hg1, hf1⟩ := biasPlaceAttempts_ginv horizontal mr rm rM bs 50 d g d1 g1 hA hg hsz
      obtain ⟨hg2, hf2⟩ := ih d1 g1 d' g' h hg1 (sizeOK_transfer hsz hf1)
      exact ⟨hg2, fieldsEq_trans hf1 hf2⟩

theorem biasConnectLoop_carveLike (horizontal : Bool) (bs : ℚ) :
    ∀ (n i : Nat) (d : Dungeon) (g : RNG),
      CarveLike d (biasConnectLoop horizontal bs n i d g).1 := by
  intro n
  induction n with
  | zero => intro i d g; exact carveLike_refl d
  | succ n ih =>
    intro i d g
    unfold biasConnectLoop
    dsimp only
    split
    · exact carveLike_trans (carve_corridor_carveLike ..) (ih ..)
    · exact carveLike_refl d

theorem biasSideAttempts_ginv (rm rM : Int) (mc : Int × Int) :
    ∀ (n : Nat) (d : Dungeon) (g : RNG) (d' : Dungeon) (g' : RNG),
      biasSideAttempts rm rM mc n d g = some (d', g') →
      GInv d → SizeOK rm rM d →
      GInv d' ∧ FieldsEq d d' := by
  intro n
  induction n with
  | zero =>
    intro d g d' g' h hg hsz
    unfold biasSideAttempts at h
    cases h
    exact ⟨hg, fieldsEq_refl d⟩
  | succ n ih =>
    intro d g d' g' h hg hsz
    unfold biasSideAttempts at h
    dsimp only at h
    cases hd1 : randint (rM + 2) (rM * 2) g with
    | none => rw [hd1] at h; simp at h
    | some p1 =>
      obtain ⟨sd, g1⟩ := p1
      rw [hd1] at h
      simp only [Option.pure_def, Option.bind_eq_bind, Option.some_bind] at h
      cases hp : d.pick_room_size rm rM false ((boundedOff sd ((boundedOff sd g1).2)).2) with
      | none => rw [hp] at h; simp at h
      | some pr =>
        obtain ⟨⟨wr, hr⟩, g2⟩ := pr
        rw [hp] at h
        simp only [Option.bind] at h
        by_cases hov : overlapsAny d (candRoom d wr hr (d.limit_center_distance mc
            (mc.1 + (boundedOff sd g1).1,
             mc.2 + (boundedOff sd ((boundedOff sd g1).2)).1))) = true
        · rw [if_pos hov] at h
          exact ih d g2 d' g' h hg hsz
        · rw [if_neg hov] at h
          cases h
          obtain ⟨hgp, hfp⟩ := place_via_mid_ginv d _ _ (carveLike_refl _) hg
            (overlapsAny_false ((Bool.not_eq_true _) ▸ hov))
            (fun he hq => is_large_mk4 d _ _ wr hr
              (pick_room_size_forced d rm rM _ wr hr _ hsz hp he hq).1
              (pick_room_size_forced d rm rM _ wr hr _ hsz hp he hq).2)
          refine ⟨carveLike_ginv (carve_corridor_carveLike ..) hgp, ?_⟩
          exact fieldsEq_trans hfp (carveLike_fieldsEq (carve_corridor_carveLike ..))

theorem biasSideLoop_ginv (rm rM : Int) :
    ∀ (n : Nat) (d : Dungeon) (g : RNG) (d' : Dungeon) (g' : RNG),
      biasSideLoop rm rM n d g = some (d', g') →
      GInv d → SizeOK rm rM d →
      GInv d' ∧ FieldsEq d d' := by
  intro n
  induction n with
  | zero =>
    intro d g d' g' h hg hsz
    unfold biasSideLoop at h
    cases h
    exact ⟨hg, fieldsEq_refl d⟩
  | succ n ih =>
    intro d g d' g' h hg hsz
    unfold biasSideLoop at h
    simp only [Option.pure_def, Option.bind_eq_bind, Option.some_bind] at h
    cases hA : biasSideAttempts rm rM
        (d.rooms.getD (choiceIdx d.rooms.length g).1 ⟨0,0,0,0⟩).center 8 d
        (choiceIdx d.rooms.length g).2 with
    | none => rw [hA] at h; simp at h
    | some pa =>
      obtain ⟨d1, g1⟩ := pa
      rw [hA] at h
      simp only [Option.bind] at h
      obtain ⟨hg1, hf1⟩ := biasSideAttempts_ginv rm rM _ 8 d _ d1 g1 hA hg hsz
      obtain ⟨hg2, hf2⟩ := ih d1 g1 d' g' h hg1 (sizeOK_transfer hsz hf1)
      exact ⟨hg2, fieldsEq_trans hf1 hf2⟩

theorem generate_biased_linear_ginv (rm rM max_rooms : Int) (linearity entropy : ℚ)
    (d : Dungeon) (g : RNG) (d' : Dungeon) (g' : RNG)
    (h : d.generate_biased_linear max_rooms rm rM linearity entropy g = some (d', g'))
    (hg : GInv d) (hsz : SizeOK rm rM d) :
    GInv d' ∧ FieldsEq d d' := by
  unfold Dungeon.generate_biased_linear at h
  split at h
  · cases h; exact ⟨hg, fieldsEq_refl d⟩
  · dsimp only at h
    split at h
    · exact biasChain_ginv _ rm rM _ _ _ max_rooms.toNat 0 d g d' g' h hg hsz
    · simp only [Option.pure_def, Option.bind_eq_bind, Option.some_bind] at h
      cases hL : biasPlaceLoop (d.w > d.h) max_rooms rm rM ((linearity - 2/5) / (2/5))
          max_rooms.toNat d g with
      | none => rw [hL] at h; simp at h
      | some pa =>
        obtain ⟨d1, g1⟩ := pa
        rw [hL] at h
        simp only [Option.bind] at h
        obtain ⟨hg1, hf1⟩ := biasPlaceLoop_ginv _ max_rooms rm rM _ max_rooms.toNat
          d g d1 g1 hL hg hsz
        have hcl := biasConnectLoop_carveLike (d.w > d.h) ((linearity - 2/5) / (2/5))
          (d1.rooms.length - 1) 1 d1 g1
        have hg2 : GInv (biasConnectLoop (d.w > d.h) ((linearity - 2/5) / (2/5))
            (d1.rooms.length - 1) 1 d1 g1).1 := carveLike_ginv hcl hg1
        have hf2 : FieldsEq d (biasConnectLoop (d.w > d.h) ((linearity - 2/5) / (2/5))
            (d1.rooms.length - 1) 1 d1 g1).1 :=
          fieldsEq_trans hf1 (carveLike_fieldsEq hcl)
        split at h
        · obtain ⟨hg3, hf3⟩ := biasSideLoop_ginv rm rM _ _ _ d' g' h hg2
            (sizeOK_transfer hsz hf2)
          exact ⟨hg3, fieldsEq_trans hf2 hf3⟩
        · cases h
          exact ⟨hg2, hf2⟩

theorem randPlaceAttempts_ginv (prob : ℚ) (rm rM : Int) :
    ∀ (n : Nat) (d : Dungeon) (g : RNG) (d' : Dungeon) (g' : RNG),
      randPlaceAttempts prob rm rM n d g = some (d', g') →
      GInv d → SizeOK rm rM d →
      GInv d' ∧ FieldsEq d d' := by
  intro n
  induction n with
  | zero =>
    intro d g d' g' h hg hsz
    unfold randPlaceAttempts at h
    cases h
    exact ⟨hg, fieldsEq_refl d⟩
  | succ n ih =>
    intro d g d' g' h hg hsz
    unfold randPlaceAttempts at h
    cases hp : d.pick_room_size rm rM false g with
    | none => rw [hp] at h; cases h
    | some pr =>
      obtain ⟨⟨wr, hr⟩, g1⟩ := pr
      rw [hp] at h
      simp only [Option.pure_def, Option.bind_eq_bind, Option.some_bind] at h
      cases hx : randint 1 (max 1 (d.w - wr - 2)) g1 with
      | none => rw [hx] at h; simp at h
      | some px =>
        obtain ⟨x0, g2⟩ := px
        rw [hx] at h
        simp only [Option.bind] at h
        cases hy : randint 1 (max 1 (d.h - hr - 2)) g2 with
        | none => rw [hy] at h; simp at h
        | some py =>
          obtain ⟨y0, g3⟩ := py
          rw [hy] at h
          simp only [Option.bind] at h
          by_cases hov : overlapsAny d (Rect.mk4 (randXY d wr hr x0 y0).1
              (randXY d wr hr x0 y0).2 wr hr) = true
          · rw [if_pos hov] at h
            exact ih d g3 d' g' h hg hsz
          · rw [if_neg hov] at h
            by_cases hne : (d.carve_room (Rect.mk4 (randXY d wr hr x0 y0).1
                (randXY d wr hr x0 y0).2 wr hr)).rooms ≠ []
            · rw [if_pos hne] at h
              cases h
              refine place_via_mid_ginv d
                ((d.carve_room (Rect.mk4 (randXY d wr hr x0 y0).1
                    (randXY d wr hr x0 y0).2 wr hr)).carve_corridor
                  ((d.carve_room (Rect.mk4 (randXY d wr hr x0 y0).1
                      (randXY d wr hr x0 y0).2 wr hr)).rooms.getLastD ⟨0,0,0,0⟩).center
                  (Rect.mk4 (randXY d wr hr x0 y0).1 (randXY d wr hr x0 y0).2 wr hr).center
                  (decide ((rand01 g3).1 < prob)))
                (Rect.mk4 (randXY d wr hr x0 y0).1 (randXY d wr hr x0 y0).2 wr hr)
                (carve_corridor_carveLike ..) hg
                (overlapsAny_false ((Bool.not_eq_true _) ▸ hov)) ?_
              intro he hq
              exact is_large_mk4 d _ _ wr hr
                (pick_room_size_forced d rm rM g wr hr g1 hsz hp he hq).1
                (pick_room_size_forced d rm rM g wr hr g1 hsz hp he hq).2
            · rw [if_neg hne] at h
              cases h
              refine place_via_mid_ginv d _ _ (carveLike_refl _) hg
                (overlapsAny_false ((Bool.not_eq_true _) ▸ hov)) ?_
              intro he hq
              exact is_large_mk4 d _ _ wr hr
                (pick_room_size_forced d rm rM g wr hr g1 hsz hp he hq).1
                (pick_room_size_forced d rm rM g wr hr g1 hsz hp he hq).2

theorem randPlaceLoop_ginv (prob : ℚ) (rm rM : Int) :
    ∀ (n : Nat) (d : Dungeon) (g : RNG) (d' : Dungeon) (g' : RNG),
      randPlaceLoop prob rm rM n d g = some (d', g') →
      GInv d → SizeOK rm rM d →
      GInv d' ∧ FieldsEq d d' := by
  intro n
  induction n with
  | zero =>
    intro d g d' g' h hg hsz
    unfold randPlaceLoop at h
    cases h
    exact ⟨hg, fieldsEq_refl d⟩
  | succ n ih =>
    intro d g d' g' h hg hsz
    unfold randPlaceLoop at h
    simp only [Option.pure_def, Option.bind_eq_bind, Option.some_bind] at h
    cases hA : randPlaceAttempts prob rm rM 40 d g with
    | none => rw [hA] at h; simp at h
    | some pa =>
      obtain ⟨d1, g1⟩ := pa
      rw [hA] at h
      simp only [Option.bind] at h
      obtain ⟨hg1, hf1⟩ := randPlaceAttempts_ginv prob rm rM 40 d g d1 g1 hA hg hsz
      obtain ⟨hg2, hf2⟩ := ih d1 g1 d' g' h hg1 (sizeOK_transfer hsz hf1)
      exact ⟨hg2, fieldsEq_trans hf1 hf2⟩

theorem randExtraAttempts_ginv (prob : ℚ) (rm rM : Int) :
    ∀ (n : Nat) (d : Dungeon) (g : RNG) (d' : Dungeon) (g' : RNG),
      randExtraAttempts prob rm rM n d g = some (d', g') →
      GInv d → SizeOK rm rM d →
      GInv d' ∧ FieldsEq d d' := by
  intro n
  induction n with
  | zero =>
    intro d g d' g' h hg hsz
    unfold randExtraAttempts at h
    cases h
    exact ⟨hg, fieldsEq_refl d⟩
  | succ n ih =>
    intro d g d' g' h hg hsz
    unfold randExtraAttempts at h
    cases hp : d.pick_room_size rm rM false g with
    | none => rw [hp] at h; cases h
    | some pr =>
      obtain ⟨⟨wr, hr⟩, g1⟩ := pr
      rw [hp] at h
      simp only [Option.pure_def, Option.bind_eq_bind, Option.some_bind] at h
      cases hx : randint 1 (max 1 (d.w - wr - 2)) g1 with
      | none => rw [hx] at h; simp at h
      | some px =>
        obtain ⟨x0, g2⟩ := px
        rw [hx] at h
        simp only [Option.bind] at h
        cases hy : randint 1 (max 1 (d.h - hr - 2)) g2 with
        | none => rw [hy] at h; simp at h
        | some py =>
          obtain ⟨y0, g3⟩ := py
          rw [hy] at h
          simp only [Option.bind] at h
          by_cases hov : overlapsAny d (Rect.mk4 (randExtraXY d wr hr x0 y0).1
              (randExtraXY d wr hr x0 y0).2 wr hr) = true
          · rw [if_pos hov] at h
            exact ih d g3 d' g' h hg hsz
          · rw [if_neg hov] at h
            cases h
            refine place_via_mid_ginv d
              ((d.carve_room (Rect.mk4 (randExtraXY d wr hr x0 y0).1
                  (randExtraXY d wr hr x0 y0).2 wr hr)).carve_corridor
                (nearestRoom (d.carve_room (Rect.mk4 (randExtraXY d wr hr x0 y0).1
                    (randExtraXY d wr hr x0 y0).2 wr hr)).rooms
                  (Rect.mk4 (randExtraXY d wr hr x0 y0).1
                    (randExtraXY d wr hr x0 y0).2 wr hr).center).center
                (Rect.mk4 (randExtraXY d wr hr x0 y0).1
                  (randExtraXY d wr hr x0 y0).2 wr hr).center
                (decide ((rand01 g3).1 < prob)))
              (Rect.mk4 (randExtraXY d wr hr x0 y0).1 (randExtraXY d wr hr x0 y0).2 wr hr)
              (carve_corridor_carveLike ..) hg
              (overlapsAny_false ((Bool.not_eq_true _) ▸ hov)) ?_
            intro he hq
            exact is_large_mk4 d _ _ wr hr
              (pick_room_size_forced d rm rM g wr hr g1 hsz hp he hq).1
              (pick_room_size_forced d rm rM g wr hr g1 hsz hp he hq).2

theorem randExtraLoop_ginv (prob : ℚ) (rm rM : Int) :
    ∀ (n : Nat) (d : Dungeon) (g : RNG) (d' : Dungeon) (g' : RNG),
      randExtraLoop prob rm rM n d g = some (d', g') →
      GInv d → SizeOK rm rM d →
      GInv d' ∧ FieldsEq d d' := by
  intro n
  induction n with
  | zero =>
    intro d g d' g' h hg hsz
    unfold randExtraLoop at h
    cases h
    exact ⟨hg, fieldsEq_refl d⟩
  | succ n ih =>
    intro d g d' g' h hg hsz
    unfold randExtraLoop at h
    simp only [Option.pure_def, Option.bind_eq_bind, Option.some_bind] at h
    cases hA : randExtraAttempts prob rm rM 30 d g with
    | none => rw [hA] at h; simp at h
    | some pa =>
      obtain ⟨d1, g1⟩ := pa
      rw [hA] at h
      simp only [Option.bind] at h
      obtain ⟨hg1, hf1⟩ := randExtraAttempts_ginv prob rm rM 30 d g d1 g1 hA hg hsz
      obtain ⟨hg2, hf2⟩ := ih d1 g1 d' g' h hg1 (sizeOK_transfer hsz hf1)
      exact ⟨hg2, fieldsEq_trans hf1 hf2⟩

theorem generate_random_ginv (rm rM max_rooms : Int) (linearity entropy : ℚ)
    (d : Dungeon) (g : RNG) (d' : Dungeon) (g' : RNG)
    (h : d.generate_random max_rooms rm rM linearity entropy g = some (d', g'))
    (hg : GInv d) (hsz : SizeOK rm rM d) :
    GInv d' ∧ FieldsEq d d' := by
  unfold Dungeon.generate_random at h
  split at h
  · exact generate_biased_linear_ginv rm rM max_rooms linearity entropy d g d' g' h hg hsz
  · simp only [Option.pure_def, Option.bind_eq_bind, Option.some_bind] at h
    cases hL : randPlaceLoop (1/2 + linearity * (1/4)) rm rM max_rooms.toNat d g with
    | none => rw [hL] at h; simp at h
    | some pa =>
      obtain ⟨d1, g1⟩ := pa
      rw [hL] at h
      simp only [Option.bind] at h
      obtain ⟨hg1, hf1⟩ := randPlaceLoop_ginv _ rm rM max_rooms.toNat d g d1 g1 hL hg hsz
      split at h
      · obtain ⟨hg2, hf2⟩ := randExtraLoop_ginv _ rm rM _ d1 g1 d' g' h hg1
          (sizeOK_transfer hsz hf1)
        exact ⟨hg2, fieldsEq_trans hf1 hf2⟩
      · cases h
        exact ⟨hg1, hf1⟩

/-! ## The door pass and the throne room: preservation infrastructure -/

/-- The door/tile agreement invariant of the spec:  a cell has a door
state exactly when its tile is a door. -/
def DInv (d : Dungeon) : Prop :=
  ∀ x y : Int, d.doors x y ≠ -1 ↔ d.tiles x y = TILE_DOOR

/-- What one add_door application does to the grids: the bookkeeping is
untouched, and every cell is either completely untouched (tile and
material alike) or was a wall and is now a door. -/
def DoorStep (d d' : Dungeon) : Prop :=
  d'.rooms = d.rooms ∧ d'.rooms_total = d.rooms_total ∧ d'.rooms_large = d.rooms_large ∧
  d'.throne_room_index = d.throne_room_index ∧ FieldsEq d d' ∧
  (∀ a b : Int, (d'.tiles a b = d.tiles a b ∧ d'.materials a b = d.materials a b) ∨
      (d.tiles a b = TILE_WALL ∧ d'.tiles a b = TILE_DOOR))

theorem doorStep_refl (d : Dungeon) : DoorStep d d :=
  ⟨rfl, rfl, rfl, rfl, fieldsEq_refl d, fun _ _ => Or.inl ⟨rfl, rfl⟩⟩

theorem doorStep_trans {a b c : Dungeon} (h1 : DoorStep a b) (h2 : DoorStep b c) :
    DoorStep a c := by
  obtain ⟨r1, t1, l1, i1, f1, g1⟩ := h1
  obtain ⟨r2, t2, l2, i2, f2, g2⟩ := h2
  refine ⟨r2.trans r1, t2.trans t1, l2.trans l1, i2.trans i1, fieldsEq_trans f1 f2, ?_⟩
  intro x y
  rcases g2 x y with ⟨ht2, hm2⟩ | ⟨hw2, hd2⟩
  · rcases g1 x y with ⟨ht1, hm1⟩ | ⟨hw1, hd1⟩
    · exact Or.inl ⟨ht2.trans ht1, hm2.trans hm1⟩
    · exact Or.inr ⟨hw1, ht2.trans hd1⟩
  · rcases g1 x y with ⟨ht1, hm1⟩ | ⟨hw1, hd1⟩
    · exact Or.inr ⟨ht1 ▸ hw2, hd2⟩
    · exact absurd (hd1 ▸ hw2) (by unfold TILE_DOOR TILE_WALL; decide)

theorem add_door_doorStep (d : Dungeon) (x y : Int) (locked : Bool) :
    DoorStep d (d.add_door x y locked).2 := by
  unfold Dungeon.add_door
  by_cases h1 : ¬ (0 < x ∧ x < d.w - 1 ∧ 0 < y ∧ y < d.h - 1)
  · rw [if_pos h1]; exact doorStep_refl d
  · rw [if_neg h1]
    by_cases h2 : d.tiles x y ≠ TILE_WALL
    · rw [if_pos h2]; exact doorStep_refl d
    · rw [if_neg h2]
      by_cases h3 : ((d.tiles (x-1) y = TILE_FLOOR ∧ d.tiles (x+1) y = TILE_FLOOR ∧
          d.tiles x (y-1) = TILE_WALL ∧ d.tiles x (y+1) = TILE_WALL) ∨
         (d.tiles x (y-1) = TILE_FLOOR ∧ d.tiles x (y+1) = TILE_FLOOR ∧
          d.tiles (x-1) y = TILE_WALL ∧ d.tiles (x+1) y = TILE_WALL))
      · rw [if_pos h3]
        refine ⟨rfl, rfl, rfl, rfl, ⟨rfl, rfl, rfl, rfl, rfl, rfl⟩, ?_⟩
        intro a b
        dsimp only
        by_cases hab : a = x ∧ b = y
        · rw [if_pos hab, if_pos hab]
          exact Or.inr ⟨hab.1 ▸ hab.2 ▸ not_not.mp h2, rfl⟩
        · rw [if_neg hab, if_neg hab]
          exact Or.inl ⟨rfl, rfl⟩
      · rw [if_neg h3]; exact doorStep_refl d

theorem add_door_dinv {d : Dungeon} (x y : Int) (locked : Bool) (hd : DInv d) :
    DInv (d.add_door x y locked).2 := by
  unfold Dungeon.add_door
  by_cases h1 : ¬ (0 < x ∧ x < d.w - 1 ∧ 0 < y ∧ y < d.h - 1)
  · rw [if_pos h1]; exact hd
  · rw [if_neg h1]
    by_cases h2 : d.tiles x y ≠ TILE_WALL
    · rw [if_pos h2]; exact hd
    · rw [if_neg h2]
      by_cases h3 : ((d.tiles (x-1) y = TILE_FLOOR ∧ d.tiles (x+1) y = TILE_FLOOR ∧
          d.tiles x (y-1) = TILE_WALL ∧ d.tiles x (y+1) = TILE_WALL) ∨
         (d.tiles x (y-1) = TILE_FLOOR ∧ d.tiles x (y+1) = TILE_FLOOR ∧
          d.tiles (x-1) y = TILE_WALL ∧ d.tiles (x+1) y = TILE_WALL))
      · rw [if_pos h3]
        intro a b
        dsimp only
        by_cases hab : a = x ∧ b = y
        · rw [if_pos hab, if_pos hab]
          constructor
          · intro _; rfl
          · intro _
            cases locked <;> decide
        · rw [if_neg hab, if_neg hab]
          exact hd a b
      · rw [if_neg h3]; exact hd

theorem doorLoop_doorStep :
    ∀ (l : List (Int × Int)) (d : Dungeon) (g : RNG), DoorStep d (doorLoop l d g).1 := by
  intro l
  induction l with
  | nil => intro d g; exact doorStep_refl d
  | cons p rest ih =>
    intro d g
    obtain ⟨x, y⟩ := p
    unfold doorLoop
    split
    · exact doorStep_trans (add_door_doorStep d x y false) (ih _ _)
    · exact ih d _

theorem doorLoop_dinv :
    ∀ (l : List (Int × Int)) (d : Dungeon) (g : RNG), DInv d → DInv (doorLoop l d g).1 := by
  intro l
  induction l with
  | nil => intro d g hd; exact hd
  | cons p rest ih =>
    intro d g hd
    obtain ⟨x, y⟩ := p
    unfold doorLoop
    split
    · exact ih _ _ (add_door_dinv x y false hd)
    · exact ih d _ hd

/-! ## setup_throne_room facts -/

theorem setup_throne_preserves (d : Dungeon) :
    (d.setup_throne_room).rooms = d.rooms ∧
    (d.setup_throne_room).rooms_total = d.rooms_total ∧
    (d.setup_throne_room).rooms_large = d.rooms_large ∧
    (d.setup_throne_room).tiles = d.tiles ∧
    (d.setup_throne_room).doors = d.doors ∧
    FieldsEq d d.setup_throne_room := by
  unfold Dungeon.setup_throne_room
  split
  · exact ⟨rfl, rfl, rfl, rfl, rfl, rfl, rfl, rfl, rfl, rfl, rfl⟩
  · exact ⟨rfl, rfl, rfl, rfl, rfl, fieldsEq_refl d⟩

theorem setup_throne_index (d : Dungeon) (hne : d.rooms ≠ []) :
    (d.setup_throne_room).throne_room_index = (d.rooms.length : Int) - 1 := by
  unfold Dungeon.setup_throne_room
  rw [if_pos (by simpa [List.length_pos] using hne)]

theorem setup_throne_marble (d : Dungeon) (hne : d.rooms ≠ []) (x y : Int)
    (hx1 : (d.rooms.getLastD ⟨0,0,0,0⟩).x1 + 1 ≤ x)
    (hx2 : x < (d.rooms.getLastD ⟨0,0,0,0⟩).x2 - 1)
    (hy1 : (d.rooms.getLastD ⟨0,0,0,0⟩).y1 + 1 ≤ y)
    (hy2 : y < (d.rooms.getLastD ⟨0,0,0,0⟩).y2 - 1)
    (hb : d.inBounds x y) (hf : d.tiles x y = TILE_FLOOR) :
    (d.setup_throne_room).materials x y = MAT_MARBLE := by
  unfold Dungeon.setup_throne_room
  rw [if_pos (by simpa [List.length_pos] using hne)]
  dsimp only
  rw [if_pos ⟨hx1, hx2, hy1, hy2, hb, hf⟩]

theorem setup_throne_iron (d : Dungeon) (hne : d.rooms ≠ []) (x y : Int)
    (hx1 : (d.rooms.getLastD ⟨0,0,0,0⟩).x1 ≤ x)
    (hx2 : x < (d.rooms.getLastD ⟨0,0,0,0⟩).x2)
    (hy1 : (d.rooms.getLastD ⟨0,0,0,0⟩).y1 ≤ y)
    (hy2 : y < (d.rooms.getLastD ⟨0,0,0,0⟩).y2)
    (hb : d.inBounds x y) (hw : d.tiles x y = TILE_WALL) :
    (d.setup_throne_room).materials x y = MAT_IRON := by
  unfold Dungeon.setup_throne_room
  rw [if_pos (by simpa [List.length_pos] using hne)]
  dsimp only
  rw [if_neg, if_pos ⟨hx1, hx2, hy1, hy2, hb, hw⟩]
  intro hc
  rw [hw] at hc
  exact absurd hc.2.2.2.2.2 (by unfold TILE_WALL TILE_FLOOR; decide)

/-! ## The state of a dungeon as generate returns it -/

/-- Everything generate establishes: disjoint rooms, exact counters, the
large-room quota, door/tile agreement, and the throne-room tagging and
recoloring. -/
structure GenPost (d' : Dungeon) : Prop where
  pairwise : d'.rooms.Pairwise (fun a b => a.intersect b = false)
  total_eq : d'.rooms_total = d'.rooms.length
  large_eq : d'.rooms_large =
    countLarge d'.large_width_requirement d'.large_height_requirement d'.rooms
  quota : d'.enforce_large_rooms = true → d'.rooms.length ≤ 2 * d'.rooms_large
  door_iff : ∀ x y : Int, d'.doors x y ≠ -1 ↔ d'.tiles x y = TILE_DOOR
  throne_tag : d'.rooms ≠ [] → d'.throne_room_index = (d'.rooms.length : Int) - 1
  marble : d'.rooms ≠ [] → ∀ x y : Int,
    (d'.rooms.getLastD ⟨0,0,0,0⟩).x1 + 1 ≤ x → x < (d'.rooms.getLastD ⟨0,0,0,0⟩).x2 - 1 →
    (d'.rooms.getLastD ⟨0,0,0,0⟩).y1 + 1 ≤ y → y < (d'.rooms.getLastD ⟨0,0,0,0⟩).y2 - 1 →
    d'.inBounds x y → d'.tiles x y = TILE_FLOOR → d'.materials x y = MAT_MARBLE
  iron : d'.rooms ≠ [] → ∀ x y : Int,
    (d'.rooms.getLastD ⟨0,0,0,0⟩).x1 ≤ x → x < (d'.rooms.getLastD ⟨0,0,0,0⟩).x2 →
    (d'.rooms.getLastD ⟨0,0,0,0⟩).y1 ≤ y → y < (d'.rooms.getLastD ⟨0,0,0,0⟩).y2 →
    d'.inBounds x y → d'.tiles x y = TILE_WALL → d'.materials x y = MAT_IRON

theorem ginv_generateSetup (d0 : Dungeon) (mr rm rM : Int)
    (h0r : d0.rooms = []) (h0d : ∀ x y : Int, d0.doors x y = -1)
    (h0t : ∀ x y : Int, d0.tiles x y ≠ TILE_DOOR) :
    GInv (generateSetup d0 mr rm rM) := by
  refine ⟨?_, ?_, ?_, ?_, ?_, ?_, ?_⟩
  · show d0.rooms.Pairwise _
    rw [h0r]
    exact List.Pairwise.nil
  · show 0 = d0.rooms.length
    rw [h0r]
    rfl
  · show 0 = countLarge _ _ d0.rooms
    rw [h0r]
    rfl
  · intro _
    show d0.rooms.length ≤ 2 * 0
    rw [h0r]
    exact Nat.le_refl 0
  · exact h0d
  · exact h0t
  · intro r hr
    rw [show (generateSetup d0 mr rm rM).rooms = d0.rooms from rfl, h0r] at hr
    exact absurd hr (List.not_mem_nil r)

theorem sizeOK_generateSetup (d0 : Dungeon) (mr rm rM : Int) :
    SizeOK rm rM (generateSetup d0 mr rm rM) := by
  intro he
  have hde := of_decide_eq_true (show decide (rM ≥ max MIN_LARGE_ROOM_WIDTH rm ∧
      rM ≥ max MIN_LARGE_ROOM_HEIGHT rm) = true from he)
  exact ⟨le_max_right _ _, hde.1, le_max_right _ _, hde.2⟩

theorem genpost_of_ginv (d1 : Dungeon) (g1 : RNG) (d' : Dungeon) (g' : RNG)
    (hg1 : GInv d1)
    (heq : doorLoop (doorCandidates d1.setup_throne_room) d1.setup_throne_room g1 = (d', g')) :
    GenPost d' ∧ FieldsEq d1 d' := by
  obtain ⟨sr, st, sl, stt, sdd, sf⟩ := setup_throne_preserves d1
  have hfst : (doorLoop (doorCandidates d1.setup_throne_room) d1.setup_throne_room g1).1 = d' := by
    rw [heq]
  have hDS : DoorStep d1.setup_throne_room d' :=
    hfst ▸ doorLoop_doorStep _ _ g1
  obtain ⟨dr, dt, dl, dti, df, dg⟩ := hDS
  have hF : FieldsEq d1 d' := fieldsEq_trans sf df
  have hROOMS : d'.rooms = d1.rooms := dr.trans sr
  have hDinv2 : DInv d1.setup_throne_room := by
    intro x y
    rw [sdd, stt]
    constructor
    · intro h
      exact absurd (hg1.doors_none x y) h
    · intro h
      exact absurd h (hg1.no_door_tiles x y)
  refine ⟨⟨?_, ?_, ?_, ?_, ?_, ?_, ?_, ?_⟩, hF⟩
  · rw [hROOMS]
    exact hg1.pairwise
  · rw [dt, st, hg1.total_eq, hROOMS]
  · rw [dl, sl, hg1.large_eq, hROOMS, hF.2.2.1, hF.2.2.2.1]
  · intro he
    rw [hF.2.2.2.2.1] at he
    rw [hROOMS, dl, sl]
    exact hg1.quota he
  · exact hfst ▸ doorLoop_dinv _ _ g1 hDinv2
  · intro hne
    rw [hROOMS] at hne
    rw [dti, setup_throne_index d1 hne, hROOMS]
  · intro hne x y hx1 hx2 hy1 hy2 hb hf
    rw [hROOMS] at hne hx1 hx2 hy1 hy2
    have hb1 : d1.inBounds x y :=
      ⟨hb.1, hF.1 ▸ hb.2.1, hb.2.2.1, hF.2.1 ▸ hb.2.2.2⟩
    rcases dg x y with ⟨hteq, hmeq⟩ | ⟨hw2, hdo⟩
    · have hf1 : d1.tiles x y = TILE_FLOOR := by
        rw [← congrFun (congrFun stt x) y, ← hteq]
        exact hf
      rw [hmeq]
      exact setup_throne_marble d1 hne x y hx1 hx2 hy1 hy2 hb1 hf1
    · rw [hdo] at hf
      exact absurd hf (by unfold TILE_DOOR TILE_FLOOR; decide)
  · intro hne x y hx1 hx2 hy1 hy2 hb hw
    rw [hROOMS] at hne hx1 hx2 hy1 hy2
    have hb1 : d1.inBounds x y :=
      ⟨hb.1, hF.1 ▸ hb.2.1, hb.2.2.1, hF.2.1 ▸ hb.2.2.2⟩
    rcases dg x y with ⟨hteq, hmeq⟩ | ⟨hw2, hdo⟩
    · have hw1 : d1.tiles x y = TILE_WALL := by
        rw [← congrFun (congrFun stt x) y, ← hteq]
        exact hw
      rw [hmeq]
      exact setup_throne_iron d1 hne x y hx1 hx2 hy1 hy2 hb1 hw1
    · rw [hdo] at hw
      exact absurd hw (by unfold TILE_DOOR TILE_WALL; decide)

theorem generate_post (d0 : Dungeon) (mr rm rM : Int) (lin ent : ℚ) (g : RNG)
    (d' : Dungeon) (g' : RNG)
    (h0r : d0.rooms = []) (h0d : ∀ x y : Int, d0.doors x y = -1)
    (h0t : ∀ x y : Int, d0.tiles x y ≠ TILE_DOOR)
    (hgen : d0.generate mr rm rM lin ent g = some (d', g')) :
    GenPost d' ∧ FieldsEq (generateSetup d0 mr rm rM) d' := by
  have hg0 : GInv (generateSetup d0 mr rm rM) := ginv_generateSetup d0 mr rm rM h0r h0d h0t
  have hs0 : SizeOK rm rM (generateSetup d0 mr rm rM) := sizeOK_generateSetup d0 mr rm rM
  unfold Dungeon.generate at hgen
  dsimp only at hgen
  simp only [Option.pure_def, Option.bind_eq_bind] at hgen
  split at hgen
  · cases hreg : (generateSetup d0 mr rm rM).generate_linear mr rm rM ent g with
    | none => rw [hreg] at hgen; simp at hgen
    | some p =>
      obtain ⟨d1, g1⟩ := p
      rw [hreg] at hgen
      simp only [Option.some_bind] at hgen
      rw [Option.some.injEq] at hgen
      obtain ⟨hg1, hf1⟩ := generate_linear_ginv rm rM mr ent _ g d1 g1 hreg hg0 hs0
      obtain ⟨hpost, hf2⟩ := genpost_of_ginv d1 g1 d' g' hg1 hgen
      exact ⟨hpost, fieldsEq_trans hf1 hf2⟩
  · split at hgen
    · cases hreg : (generateSetup d0 mr rm rM).generate_biased_linear mr rm rM lin ent g with
      | none => rw [hreg] at hgen; simp at hgen
      | some p =>
        obtain ⟨d1, g1⟩ := p
        rw [hreg] at hgen
        simp only [Option.some_bind] at hgen
        rw [Option.some.injEq] at hgen
        obtain ⟨hg1, hf1⟩ := generate_biased_linear_ginv rm rM mr lin ent _ g d1 g1 hreg hg0 hs0
        obtain ⟨hpost, hf2⟩ := genpost_of_ginv d1 g1 d' g' hg1 hgen
        exact ⟨hpost, fieldsEq_trans hf1 hf2⟩
    · cases hreg : (generateSetup d0 mr rm rM).generate_random mr rm rM lin ent g with
      | none => rw [hreg] at hgen; simp at hgen
      | some p =>
        obtain ⟨d1, g1⟩ := p
        rw [hreg] at hgen
        simp only [Option.some_bind] at hgen
        rw [Option.some.injEq] at hgen
        obtain ⟨hg1, hf1⟩ := generate_random_ginv rm rM mr lin ent _ g d1 g1 hreg hg0 hs0
        obtain ⟨hpost, hf2⟩ := genpost_of_ginv d1 g1 d' g' hg1 hgen
        exact ⟨hpost, fieldsEq_trans hf1 hf2⟩

theorem extraLinksLoop_carveLike :
    ∀ (n : Nat) (d : Dungeon) (g : RNG), CarveLike d (extraLinksLoop n d g).1 := by
  intro n
  induction n with
  | zero => intro d g; exact carveLike_refl d
  | succ n ih =>
    intro d g
    unfold extraLinksLoop
    dsimp only
    split
    · exact carveLike_refl d
    · split
      · exact ih ..
      · split
        · exact ih ..
        · exact carveLike_trans (carve_corridor_carveLike ..) (ih ..)

/-- What a whole generate_dungeon run establishes: the generate-time
facts that survive the extra complexity links (room list, counters,
quota), plus the size sandwich of the requirements. -/
theorem generate_dungeon_post (g : RNG) (width height : Int) (complexity : ℚ)
    (length rm rM : Int) (lin ent : ℚ) (d' : Dungeon) (g' : RNG)
    (h : generate_dungeon g width height complexity length rm rM lin ent = some (d', g')) :
    d'.rooms.Pairwise (fun a b => a.intersect b = false) ∧
    d'.rooms_total = d'.rooms.length ∧
    d'.rooms_large =
      countLarge d'.large_width_requirement d'.large_height_requirement d'.rooms ∧
    (d'.enforce_large_rooms = true → d'.rooms.length ≤ 2 * d'.rooms_large) ∧
    SizeOK rm rM d' := by
  unfold generate_dungeon at h
  dsimp only at h
  simp only [Option.pure_def, Option.bind_eq_bind] at h
  cases hG : (Dungeon.init (gdDims width height rM (max 1 length) lin).1
      (gdDims width height rM (max 1 length) lin).2).generate (max 1 length) rm rM lin ent g with
  | none => rw [hG] at h; simp at h
  | some p =>
    obtain ⟨d1, g1⟩ := p
    rw [hG] at h
    simp only [Option.some_bind] at h
    obtain ⟨hpost, hf⟩ := generate_post _ (max 1 length) rm rM lin ent g d1 g1
      rfl (fun _ _ => rfl) (fun x y => by show TILE_WALL ≠ TILE_DOOR; decide) hG
    have hs1 : SizeOK rm rM d1 := sizeOK_transfer (sizeOK_generateSetup _ _ _ _) hf
    split at h
    · rw [Option.some.injEq] at h
      have hcl : CarveLike d1 d' := by
        have hfst : (extraLinksLoop (max 0 (pyInt (complexity *
            (max 0 ((d1.rooms.length : ℚ) - 1))))).toNat d1 g1).1 = d' := by rw [h]
        exact hfst ▸ extraLinksLoop_carveLike ..
      obtain ⟨clr, clt, cll, clf, cld, cltil⟩ := hcl
      refine ⟨clr ▸ hpost.pairwise, ?_, ?_, ?_, sizeOK_transfer hs1 clf⟩
      · rw [clt, clr, hpost.total_eq]
      · rw [cll, clr, hpost.large_eq, clf.2.2.1, clf.2.2.2.1]
      · intro he
        rw [clf.2.2.2.2.1] at he
        rw [clr, cll]
        exact hpost.quota he
    · rw [Option.some.injEq] at h
      have hd1 : d1 = d' := congrArg Prod.fst h
      subst hd1
      exact ⟨hpost.pairwise, hpost.total_eq, hpost.large_eq, hpost.quota, hs1⟩

/-! ## Claim theorems: the generator -/

/-- C1: For every generated dungeon, no two rooms in the final room
list intersect: for all pairs of distinct rooms A and B in
Dungeon.rooms after generate returns (here: after the whole
generate_dungeon pipeline, extra complexity links included), the
interval-overlap test Rect.intersect is false. -/
theorem c1_rooms_pairwise_disjoint (g : RNG) (width height : Int) (complexity : ℚ)
    (length rm rM : Int) (lin ent : ℚ) (d' : Dungeon) (g' : RNG)
    (hrun : generate_dungeon g width height complexity length rm rM lin ent = some (d', g')) :
    d'.rooms.Pairwise (fun a b => a.intersect b = false) :=
  (generate_dungeon_post g width height complexity length rm rM lin ent d' g' hrun).1

set_option maxHeartbeats 2000000 in
theorem c1_rooms_pairwise_disjoint_witness :
    generate_dungeon ⟨fun _ => 0, 0⟩ 16 12 0 1 4 6 0 (1/2) =
      some ((generate_dungeon ⟨fun _ => 0, 0⟩ 16 12 0 1 4 6 0 (1/2)).getD
        (Dungeon.init 0 0, ⟨fun _ => 0, 0⟩)) ∧
    ((generate_dungeon ⟨fun _ => 0, 0⟩ 16 12 0 1 4 6 0 (1/2)).getD
        (Dungeon.init 0 0, ⟨fun _ => 0, 0⟩)).1.rooms.Pairwise
      (fun a b => a.intersect b = false) := by
  have h1 : generate_dungeon ⟨fun _ => 0, 0⟩ 16 12 0 1 4 6 0 (1/2) = some ((generate_dungeon ⟨fun _ => 0, 0⟩ 16 12 0 1 4 6 0 (1/2)).getD
        (Dungeon.init 0 0, ⟨fun _ => 0, 0⟩)) := rfl
  refine ⟨h1, ?_⟩
  exact c1_rooms_pairwise_disjoint ⟨fun _ => 0, 0⟩ 16 12 0 1 4 6 0 (1/2)
    (((generate_dungeon ⟨fun _ => 0, 0⟩ 16 12 0 1 4 6 0 (1/2)).getD
        (Dungeon.init 0 0, ⟨fun _ => 0, 0⟩))).1 (((generate_dungeon ⟨fun _ => 0, 0⟩ 16 12 0 1 4 6 0 (1/2)).getD
        (Dungeon.init 0 0, ⟨fun _ => 0, 0⟩))).2 (by rw [h1]; rfl)

/-- C2: Whenever room_max permits the large-room thresholds (the
enforce_large_rooms flag), at the end of generation the number of rooms
meeting both large-room requirements is at least ceil(len(rooms)/2) —
in Nat arithmetic (len + 1) / 2 — and the incremental mechanism holds:
a room size picked while the large count is below
ceil((placed so far + 1) / 2) = (rooms_total + 2) / 2 meets both
requirements. -/
theorem c2_large_room_quota (g : RNG) (width height : Int) (complexity : ℚ)
    (length rm rM : Int) (lin ent : ℚ) (d' : Dungeon) (g' : RNG)
    (hrun : generate_dungeon g width height complexity length rm rM lin ent = some (d', g'))
    (he : d'.enforce_large_rooms = true) :
    (d'.rooms.length + 1) / 2 ≤
      countLarge d'.large_width_requirement d'.large_height_requirement d'.rooms ∧
    (∀ (wr hr : Int) (g2 g3 : RNG), d'.rooms_large < (d'.rooms_total + 2) / 2 →
      d'.pick_room_size rm rM false g2 = some ((wr, hr), g3) →
      d'.large_width_requirement ≤ wr ∧ d'.large_height_requirement ≤ hr) := by
  obtain ⟨-, hteq, hleq, hql, hsz⟩ :=
    generate_dungeon_post g width height complexity length rm rM lin ent d' g' hrun
  constructor
  · have hq := hql he
    omega
  · intro wr hr g2 g3 hlt hp
    exact pick_room_size_forced d' rm rM g2 wr hr g3 hsz hp he (by omega)

set_option maxHeartbeats 2000000 in
theorem c2_large_room_quota_witness :
    generate_dungeon ⟨fun _ => 0, 0⟩ 16 12 0 1 4 6 0 (1/2) =
      some ((generate_dungeon ⟨fun _ => 0, 0⟩ 16 12 0 1 4 6 0 (1/2)).getD
        (Dungeon.init 0 0, ⟨fun _ => 0, 0⟩)) ∧
    ((generate_dungeon ⟨fun _ => 0, 0⟩ 16 12 0 1 4 6 0 (1/2)).getD
        (Dungeon.init 0 0, ⟨fun _ => 0, 0⟩)).1.enforce_large_rooms = true ∧
    (((generate_dungeon ⟨fun _ => 0, 0⟩ 16 12 0 1 4 6 0 (1/2)).getD
        (Dungeon.init 0 0, ⟨fun _ => 0, 0⟩)).1.rooms.length + 1) / 2 ≤
      countLarge
        ((generate_dungeon ⟨fun _ => 0, 0⟩ 16 12 0 1 4 6 0 (1/2)).getD
          (Dungeon.init 0 0, ⟨fun _ => 0, 0⟩)).1.large_width_requirement
        ((generate_dungeon ⟨fun _ => 0, 0⟩ 16 12 0 1 4 6 0 (1/2)).getD
          (Dungeon.init 0 0, ⟨fun _ => 0, 0⟩)).1.large_height_requirement
        ((generate_dungeon ⟨fun _ => 0, 0⟩ 16 12 0 1 4 6 0 (1/2)).getD
          (Dungeon.init 0 0, ⟨fun _ => 0, 0⟩)).1.rooms := by
  have h1 : generate_dungeon ⟨fun _ => 0, 0⟩ 16 12 0 1 4 6 0 (1/2) = some ((generate_dungeon ⟨fun _ => 0, 0⟩ 16 12 0 1 4 6 0 (1/2)).getD
        (Dungeon.init 0 0, ⟨fun _ => 0, 0⟩)) := rfl
  refine ⟨h1, by decide, ?_⟩
  exact (c2_large_room_quota ⟨fun _ => 0, 0⟩ 16 12 0 1 4 6 0 (1/2)
    (((generate_dungeon ⟨fun _ => 0, 0⟩ 16 12 0 1 4 6 0 (1/2)).getD
        (Dungeon.init 0 0, ⟨fun _ => 0, 0⟩))).1 (((generate_dungeon ⟨fun _ => 0, 0⟩ 16 12 0 1 4 6 0 (1/2)).getD
        (Dungeon.init 0 0, ⟨fun _ => 0, 0⟩))).2 (by rw [h1]; rfl) (by decide)).1

/-- C3 counterexample: the claimed invariant "doors[x][y] != -1 iff
tiles[x][y] == TILE_DOOR at every point, and no operation ever turns a
Door tile into Floor while leaving its door state set" is false:
carving a horizontal tunnel across a door cell turns the tile into
Floor but leaves the door state set.  Concretely, on a 5 by 5 dungeon,
carve floor on both sides of (2,2), place a door there with add_door,
then carve a tunnel through it: the door state is still not -1 while
the tile is no longer a door. -/
theorem c3_door_tile_agreement_cex :
    ((((((Dungeon.init 5 5).carve_h_tunnel 0 1 2).carve_h_tunnel 3 4 2).add_door
        2 2 false).2.carve_h_tunnel 0 4 2).doors 2 2 ≠ -1) ∧
    ((((((Dungeon.init 5 5).carve_h_tunnel 0 1 2).carve_h_tunnel 3 4 2).add_door
        2 2 false).2.carve_h_tunnel 0 4 2).tiles 2 2 ≠ TILE_DOOR) := by
  constructor
  · decide
  · decide

/-- C3 amended: the door/tile agreement does hold for the dungeon
generate returns (doors are only ever created by add_door during the
door pass, which keeps the two grids in lockstep); it is the later
carving passes (the complexity links of generate_dungeon, stamp_prefab)
that can break it. -/
theorem c3_door_tile_agreement_amended (w0 h0 mr rm rM : Int) (lin ent : ℚ)
    (g : RNG) (d' : Dungeon) (g' : RNG)
    (hgen : (Dungeon.init w0 h0).generate mr rm rM lin ent g = some (d', g')) :
    ∀ x y : Int, d'.doors x y ≠ -1 ↔ d'.tiles x y = TILE_DOOR :=
  ((generate_post (Dungeon.init w0 h0) mr rm rM lin ent g d' g' rfl
    (fun _ _ => rfl) (fun _ _ => by show TILE_WALL ≠ TILE_DOOR; decide) hgen).1).door_iff

set_option maxHeartbeats 2000000 in
theorem c3_door_tile_agreement_amended_witness :
    (Dungeon.init 16 12).generate 1 4 6 0 (1/2) ⟨fun _ => 0, 0⟩ =
      some (((Dungeon.init 16 12).generate 1 4 6 0 (1/2) ⟨fun _ => 0, 0⟩).getD
        (Dungeon.init 0 0, ⟨fun _ => 0, 0⟩)) ∧
    ((((Dungeon.init 16 12).generate 1 4 6 0 (1/2) ⟨fun _ => 0, 0⟩).getD
        (Dungeon.init 0 0, ⟨fun _ => 0, 0⟩)).1.doors 3 3 ≠ -1 ↔
     (((Dungeon.init 16 12).generate 1 4 6 0 (1/2) ⟨fun _ => 0, 0⟩).getD
        (Dungeon.init 0 0, ⟨fun _ => 0, 0⟩)).1.tiles 3 3 = TILE_DOOR) := by
  have h1 : (Dungeon.init 16 12).generate 1 4 6 0 (1/2) ⟨fun _ => 0, 0⟩ =
      some (((Dungeon.init 16 12).generate 1 4 6 0 (1/2) ⟨fun _ => 0, 0⟩).getD
        (Dungeon.init 0 0, ⟨fun _ => 0, 0⟩)) := rfl
  refine ⟨h1, ?_⟩
  exact c3_door_tile_agreement_amended 16 12 1 4 6 0 (1/2) ⟨fun _ => 0, 0⟩
    (((Dungeon.init 16 12).generate 1 4 6 0 (1/2) ⟨fun _ => 0, 0⟩).getD
        (Dungeon.init 0 0, ⟨fun _ => 0, 0⟩)).1
    (((Dungeon.init 16 12).generate 1 4 6 0 (1/2) ⟨fun _ => 0, 0⟩).getD
        (Dungeon.init 0 0, ⟨fun _ => 0, 0⟩)).2
    (by rw [h1]; rfl) 3 3

/-- C4 counterexample: generate_dungeon does not clamp room_min above
room_max; _pick_room_size calls random.randint(room_min, room_max),
which raises ValueError when room_min > room_max (modelled as none).
Concretely, width 60, height 40, length 5, room_min 9, room_max 4
raises instead of returning a dungeon. -/
theorem c4_no_clamp_cex :
    generate_dungeon ⟨fun _ => 0, 0⟩ 60 40 0 5 9 4 0 0 = none := rfl

theorem pickSizeAttempts_none_of_gt {rm rM : Int} (hlt : rM < rm) (lw lh : Int)
    (f : Bool) (n : Nat) (g : RNG) :
    pickSizeAttempts rm rM lw lh f (n + 1) g = none := by
  unfold pickSizeAttempts
  rw [show randint rm rM g = none from by unfold randint; rw [if_neg (not_le.mpr hlt)]]
  rfl

theorem pick_room_size_none_of_gt (d : Dungeon) {rm rM : Int} (hlt : rM < rm)
    (fl : Bool) (g : RNG) : d.pick_room_size rm rM fl g = none := by
  unfold Dungeon.pick_room_size
  dsimp only
  rw [pickSizeAttempts_none_of_gt hlt]
  rfl

theorem biasChain_none (horizontal : Bool) {rm rM : Int} (seg bc cv : Int)
    (hlt : rM < rm) (hcv : 0 ≤ cv) (n : Nat) (i : Int) (d : Dungeon) (g : RNG)
    (hguard : ¬ seg * (i + 1) ≥ (if horizontal = true then d.w else d.h) - rM) :
    biasChain horizontal rm rM seg bc cv (n + 1) i d g = none := by
  unfold biasChain
  dsimp only
  rw [if_neg hguard]
  rw [show randint (-cv) cv g = some (-cv + (g.take).emod (cv - -cv + 1), g.bump) from by
    unfold randint; rw [if_pos (by omega)]]
  simp only [Option.pure_def, Option.bind_eq_bind, Option.some_bind]
  rw [pick_room_size_none_of_gt d hlt false g.bump]
  rfl

/-- C4 amended: generate_dungeon does not clamp room_min > room_max:
with width 60, height 40, length 5, room_min 9, room_max 4, linearity 0
and entropy 0, every oracle run reaches _pick_room_size's
randint(room_min, room_max) and raises ValueError (none), for every
random sequence. -/
theorem c4_no_clamp_amended (g : RNG) :
    generate_dungeon g 60 40 0 5 9 4 0 0 = none := by
  unfold generate_dungeon
  dsimp only
  have hgen : (Dungeon.init (gdDims 60 40 4 (max 1 5) 0).1
      (gdDims 60 40 4 (max 1 5) 0).2).generate (max 1 5) 9 4 0 0 g = none := by
    unfold Dungeon.generate
    dsimp only
    rw [if_neg (by decide), if_neg (by decide)]
    unfold Dungeon.generate_random
    rw [if_pos (by decide)]
    unfold Dungeon.generate_biased_linear
    rw [if_neg (by decide)]
    dsimp only
    rw [if_pos (by decide)]
    rw [show ((max 1 5 : Int)).toNat = 4 + 1 from by decide]
    rw [biasChain_none _ _ _ _ (by decide) (by decide) 4 0 _ g (by decide)]
    rfl
  rw [hgen]
  rfl

/-- C5 counterexample: with linearity at most one half,
generate_dungeon carves extra complexity links after the throne room
was recolored, and those corridors overwrite interior throne tiles with
Cobble.  Concretely (oracle: draw 6 returns 1, all others 0; width 24,
height 10, complexity 1, length 3, rooms 3..3, linearity 2/5,
entropy 0) the run returns two rooms, the last room is (15,3)-(18,6),
its interior tile (16,4) is Floor and in bounds, yet its material is
not Marble. -/
theorem c5_throne_room_cex :
    generate_dungeon ⟨fun n => if n = 6 then 1 else 0, 0⟩ 24 10 1 3 3 3 (2/5) 0 =
      some ((generate_dungeon ⟨fun n => if n = 6 then 1 else 0, 0⟩ 24 10 1 3 3 3
        (2/5) 0).getD (Dungeon.init 0 0, ⟨fun _ => 0, 0⟩)) ∧
    (((generate_dungeon ⟨fun n => if n = 6 then 1 else 0, 0⟩ 24 10 1 3 3 3
        (2/5) 0).getD (Dungeon.init 0 0, ⟨fun _ => 0, 0⟩)).1.rooms.length = 2) ∧
    ((((generate_dungeon ⟨fun n => if n = 6 then 1 else 0, 0⟩ 24 10 1 3 3 3
        (2/5) 0).getD (Dungeon.init 0 0, ⟨fun _ => 0, 0⟩)).1.rooms.getLastD
        ⟨0,0,0,0⟩).x1 + 1 ≤ 16) ∧
    (16 < (((generate_dungeon ⟨fun n => if n = 6 then 1 else 0, 0⟩ 24 10 1 3 3 3
        (2/5) 0).getD (Dungeon.init 0 0, ⟨fun _ => 0, 0⟩)).1.rooms.getLastD
        ⟨0,0,0,0⟩).x2 - 1) ∧
    ((((generate_dungeon ⟨fun n => if n = 6 then 1 else 0, 0⟩ 24 10 1 3 3 3
        (2/5) 0).getD (Dungeon.init 0 0, ⟨fun _ => 0, 0⟩)).1.rooms.getLastD
        ⟨0,0,0,0⟩).y1 + 1 ≤ 4) ∧
    (4 < (((generate_dungeon ⟨fun n => if n = 6 then 1 else 0, 0⟩ 24 10 1 3 3 3
        (2/5) 0).getD (Dungeon.init 0 0, ⟨fun _ => 0, 0⟩)).1.rooms.getLastD
        ⟨0,0,0,0⟩).y2 - 1) ∧
    (((generate_dungeon ⟨fun n => if n = 6 then 1 else 0, 0⟩ 24 10 1 3 3 3
        (2/5) 0).getD (Dungeon.init 0 0, ⟨fun _ => 0, 0⟩)).1.inBounds 16 4) ∧
    (((generate_dungeon ⟨fun n => if n = 6 then 1 else 0, 0⟩ 24 10 1 3 3 3
        (2/5) 0).getD (Dungeon.init 0 0, ⟨fun _ => 0, 0⟩)).1.tiles 16 4 = TILE_FLOOR) ∧
    (((generate_dungeon ⟨fun n => if n = 6 then 1 else 0, 0⟩ 24 10 1 3 3 3
        (2/5) 0).getD (Dungeon.init 0 0, ⟨fun _ => 0, 0⟩)).1.materials 16 4 ≠
      MAT_MARBLE) := by
  exact ⟨rfl, by decide, by decide, by decide, by decide, by decide, by decide,
    by decide, by decide⟩

/-- C5 amended: the throne tagging and recoloring do hold for the
dungeon generate returns (before generate_dungeon's complexity links):
the last room is the throne room, its in-bounds interior Floor tiles
are Marble and its in-bounds border Wall tiles are Iron. -/
theorem c5_throne_room_amended (w0 h0 mr rm rM : Int) (lin ent : ℚ) (g : RNG)
    (d' : Dungeon) (g' : RNG)
    (hgen : (Dungeon.init w0 h0).generate mr rm rM lin ent g = some (d', g'))
    (hne : d'.rooms ≠ []) :
    d'.is_throne_room ((d'.rooms.length : Int) - 1) = true ∧
    (∀ x y : Int,
      (d'.rooms.getLastD ⟨0,0,0,0⟩).x1 + 1 ≤ x → x < (d'.rooms.getLastD ⟨0,0,0,0⟩).x2 - 1 →
      (d'.rooms.getLastD ⟨0,0,0,0⟩).y1 + 1 ≤ y → y < (d'.rooms.getLastD ⟨0,0,0,0⟩).y2 - 1 →
      d'.inBounds x y → d'.tiles x y = TILE_FLOOR → d'.materials x y = MAT_MARBLE) ∧
    (∀ x y : Int,
      (d'.rooms.getLastD ⟨0,0,0,0⟩).x1 ≤ x → x < (d'.rooms.getLastD ⟨0,0,0,0⟩).x2 →
      (d'.rooms.getLastD ⟨0,0,0,0⟩).y1 ≤ y → y < (d'.rooms.getLastD ⟨0,0,0,0⟩).y2 →
      d'.inBounds x y → d'.tiles x y = TILE_WALL → d'.materials x y = MAT_IRON) := by
  obtain ⟨hpost, -⟩ := generate_post (Dungeon.init w0 h0) mr rm rM lin ent g d' g' rfl
    (fun _ _ => rfl) (fun _ _ => by show TILE_WALL ≠ TILE_DOOR; decide) hgen
  refine ⟨?_, hpost.marble hne, hpost.iron hne⟩
  unfold Dungeon.is_throne_room
  rw [hpost.throne_tag hne]
  apply decide_eq_true
  have hlen : 0 < d'.rooms.length := List.length_pos.mpr hne
  exact ⟨rfl, by omega⟩

set_option maxHeartbeats 2000000 in
theorem c5_throne_room_amended_witness :
    (Dungeon.init 16 12).generate 1 4 6 0 (1/2) ⟨fun _ => 0, 0⟩ =
      some (((Dungeon.init 16 12).generate 1 4 6 0 (1/2) ⟨fun _ => 0, 0⟩).getD
        (Dungeon.init 0 0, ⟨fun _ => 0, 0⟩)) ∧
    (((Dungeon.init 16 12).generate 1 4 6 0 (1/2) ⟨fun _ => 0, 0⟩).getD
        (Dungeon.init 0 0, ⟨fun _ => 0, 0⟩)).1.rooms ≠ [] ∧
    (((Dungeon.init 16 12).generate 1 4 6 0 (1/2) ⟨fun _ => 0, 0⟩).getD
        (Dungeon.init 0 0, ⟨fun _ => 0, 0⟩)).1.is_throne_room
      (((((Dungeon.init 16 12).generate 1 4 6 0 (1/2) ⟨fun _ => 0, 0⟩).getD
        (Dungeon.init 0 0, ⟨fun _ => 0, 0⟩)).1.rooms.length : Int) - 1) = true := by
  have h1 : (Dungeon.init 16 12).generate 1 4 6 0 (1/2) ⟨fun _ => 0, 0⟩ =
      some (((Dungeon.init 16 12).generate 1 4 6 0 (1/2) ⟨fun _ => 0, 0⟩).getD
        (Dungeon.init 0 0, ⟨fun _ => 0, 0⟩)) := rfl
  have h2 : (((Dungeon.init 16 12).generate 1 4 6 0 (1/2) ⟨fun _ => 0, 0⟩).getD
      (Dungeon.init 0 0, ⟨fun _ => 0, 0⟩)).1.rooms ≠ [] :=
    List.ne_nil_of_length_pos (by decide)
  refine ⟨h1, h2, ?_⟩
  exact (c5_throne_room_amended 16 12 1 4 6 0 (1/2) ⟨fun _ => 0, 0⟩
    (((Dungeon.init 16 12).generate 1 4 6 0 (1/2) ⟨fun _ => 0, 0⟩).getD
        (Dungeon.init 0 0, ⟨fun _ => 0, 0⟩)).1
    (((Dungeon.init 16 12).generate 1 4 6 0 (1/2) ⟨fun _ => 0, 0⟩).getD
        (Dungeon.init 0 0, ⟨fun _ => 0, 0⟩)).2
    (by rw [h1]; rfl) h2).1

/-! ## C7: on an open grid the scan is exact -/

/-- In the window of row i the right slope is always below the initial
start slope 1, so an unobstructed scan never skips a column. -/
theorem rSlope_lt_one (i dx : Int) (hi : 1 ≤ i) (hdx : -i ≤ dx) : rSlope i dx < 1 := by
  unfold rSlope
  have hb : (-(i : ℚ) - 1/2) < 0 := by
    have : (1 : ℚ) ≤ (i : ℚ) := by exact_mod_cast hi
    linarith
  rw [div_lt_iff_of_neg hb]
  have : (-(i : ℚ)) ≤ (dx : ℚ) := by exact_mod_cast hdx
  linarith

/-- In the window of row i the left slope stays positive, so a scan with
end slope 0 never breaks early. -/
theorem lSlope_pos (i dx : Int) (hi : 1 ≤ i) (hdx : dx ≤ 0) : 0 < lSlope i dx := by
  unfold lSlope
  have hnum : ((dx : ℚ) - 1/2) < 0 := by
    have : (dx : ℚ) ≤ 0 := by exact_mod_cast hdx
    linarith
  have hden : (-(i : ℚ) + 1/2) < 0 := by
    have : (1 : ℚ) ≤ (i : ℚ) := by exact_mod_cast hi
    linarith
  exact div_pos_of_neg_of_neg hnum hden

/-- Each octant transform is a signed permutation, so the world distance
of the local cell (dx, -i) is its local distance. -/
theorem oct_dist (cx cy : Int) (o : Oct)
    (h1 : o.xx * o.xy + o.yx * o.yy = 0)
    (h2 : o.xx * o.xx + o.yx * o.yx = 1)
    (h3 : o.xy * o.xy + o.yy * o.yy = 1) (i dx : Int) :
    (octX cx o i dx - cx) * (octX cx o i dx - cx) +
      (octY cy o i dx - cy) * (octY cy o i dx - cy) = dx * dx + i * i := by
  unfold octX octY
  ring_nf
  linear_combination (dx * dx) * h2 + (i * i) * h3 + (2 * dx * (-i)) * h1

/-- On an open grid an in-bounds cell is never a wall. -/
theorem open_is_wall_false (d : Dungeon) (x y : Int)
    (hop : ∀ a b : Int, d.inBounds a b → d.tiles a b ≠ TILE_WALL)
    (hb : d.inBounds x y) : d.is_wall x y = false := by
  unfold Dungeon.is_wall
  rw [if_pos hb]
  exact decide_eq_false (hop x y hb)

/-- One open-scan step with start slope 1, end slope 0 and no blocking:
the loop continues with the same slopes and marks the cell exactly when
it is in bounds. -/
theorem scanStep_open (d : Dungeon) (cx cy radius : Int) (o : Oct)
    (spawn : Int → ℚ → ℚ → Vis → Vis) (i dx : Int) (ns : ℚ) (vis : Vis)
    (hop : ∀ a b : Int, d.inBounds a b → d.tiles a b ≠ TILE_WALL)
    (hi : 1 ≤ i) (hdx1 : -i ≤ dx) (hdx2 : dx ≤ 0) :
    scanStep d cx cy radius 0 o spawn i dx 1 ns false vis =
      StepRes.next 1 ns false
        (if d.inBounds (octX cx o i dx) (octY cy o i dx)
         then markCell cx cy radius o i dx vis else vis) := by
  unfold scanStep
  by_cases hb : d.inBounds (octX cx o i dx) (octY cy o i dx)
  · rw [if_neg (not_not_intro hb), if_neg (not_lt.mpr (le_of_lt (rSlope_lt_one i dx hi hdx1))),
      if_neg (not_lt.mpr (le_of_lt (lSlope_pos i dx hi hdx2))),
      if_neg (Bool.false_ne_true),
      if_neg (fun hc => absurd hc.1 (by rw [open_is_wall_false d _ _ hop hb]; decide)),
      if_pos hb]
  · rw [if_pos hb, if_neg hb]

/-- The open column scan: the row state keeps start slope 1 and stays
unblocked, the visible set only grows, and every in-bounds cell of the
remaining window within the local radius is marked. -/
theorem scanCols_open (d : Dungeon) (cx cy radius : Int) (o : Oct)
    (spawn : Int → ℚ → ℚ → Vis → Vis)
    (hop : ∀ a b : Int, d.inBounds a b → d.tiles a b ≠ TILE_WALL)
    (h1 : o.xx * o.xy + o.yx * o.yy = 0)
    (h2 : o.xx * o.xx + o.yx * o.yx = 1)
    (h3 : o.xy * o.xy + o.yy * o.yy = 1)
    (hrad : 0 ≤ radius) (i : Int) (hi : 1 ≤ i) :
    ∀ (fuel : Nat) (dx : Int) (ns : ℚ) (vis : Vis), fuel = (1 - dx).toNat → -i ≤ dx →
      ∃ V : Vis, scanCols d cx cy radius 0 o spawn i fuel dx 1 ns false vis = ⟨V, 1, false⟩ ∧
        vis ⊆ V ∧
        ∀ dx' : Int, dx ≤ dx' → dx' ≤ 0 →
          d.inBounds (octX cx o i dx') (octY cy o i dx') →
          dx' * dx' + i * i ≤ radius * radius →
          (octX cx o i dx', octY cy o i dx') ∈ V := by
  intro fuel
  induction fuel with
  | zero =>
    intro dx ns vis hfuel hdx1
    refine ⟨vis, rfl, List.Subset.refl _, ?_⟩
    intro dx' hge hle _ _
    omega
  | succ n ih =>
    intro dx ns vis hfuel hdx1
    have hdx2 : dx ≤ 0 := by omega
    rw [scanCols]
    rw [if_neg (by omega)]
    rw [scanStep_open d cx cy radius o spawn i dx ns vis hop hi hdx1 hdx2]
    obtain ⟨V, hVeq, hVsub, hVmark⟩ := ih (dx + 1)
      ns (if d.inBounds (octX cx o i dx) (octY cy o i dx)
          then markCell cx cy radius o i dx vis else vis) (by omega) (by omega)
    refine ⟨V, hVeq, ?_, ?_⟩
    · refine List.Subset.trans ?_ hVsub
      split
      · exact markCell_grow ..
      · exact List.Subset.refl _
    · intro dx' hge hle hb hdist
      rcases eq_or_lt_of_le hge with heq | hlt
      · subst heq
        apply hVsub
        rw [if_pos hb]
        unfold markCell
        rw [if_pos hdist]
        unfold setVisible
        rw [if_pos ⟨hrad, by rw [oct_dist cx cy o h1 h2 h3 i dx]; exact hdist⟩]
        unfold visInsert
        split
        · assumption
        · exact List.mem_cons_self _ _
      · exact hVmark dx' (by omega) hle hb hdist

/-- The open row loop: every remaining row's window cells inside the
local radius end up marked. -/
theorem castRows_open (d : Dungeon) (cx cy radius : Int) (o : Oct)
    (spawn : Int → ℚ → ℚ → Vis → Vis)
    (hspawn : ∀ r s e v, v ⊆ spawn r s e v)
    (hop : ∀ a b : Int, d.inBounds a b → d.tiles a b ≠ TILE_WALL)
    (h1 : o.xx * o.xy + o.yx * o.yy = 0)
    (h2 : o.xx * o.xx + o.yx * o.yx = 1)
    (h3 : o.xy * o.xy + o.yy * o.yy = 1)
    (hrad : 0 ≤ radius) :
    ∀ (fuel : Nat) (i : Int) (vis : Vis), fuel = (radius + 1 - i).toNat → 1 ≤ i →
      ∀ i' dx' : Int, i ≤ i' → i' ≤ radius → -i' ≤ dx' → dx' ≤ 0 →
        d.inBounds (octX cx o i' dx') (octY cy o i' dx') →
        dx' * dx' + i' * i' ≤ radius * radius →
        (octX cx o i' dx', octY cy o i' dx') ∈
          castRows d cx cy radius 0 o spawn fuel i 1 vis := by
  intro fuel
  induction fuel with
  | zero =>
    intro i vis hfuel hi i' dx' hgei hler _ _ _ _
    omega
  | succ n ih =>
    intro i vis hfuel hi i' dx' hgei hler hdx1 hdx2 hb hdist
    rw [castRows]
    rw [if_neg (by omega)]
    obtain ⟨V, hVeq, hVsub, hVmark⟩ := scanCols_open d cx cy radius o spawn hop h1 h2 h3
      hrad i hi (1 - (-i)).toNat (-i) 1 vis rfl (by omega)
    unfold rowScan
    rw [hVeq]
    dsimp only
    rw [if_neg (Bool.false_ne_true)]
    rcases eq_or_lt_of_le hgei with heq | hlt
    · subst heq
      exact castRows_grow d cx cy radius 0 o spawn hspawn n (i + 1) 1 V
        (hVmark dx' (by omega) hdx2 hb hdist)
    · exact ih (i + 1) V (by omega) (by omega) i' dx' (by omega) hler hdx1 hdx2 hb hdist

/-- The top-level octant scan on an open grid marks every window cell
of the octant inside the radius. -/
theorem castShadowsF_open (d : Dungeon) (cx cy radius : Int) (o : Oct)
    (hop : ∀ a b : Int, d.inBounds a b → d.tiles a b ≠ TILE_WALL)
    (h1 : o.xx * o.xy + o.yx * o.yy = 0)
    (h2 : o.xx * o.xx + o.yx * o.yx = 1)
    (h3 : o.xy * o.xy + o.yy * o.yy = 1)
    (hrad : 0 ≤ radius) (vis : Vis) (i' dx' : Int)
    (hi : 1 ≤ i') (hir : i' ≤ radius) (hdx1 : -i' ≤ dx') (hdx2 : dx' ≤ 0)
    (hb : d.inBounds (octX cx o i' dx') (octY cy o i' dx'))
    (hdist : dx' * dx' + i' * i' ≤ radius * radius) :
    (octX cx o i' dx', octY cy o i' dx') ∈
      castShadowsF d cx cy radius o (radius.toNat + 1) 1 1 0 vis := by
  rw [castShadowsF]
  rw [if_neg (by norm_num)]
  exact castRows_open d cx cy radius o (castShadowsF d cx cy radius o radius.toNat)
    (fun r s e v => castShadowsF_grow d cx cy radius o radius.toNat r s e v)
    hop h1 h2 h3 hrad (radius + 1 - 1).toNat 1 vis rfl le_rfl i' dx'
    hi hir hdx1 hdx2 hb hdist

theorem foldOct_grow (d : Dungeon) (cx cy radius : Int) :
    ∀ (os : List Oct) (v : Vis),
      v ⊆ os.foldl (fun vis o => castShadowsF d cx cy radius o (radius.toNat + 1) 1 1 0 vis) v := by
  intro os
  induction os with
  | nil => intro v; exact List.Subset.refl _
  | cons o os ih =>
    intro v
    rw [List.foldl_cons]
    exact List.Subset.trans (castShadowsF_grow d cx cy radius o (radius.toNat + 1) 1 1 0 v) (ih _)

theorem compute_mem_of_octant (d : Dungeon) (cx cy radius : Int) (o : Oct)
    (ho : o ∈ octants) (p : Int × Int)
    (hmark : ∀ vis : Vis, p ∈ castShadowsF d cx cy radius o (radius.toNat + 1) 1 1 0 vis) :
    p ∈ FOV.compute d cx cy radius := by
  unfold FOV.compute
  generalize ([(cx, cy)] : Vis) = v0
  revert ho
  generalize octants = os
  intro ho
  induction os generalizing v0 with
  | nil => exact absurd ho (List.not_mem_nil o)
  | cons o1 os ih =>
    rw [List.foldl_cons]
    rcases List.mem_cons.1 ho with heq | hmem
    · subst heq
      exact foldOct_grow d cx cy radius os _ (hmark v0)
    · exact ih _ hmem

/-- Marking helper for the 8 octant cases of C7. -/
theorem fov_open_mark (d : Dungeon) (cx cy radius : Int) (o : Oct)
    (ho : o ∈ octants)
    (hop : ∀ a b : Int, d.inBounds a b → d.tiles a b ≠ TILE_WALL)
    (h1 : o.xx * o.xy + o.yx * o.yy = 0)
    (h2 : o.xx * o.xx + o.yx * o.yx = 1)
    (h3 : o.xy * o.xy + o.yy * o.yy = 1)
    (hrad : 0 ≤ radius) (i' dx' : Int)
    (hi : 1 ≤ i') (hir : i' ≤ radius) (hdx1 : -i' ≤ dx') (hdx2 : dx' ≤ 0)
    (hb : d.inBounds (octX cx o i' dx') (octY cy o i' dx'))
    (hdist : dx' * dx' + i' * i' ≤ radius * radius) :
    (octX cx o i' dx', octY cy o i' dx') ∈ FOV.compute d cx cy radius :=
  compute_mem_of_octant d cx cy radius o ho _
    (fun vis => castShadowsF_open d cx cy radius o hop h1 h2 h3 hrad vis i' dx'
      hi hir hdx1 hdx2 hb hdist)

/-- The visible set is always sound: away from the origin it stays in
bounds and inside the disc (the invariant behind C10, reused for the
forward direction of C7). -/
theorem compute_sound (d : Dungeon) (cx cy radius : Int) :
    fovSound d cx cy radius (FOV.compute d cx cy radius) := by
  unfold FOV.compute
  have base : fovSound d cx cy radius ([(cx, cy)] : Vis) := by
    intro q hq
    exact Or.inl (List.mem_singleton.1 hq)
  generalize ([(cx, cy)] : Vis) = v0 at base ⊢
  induction octants generalizing v0 with
  | nil => exact base
  | cons o os ih =>
      exact ih _ (castShadowsF_sound d cx cy radius o (radius.toNat + 1) 1 1 0 v0 base)

/-- C7: For an origin inside an open, unobstructed grid (every in-bounds
tile is non-wall) and a nonnegative radius, FOV.compute returns exactly
the in-bounds tiles (x, y) with (x-cx)^2 + (y-cy)^2 <= r^2: no tile
inside the Euclidean radius is missed and no tile outside it or out of
bounds is included. -/
theorem c7_fov_open_grid_exact (d : Dungeon) (cx cy radius : Int)
    (hop : ∀ x y : Int, d.inBounds x y → d.tiles x y ≠ TILE_WALL)
    (horigin : d.inBounds cx cy) (hrad : 0 ≤ radius) (p : Int × Int) :
    p ∈ FOV.compute d cx cy radius ↔
      (d.inBounds p.1 p.2 ∧
       (p.1 - cx) * (p.1 - cx) + (p.2 - cy) * (p.2 - cy) ≤ radius * radius) := by
  obtain ⟨px, py⟩ := p
  constructor
  · intro hp
    rcases compute_sound d cx cy radius (px, py) hp with heq | hok
    · rw [Prod.mk.injEq] at heq
      obtain ⟨he1, he2⟩ := heq
      subst he1
      subst he2
      exact ⟨horigin, by nlinarith⟩
    · exact hok
  · rintro ⟨hb, hdist⟩
    dsimp only at hb hdist
    by_cases he : px = cx ∧ py = cy
    · obtain ⟨he1, he2⟩ := he
      subst he1
      subst he2
      exact compute_grow _ _ _ _ (List.mem_singleton.2 rfl)
    · rcases le_total px cx with hux | hux <;> rcases le_total py cy with hvy | hvy
      · rcases le_total (cx - px) (cy - py) with hcmp | hcmp
        · have hox : octX cx ⟨1, 0, 0, 1⟩ (cy - py) (px - cx) = px := by
            unfold octX; dsimp only; ring
          have hoy : octY cy ⟨1, 0, 0, 1⟩ (cy - py) (px - cx) = py := by
            unfold octY; dsimp only; ring
          have hm := fov_open_mark d cx cy radius ⟨1, 0, 0, 1⟩ (by simp [octants]) hop
            (by decide) (by decide) (by decide) hrad (cy - py) (px - cx)
            (by omega) (by nlinarith) (by omega) (by omega)
            (by rw [hox, hoy]; exact hb) (by nlinarith)
          rw [hox, hoy] at hm
          exact hm
        · have hox : octX cx ⟨0, 1, 1, 0⟩ (cx - px) (py - cy) = px := by
            unfold octX; dsimp only; ring
          have hoy : octY cy ⟨0, 1, 1, 0⟩ (cx - px) (py - cy) = py := by
            unfold octY; dsimp only; ring
          have hm := fov_open_mark d cx cy radius ⟨0, 1, 1, 0⟩ (by simp [octants]) hop
            (by decide) (by decide) (by decide) hrad (cx - px) (py - cy)
            (by omega) (by nlinarith) (by omega) (by omega)
            (by rw [hox, hoy]; exact hb) (by nlinarith)
          rw [hox, hoy] at hm
          exact hm
      · rcases le_total (cx - px) (py - cy) with hcmp | hcmp
        · have hox : octX cx ⟨1, 0, 0, -1⟩ (py - cy) (px - cx) = px := by
            unfold octX; dsimp only; ring
          have hoy : octY cy ⟨1, 0, 0, -1⟩ (py - cy) (px - cx) = py := by
            unfold octY; dsimp only; ring
          have hm := fov_open_mark d cx cy radius ⟨1, 0, 0, -1⟩ (by simp [octants]) hop
            (by decide) (by decide) (by decide) hrad (py - cy) (px - cx)
            (by omega) (by nlinarith) (by omega) (by omega)
            (by rw [hox, hoy]; exact hb) (by nlinarith)
          rw [hox, hoy] at hm
          exact hm
        · have hox : octX cx ⟨0, 1, -1, 0⟩ (cx - px) (cy - py) = px := by
            unfold octX; dsimp only; ring
          have hoy : octY cy ⟨0, 1, -1, 0⟩ (cx - px) (cy - py) = py := by
            unfold octY; dsimp only; ring
          have hm := fov_open_mark d cx cy radius ⟨0, 1, -1, 0⟩ (by simp [octants]) hop
            (by decide) (by decide) (by decide) hrad (cx - px) (cy - py)
            (by omega) (by nlinarith) (by omega) (by omega)
            (by rw [hox, hoy]; exact hb) (by nlinarith)
          rw [hox, hoy] at hm
          exact hm
      · rcases le_total (px - cx) (cy - py) with hcmp | hcmp
        · have hox : octX cx ⟨-1, 0, 0, 1⟩ (cy - py) (cx - px) = px := by
            unfold octX; dsimp only; ring
          have hoy : octY cy ⟨-1, 0, 0, 1⟩ (cy - py) (cx - px) = py := by
            unfold octY; dsimp only; ring
          have hm := fov_open_mark d cx cy radius ⟨-1, 0, 0, 1⟩ (by simp [octants]) hop
            (by decide) (by decide) (by decide) hrad (cy - py) (cx - px)
            (by omega) (by nlinarith) (by omega) (by omega)
            (by rw [hox, hoy]; exact hb) (by nlinarith)
          rw [hox, hoy] at hm
          exact hm
        · have hox : octX cx ⟨0, -1, 1, 0⟩ (px - cx) (py - cy) = px := by
            unfold octX; dsimp only; ring
          have hoy : octY cy ⟨0, -1, 1, 0⟩ (px - cx) (py - cy) = py := by
            unfold octY; dsimp only; ring
          have hm := fov_open_mark d cx cy radius ⟨0, -1, 1, 0⟩ (by simp [octants]) hop
            (by decide) (by decide) (by decide) hrad (px - cx) (py - cy)
            (by omega) (by nlinarith) (by omega) (by omega)
            (by rw [hox, hoy]; exact hb) (by nlinarith)
          rw [hox, hoy] at hm
          exact hm
      · rcases le_total (px - cx) (py - cy) with hcmp | hcmp
        · have hox : octX cx ⟨-1, 0, 0, -1⟩ (py - cy) (cx - px) = px := by
            unfold octX; dsimp only; ring
          have hoy : octY cy ⟨-1, 0, 0, -1⟩ (py - cy) (cx - px) = py := by
            unfold octY; dsimp only; ring
          have hm := fov_open_mark d cx cy radius ⟨-1, 0, 0, -1⟩ (by simp [octants]) hop
            (by decide) (by decide) (by decide) hrad (py - cy) (cx - px)
            (by omega) (by nlinarith) (by omega) (by omega)
            (by rw [hox, hoy]; exact hb) (by nlinarith)
          rw [hox, hoy] at hm
          exact hm
        · have hox : octX cx ⟨0, -1, -1, 0⟩ (px - cx) (cy - py) = px := by
            unfold octX; dsimp only; ring
          have hoy : octY cy ⟨0, -1, -1, 0⟩ (px - cx) (cy - py) = py := by
            unfold octY; dsimp only; ring
          have hm := fov_open_mark d cx cy radius ⟨0, -1, -1, 0⟩ (by simp [octants]) hop
            (by decide) (by decide) (by decide) hrad (px - cx) (cy - py)
            (by omega) (by nlinarith) (by omega) (by omega)
            (by rw [hox, hoy]; exact hb) (by nlinarith)
          rw [hox, hoy] at hm
          exact hm

/-- Witness for C7 on a concrete all-floor 7 by 7 grid, origin (3, 3),
radius 2, tile (5, 3). -/
theorem c7_fov_open_grid_exact_witness :
    ((5, 3) ∈ FOV.compute { Dungeon.init 7 7 with tiles := fun _ _ => TILE_FLOOR } 3 3 2 ↔
      (({ Dungeon.init 7 7 with tiles := fun _ _ => TILE_FLOOR } : Dungeon).inBounds 5 3 ∧
       ((5 : Int) - 3) * (5 - 3) + ((3 : Int) - 3) * (3 - 3) ≤ 2 * 2)) :=
  c7_fov_open_grid_exact { Dungeon.init 7 7 with tiles := fun _ _ => TILE_FLOOR } 3 3 2
    (fun x y _ => by show TILE_FLOOR ≠ TILE_WALL; decide)
    (by decide) (by decide) (5, 3)

/-! ## C8: multi-source lighting composes monotonically -/

/-- One evaluate_light_sources step never lowers the running best. -/
theorem lightStep_ge (wx wy : Int) (best : ℚ × Option (Int × Int)) (src : LightSource) :
    best.1 ≤ (lightStep wx wy best src).1 := by
  unfold lightStep
  dsimp only
  split_ifs <;> linarith

/-- One evaluate_light_sources step is monotone in the running best. -/
theorem lightStep_mono (wx wy : Int) (b1 b2 : ℚ × Option (Int × Int))
    (src : LightSource) (h : b1.1 ≤ b2.1) :
    (lightStep wx wy b1 src).1 ≤ (lightStep wx wy b2 src).1 := by
  unfold lightStep
  dsimp only
  split_ifs <;> linarith

theorem lightFold_ge (wx wy : Int) :
    ∀ (sources : List LightSource) (b : ℚ × Option (Int × Int)),
      b.1 ≤ (sources.foldl (lightStep wx wy) b).1 := by
  intro sources
  induction sources with
  | nil => intro b; exact le_refl _
  | cons s rest ih =>
    intro b
    rw [List.foldl_cons]
    exact le_trans (lightStep_ge wx wy b s) (ih _)

theorem lightFold_mono (wx wy : Int) :
    ∀ (sources : List LightSource) (b1 b2 : ℚ × Option (Int × Int)), b1.1 ≤ b2.1 →
      (sources.foldl (lightStep wx wy) b1).1 ≤ (sources.foldl (lightStep wx wy) b2).1 := by
  intro sources
  induction sources with
  | nil => intro b1 b2 h; exact h
  | cons s rest ih =>
    intro b1 b2 h
    rw [List.foldl_cons, List.foldl_cons]
    exact ih _ _ (lightStep_mono wx wy b1 b2 s h)

/-- The composed brightness dominates what any member source alone
would give. -/
theorem lightFold_single (wx wy : Int) (sources : List LightSource) (s0 : LightSource)
    (hmem : s0 ∈ sources) :
    (evaluate_light_sources [s0] wx wy).1 ≤ (evaluate_light_sources sources wx wy).1 := by
  unfold evaluate_light_sources
  obtain ⟨l1, l2, rfl⟩ := List.append_of_mem hmem
  rw [List.foldl_append, List.foldl_cons]
  simp only [List.foldl_cons, List.foldl_nil]
  refine le_trans ?_ (lightFold_ge wx wy l2 _)
  exact lightStep_mono wx wy (0, none) _ s0 (lightFold_ge wx wy l1 (0, none))

/-! ### FOV radius monotonicity (for the composed visible set of C8) -/

/-- The right slope strictly decreases along a row. -/
theorem rSlope_anti (i : Int) (hi : 1 ≤ i) {dx1 dx2 : Int} (h : dx1 < dx2) :
    rSlope i dx2 < rSlope i dx1 := by
  unfold rSlope
  have hb : (-(i : ℚ) - 1/2) < 0 := by
    have : (1 : ℚ) ≤ (i : ℚ) := by exact_mod_cast hi
    linarith
  have h2 : ((dx1 : ℚ) + 1/2) < ((dx2 : ℚ) + 1/2) := by
    have : (dx1 : ℚ) < (dx2 : ℚ) := by exact_mod_cast h
    linarith
  rw [div_eq_mul_inv, div_eq_mul_inv]
  exact mul_lt_mul_of_neg_right h2 (inv_lt_zero.mpr hb)

/-- The left slope decreases along a row. -/
theorem lSlope_anti (i : Int) (hi : 1 ≤ i) {dx1 dx2 : Int} (h : dx1 ≤ dx2) :
    lSlope i dx2 ≤ lSlope i dx1 := by
  unfold lSlope
  have hb : (-(i : ℚ) + 1/2) < 0 := by
    have : (1 : ℚ) ≤ (i : ℚ) := by exact_mod_cast hi
    linarith
  have h2 : ((dx1 : ℚ) - 1/2) ≤ ((dx2 : ℚ) - 1/2) := by
    have : (dx1 : ℚ) ≤ (dx2 : ℚ) := by exact_mod_cast h
    linarith
  rw [div_eq_mul_inv, div_eq_mul_inv]
  exact mul_le_mul_of_nonpos_right h2 (le_of_lt (inv_lt_zero.mpr hb))

/-- Marking is monotone in the radius and in the visible set. -/
theorem markCell_mono_radius (cx cy : Int) {r r' : Int} (hrr : r ≤ r') (o : Oct)
    (i dx : Int) {vis vis' : Vis} (hsub : vis ⊆ vis') :
    markCell cx cy r o i dx vis ⊆ markCell cx cy r' o i dx vis' := by
  intro p hp
  have hchain : p ∈ vis → p ∈ markCell cx cy r' o i dx vis' :=
    fun h => markCell_grow cx cy r' o i dx vis' (hsub h)
  unfold markCell at hp
  by_cases h1 : dx * dx + i * i ≤ r * r
  · rw [if_pos h1] at hp
    unfold setVisible at hp
    by_cases h2 : 0 ≤ r ∧ (octX cx o i dx - cx) * (octX cx o i dx - cx) +
        (octY cy o i dx - cy) * (octY cy o i dx - cy) ≤ r * r
    · rw [if_pos h2] at hp
      rcases (visInsert_mem p _ vis).1 hp with heq | hmem
      · subst heq
        have hsq : r * r ≤ r' * r' := by nlinarith [h2.1]
        unfold markCell
        rw [if_pos (le_trans h1 hsq)]
        unfold setVisible
        rw [if_pos ⟨le_trans h2.1 hrr, le_trans h2.2 hsq⟩]
        exact (visInsert_mem _ _ vis').2 (Or.inl rfl)
      · exact hchain hmem
    · rw [if_neg h2] at hp
      exact hchain hp
  · rw [if_neg h1] at hp
    exact hchain hp

/-- Once the window is passed (the break condition holds) the rest of a
row scan adds nothing. -/
theorem scanCols_after_break (d : Dungeon) (cx cy radius : Int) (e : ℚ) (o : Oct)
    (spawn : Int → ℚ → ℚ → Vis → Vis) (i : Int) (hi : 1 ≤ i) (dx0 : Int)
    (hbr : e > lSlope i dx0) :
    ∀ (fuel : Nat) (dx : Int) (s ns : ℚ) (b : Bool) (vis : Vis), dx0 ≤ dx →
      scanCols d cx cy radius e o spawn i fuel dx s ns b vis = ⟨vis, s, b⟩ := by
  intro fuel
  induction fuel with
  | zero => intro dx s ns b vis hge; rfl
  | succ n ih =>
    intro dx s ns b vis hge
    rw [scanCols]
    by_cases hpos : dx > 0
    · rw [if_pos hpos]
    · rw [if_neg hpos]
      have hbr' : e > lSlope i dx := lt_of_le_of_lt (lSlope_anti i hi hge) hbr
      unfold scanStep
      by_cases hb : d.inBounds (octX cx o i dx) (octY cy o i dx)
      · rw [if_neg (not_not_intro hb)]
        by_cases hskip : s < rSlope i dx
        · rw [if_pos hskip]
          exact ih (dx + 1) s ns b vis (by omega)
        · rw [if_neg hskip, if_pos hbr']
      · rw [if_pos hb]
        exact ih (dx + 1) s ns b vis (by omega)

/-- Radius simulation for a row strictly below the smaller radius: the
two scans walk in lockstep (same slopes and blocking), the smaller
radius marking a subset. -/
theorem scanCols_sim_lt (d : Dungeon) (cx cy : Int) {r r' : Int} (hrr : r ≤ r') (e : ℚ)
    (o : Oct) (spawn spawn' : Int → ℚ → ℚ → Vis → Vis)
    (hrel : ∀ (row : Int) (s2 e2 : ℚ) (v v' : Vis), 1 ≤ row → v ⊆ v' →
      spawn row s2 e2 v ⊆ spawn' row s2 e2 v')
    (i : Int) (hi1 : 1 ≤ i) (hir : i < r) :
    ∀ (fuel : Nat) (dx : Int) (s ns : ℚ) (b : Bool) (vis vis' : Vis), vis ⊆ vis' →
      (scanCols d cx cy r e o spawn i fuel dx s ns b vis).vis ⊆
        (scanCols d cx cy r' e o spawn' i fuel dx s ns b vis').vis ∧
      (scanCols d cx cy r e o spawn i fuel dx s ns b vis).startSlope =
        (scanCols d cx cy r' e o spawn' i fuel dx s ns b vis').startSlope ∧
      (scanCols d cx cy r e o spawn i fuel dx s ns b vis).blocked =
        (scanCols d cx cy r' e o spawn' i fuel dx s ns b vis').blocked := by
  intro fuel
  induction fuel with
  | zero => intro dx s ns b vis vis' hsub; exact ⟨hsub, rfl, rfl⟩
  | succ n ih =>
    intro dx s ns b vis vis' hsub
    rw [scanCols]
    rw [scanCols]
    by_cases hpos : dx > 0
    · rw [if_pos hpos, if_pos hpos]
      exact ⟨hsub, rfl, rfl⟩
    · rw [if_neg hpos, if_neg hpos]
      unfold scanStep
      by_cases hb : d.inBounds (octX cx o i dx) (octY cy o i dx)
      · rw [if_neg (not_not_intro hb), if_neg (not_not_intro hb)]
        by_cases hskip : s < rSlope i dx
        · rw [if_pos hskip, if_pos hskip]
          exact ih (dx + 1) s ns b vis vis' hsub
        · rw [if_neg hskip, if_neg hskip]
          by_cases hbrk : e > lSlope i dx
          · rw [if_pos hbrk, if_pos hbrk]
            exact ⟨hsub, rfl, rfl⟩
          · rw [if_neg hbrk, if_neg hbrk]
            cases b with
            | true =>
              rw [if_pos rfl, if_pos rfl]
              by_cases hw : d.is_wall (octX cx o i dx) (octY cy o i dx) = true
              · rw [if_pos hw, if_pos hw]
                exact ih (dx + 1) s (rSlope i dx) true _ _
                  (markCell_mono_radius cx cy hrr o i dx hsub)
              · rw [if_neg hw, if_neg hw]
                exact ih (dx + 1) ns ns false _ _
                  (markCell_mono_radius cx cy hrr o i dx hsub)
            | false =>
              rw [if_neg Bool.false_ne_true, if_neg Bool.false_ne_true]
              by_cases hw : d.is_wall (octX cx o i dx) (octY cy o i dx) = true
              · rw [if_pos ⟨hw, hir⟩, if_pos ⟨hw, lt_of_lt_of_le hir hrr⟩]
                exact ih (dx + 1) s (rSlope i dx) true _ _
                  (hrel (i + 1) s (lSlope i dx) _ _ (by omega)
                    (markCell_mono_radius cx cy hrr o i dx hsub))
              · rw [if_neg (fun hc => hw hc.1), if_neg (fun hc => hw hc.1)]
                exact ih (dx + 1) s ns false _ _
                  (markCell_mono_radius cx cy hrr o i dx hsub)
      · rw [if_pos hb, if_pos hb]
        exact ih (dx + 1) s ns b vis vis' hsub

/-- Radius simulation for the last row of the smaller radius: the
smaller scan never blocks and keeps its start slope, and everything it
marks the larger scan marks too, whatever narrowing state the larger
scan has accumulated (its start slope is the original one or the right
slope of an earlier column, so it never skips a column the smaller scan
processes). -/
theorem scanCols_sim_last (d : Dungeon) (cx cy : Int) {r r' : Int} (hrr : r ≤ r') (e : ℚ)
    (o : Oct) (spawn spawn' : Int → ℚ → ℚ → Vis → Vis)
    (hgrow' : ∀ (row : Int) (s2 e2 : ℚ) (v : Vis), v ⊆ spawn' row s2 e2 v)
    (i : Int) (hi1 : 1 ≤ i) (hir : r ≤ i) (s : ℚ) :
    ∀ (fuel : Nat) (dx : Int) (ns s' ns' : ℚ) (b' : Bool) (vis vis' : Vis), vis ⊆ vis' →
      (s' = s ∨ ∃ dxw, dxw < dx ∧ s' = rSlope i dxw) →
      (b' = true → ns' = s ∨ ∃ dxw, dxw < dx ∧ ns' = rSlope i dxw) →
      (scanCols d cx cy r e o spawn i fuel dx s ns false vis).vis ⊆
        (scanCols d cx cy r' e o spawn' i fuel dx s' ns' b' vis').vis ∧
      (scanCols d cx cy r e o spawn i fuel dx s ns false vis).startSlope = s ∧
      (scanCols d cx cy r e o spawn i fuel dx s ns false vis).blocked = false := by
  intro fuel
  induction fuel with
  | zero => intro dx ns s' ns' b' vis vis' hsub hs' hns'; exact ⟨hsub, rfl, rfl⟩
  | succ n ih =>
    intro dx ns s' ns' b' vis vis' hsub hs' hns'
    have hweak : ∀ x : ℚ, (x = s ∨ ∃ dxw, dxw < dx ∧ x = rSlope i dxw) →
        (x = s ∨ ∃ dxw, dxw < dx + 1 ∧ x = rSlope i dxw) := by
      rintro x (hx | ⟨dxw, h1, h2⟩)
      · exact Or.inl hx
      · exact Or.inr ⟨dxw, by omega, h2⟩
    rw [scanCols]
    rw [scanCols]
    by_cases hpos : dx > 0
    · rw [if_pos hpos, if_pos hpos]
      exact ⟨hsub, rfl, rfl⟩
    · rw [if_neg hpos, if_neg hpos]
      unfold scanStep
      by_cases hb : d.inBounds (octX cx o i dx) (octY cy o i dx)
      · rw [if_neg (not_not_intro hb), if_neg (not_not_intro hb)]
        by_cases hskip : s < rSlope i dx
        · rw [if_pos hskip]
          by_cases hskip' : s' < rSlope i dx
          · rw [if_pos hskip']
            exact ih (dx + 1) ns s' ns' b' vis vis' hsub (hweak s' hs')
              (fun hbt => hweak ns' (hns' hbt))
          · rw [if_neg hskip']
            by_cases hbrk : e > lSlope i dx
            · rw [if_pos hbrk]
              dsimp only
              rw [scanCols_after_break d cx cy r e o spawn i hi1 dx hbrk n (dx + 1)
                s ns false vis (by omega)]
              exact ⟨hsub, rfl, rfl⟩
            · rw [if_neg hbrk]
              cases b' with
              | true =>
                rw [if_pos rfl]
                by_cases hw : d.is_wall (octX cx o i dx) (octY cy o i dx) = true
                · rw [if_pos hw]
                  exact ih (dx + 1) ns s' (rSlope i dx) true vis _
                    (List.Subset.trans hsub (markCell_grow ..))
                    (hweak s' hs') (fun _ => Or.inr ⟨dx, by omega, rfl⟩)
                · rw [if_neg hw]
                  exact ih (dx + 1) ns ns' ns' false vis _
                    (List.Subset.trans hsub (markCell_grow ..))
                    (hweak ns' (hns' rfl)) (by simp)
              | false =>
                rw [if_neg Bool.false_ne_true]
                by_cases hw : d.is_wall (octX cx o i dx) (octY cy o i dx) = true ∧ i < r'
                · rw [if_pos hw]
                  exact ih (dx + 1) ns s' (rSlope i dx) true vis _
                    (List.Subset.trans hsub (List.Subset.trans (markCell_grow ..)
                      (hgrow' ..)))
                    (hweak s' hs') (fun _ => Or.inr ⟨dx, by omega, rfl⟩)
                · rw [if_neg hw]
                  exact ih (dx + 1) ns s' ns' false vis _
                    (List.Subset.trans hsub (markCell_grow ..))
                    (hweak s' hs') (by simp)
        · rw [if_neg hskip]
          have hskip' : ¬ s' < rSlope i dx := by
            rcases hs' with heq | ⟨dxw, h1, h2⟩
            · rw [heq]; exact hskip
            · rw [h2]
              exact not_lt.mpr (le_of_lt (rSlope_anti i hi1 h1))
          rw [if_neg hskip']
          by_cases hbrk : e > lSlope i dx
          · rw [if_pos hbrk, if_pos hbrk]
            exact ⟨hsub, rfl, rfl⟩
          · rw [if_neg hbrk, if_neg hbrk]
            rw [if_neg Bool.false_ne_true]
            rw [if_neg (fun hc : _ ∧ i < r => absurd hc.2 (not_lt.mpr hir))]
            cases b' with
            | true =>
              rw [if_pos rfl]
              by_cases hw : d.is_wall (octX cx o i dx) (octY cy o i dx) = true
              · rw [if_pos hw]
                exact ih (dx + 1) ns s' (rSlope i dx) true _ _
                  (markCell_mono_radius cx cy hrr o i dx hsub)
                  (hweak s' hs') (fun _ => Or.inr ⟨dx, by omega, rfl⟩)
              · rw [if_neg hw]
                exact ih (dx + 1) ns ns' ns' false _ _
                  (markCell_mono_radius cx cy hrr o i dx hsub)
                  (hweak ns' (hns' rfl)) (by simp)
            | false =>
              rw [if_neg Bool.false_ne_true]
              by_cases hw : d.is_wall (octX cx o i dx) (octY cy o i dx) = true ∧ i < r'
              · rw [if_pos hw]
                exact ih (dx + 1) ns s' (rSlope i dx) true _ _
                  (List.Subset.trans (markCell_mono_radius cx cy hrr o i dx hsub)
                    (hgrow' ..))
                  (hweak s' hs') (fun _ => Or.inr ⟨dx, by omega, rfl⟩)
              · rw [if_neg hw]
                exact ih (dx + 1) ns s' ns' false _ _
                  (markCell_mono_radius cx cy hrr o i dx hsub)
                  (hweak s' hs') (by simp)
      · rw [if_pos hb, if_pos hb]
        exact ih (dx + 1) ns s' ns' b' vis vis' hsub (hweak s' hs')
          (fun hbt => hweak ns' (hns' hbt))

/-- Radius simulation for the row loop. -/
theorem castRows_sim (d : Dungeon) (cx cy : Int) {r r' : Int} (hrr : r ≤ r') (e : ℚ)
    (o : Oct) (spawn spawn' : Int → ℚ → ℚ → Vis → Vis)
    (hrel : ∀ (row : Int) (s2 e2 : ℚ) (v v' : Vis), 1 ≤ row → v ⊆ v' →
      spawn row s2 e2 v ⊆ spawn' row s2 e2 v')
    (hgrow' : ∀ (row : Int) (s2 e2 : ℚ) (v : Vis), v ⊆ spawn' row s2 e2 v) :
    ∀ (fuel fuel' : Nat) (i : Int) (s : ℚ) (vis vis' : Vis),
      fuel = (r + 1 - i).toNat → fuel' = (r' + 1 - i).toNat → 1 ≤ i → vis ⊆ vis' →
      castRows d cx cy r e o spawn fuel i s vis ⊆
        castRows d cx cy r' e o spawn' fuel' i s vis' := by
  intro fuel
  induction fuel with
  | zero =>
    intro fuel' i s vis vis' hf hf' hi hsub
    exact List.Subset.trans hsub (castRows_grow d cx cy r' e o spawn' hgrow' fuel' i s vis')
  | succ n ih =>
    intro fuel' i s vis vis' hf hf' hi hsub
    have hir : i ≤ r := by omega
    obtain ⟨n', hn'⟩ : ∃ k, fuel' = k + 1 := ⟨fuel' - 1, by omega⟩
    subst hn'
    rw [castRows]
    rw [castRows]
    rw [if_neg (by omega : ¬ i > r), if_neg (by omega : ¬ i > r')]
    by_cases hlast : i < r
    · obtain ⟨hv, hss, hbb⟩ := scanCols_sim_lt d cx cy hrr e o spawn spawn' hrel i hi hlast
        (1 - (-i)).toNat (-i) s s false vis vis' hsub
      unfold rowScan
      by_cases hblk : (scanCols d cx cy r e o spawn i (1 - (-i)).toNat (-i) s s false vis).blocked
        = true
      · rw [if_pos hblk, if_pos (by rw [← hbb]; exact hblk)]
        exact hv
      · rw [if_neg hblk, if_neg (by rw [← hbb]; exact hblk)]
        rw [hss]
        exact ih n' (i + 1) _ _ _ (by omega) (by omega) (by omega) hv
    · have hlast' : r ≤ i := by omega
      obtain ⟨hv, hss, hbb⟩ := scanCols_sim_last d cx cy hrr e o spawn spawn' hgrow' i hi
        hlast' s (1 - (-i)).toNat (-i) s s s false vis vis' hsub (Or.inl rfl)
        (fun h => absurd h Bool.false_ne_true)
      have hn0 : n = 0 := by omega
      subst hn0
      unfold rowScan
      rw [if_neg (by rw [hbb]; exact Bool.false_ne_true)]
      by_cases hblk' : (scanCols d cx cy r' e o spawn' i (1 - (-i)).toNat (-i) s s false vis').blocked
        = true
      · rw [if_pos hblk']
        exact hv
      · rw [if_neg hblk']
        exact List.Subset.trans hv
          (castRows_grow d cx cy r' e o spawn' hgrow' n' (i + 1) _ _)

/-- FOV radius monotonicity at the octant level. -/
theorem castShadowsF_radius_mono (d : Dungeon) (cx cy : Int) {r r' : Int} (hrr : r ≤ r')
    (o : Oct) :
    ∀ (fuel fuel' : Nat), fuel ≤ fuel' →
      ∀ (row : Int) (s e : ℚ) (vis vis' : Vis), 1 ≤ row → vis ⊆ vis' →
        castShadowsF d cx cy r o fuel row s e vis ⊆
          castShadowsF d cx cy r' o fuel' row s e vis' := by
  intro fuel
  induction fuel with
  | zero =>
    intro fuel' hle row s e vis vis' hrow hsub
    exact List.Subset.trans hsub (castShadowsF_grow d cx cy r' o fuel' row s e vis')
  | succ n ih =>
    intro fuel' hle row s e vis vis' hrow hsub
    obtain ⟨n', hn'⟩ : ∃ k, fuel' = k + 1 := ⟨fuel' - 1, by omega⟩
    subst hn'
    rw [castShadowsF]
    rw [castShadowsF]
    by_cases hse : s < e
    · rw [if_pos hse, if_pos hse]
      exact hsub
    · rw [if_neg hse, if_neg hse]
      exact castRows_sim d cx cy hrr e o (castShadowsF d cx cy r o n)
        (castShadowsF d cx cy r' o n')
        (fun row2 s2 e2 v v' hrow2 hsub2 => ih n' (by omega) row2 s2 e2 v v' hrow2 hsub2)
        (fun row2 s2 e2 v => castShadowsF_grow d cx cy r' o n' row2 s2 e2 v)
        (r + 1 - row).toNat (r' + 1 - row).toNat row s vis vis' rfl rfl hrow hsub

/-- FOV radius monotonicity: enlarging the radius never removes a
visible tile. -/
theorem compute_radius_mono (d : Dungeon) (cx cy : Int) {r r' : Int} (hrr : r ≤ r') :
    FOV.compute d cx cy r ⊆ FOV.compute d cx cy r' := by
  unfold FOV.compute
  have hstep : ∀ (os : List Oct) (v v' : Vis), v ⊆ v' →
      os.foldl (fun vis o => castShadowsF d cx cy r o (r.toNat + 1) 1 1 0 vis) v ⊆
        os.foldl (fun vis o => castShadowsF d cx cy r' o (r'.toNat + 1) 1 1 0 vis) v' := by
    intro os
    induction os with
    | nil => intro v v' h; exact h
    | cons o os ihos =>
      intro v v' h
      rw [List.foldl_cons, List.foldl_cons]
      exact ihos _ _ (castShadowsF_radius_mono d cx cy hrr o (r.toNat + 1) (r'.toNat + 1)
        (by omega) 1 1 0 v v' (by omega) h)
  exact hstep octants _ _ (List.Subset.refl _)

theorem filter_subset_of_subset {α : Type} (q : α → Bool) {l l' : List α} (h : l ⊆ l') :
    l.filter q ⊆ l'.filter q := by
  intro a ha
  rw [List.mem_filter] at ha ⊢
  exact ⟨h ha.1, ha.2⟩

theorem append_subset_append {α : Type} {a a' b b' : List α} (ha : a ⊆ a') (hb : b ⊆ b') :
    a ++ b ⊆ a' ++ b' := by
  intro x hx
  rw [List.mem_append] at hx ⊢
  exact hx.imp (fun h => ha h) (fun h => hb h)

/-- The torch composition fold is monotone in the accumulator and in
the line-of-sight set. -/
theorem torchFold_mono (d : Dungeon) {los los' : Vis} (hlos : los ⊆ los') :
    ∀ (ts : List Torch) (acc acc' : Vis), acc ⊆ acc' →
      ts.foldl (fun acc2 t => if (t.x, t.y) ∈ los then acc2 ++ torchDisc d los t else acc2) acc ⊆
        ts.foldl (fun acc2 t => if (t.x, t.y) ∈ los' then acc2 ++ torchDisc d los' t else acc2)
          acc' := by
  intro ts
  induction ts with
  | nil => intro acc acc' h; exact h
  | cons t0 ts ih =>
    intro acc acc' h
    rw [List.foldl_cons, List.foldl_cons]
    apply ih
    by_cases hm : (t0.x, t0.y) ∈ los
    · rw [if_pos hm, if_pos (hlos hm)]
      exact append_subset_append h
        (filter_subset_of_subset _ hlos)
    · rw [if_neg hm]
      split
      · exact List.Subset.trans h (List.subset_append_left _ _)
      · exact h

/-- The torch composition fold only grows the accumulator. -/
theorem torchFold_grow (d : Dungeon) (los : Vis) :
    ∀ (ts : List Torch) (acc : Vis),
      acc ⊆ ts.foldl (fun acc2 t => if (t.x, t.y) ∈ los then acc2 ++ torchDisc d los t
        else acc2) acc := by
  intro ts
  induction ts with
  | nil => intro acc; exact List.Subset.refl _
  | cons t0 ts ih =>
    intro acc
    rw [List.foldl_cons]
    refine List.Subset.trans ?_ (ih _)
    split
    · exact List.subset_append_left _ _
    · exact List.Subset.refl _

/-- Appending a torch never removes a tile from the composed visible
set: the extended shadow-cast radius only grows (FOV radius
monotonicity), so the line of sight grows, the base disc grows, and
every torch disc grows. -/
theorem composedVisible_append (d : Dungeon) (px py : Int) (lr : ℚ)
    (torches : List Torch) (t : Torch) :
    composedVisible d px py lr torches ⊆ composedVisible d px py lr (torches ++ [t]) := by
  unfold composedVisible
  dsimp only
  rw [List.foldl_append, List.foldl_append, List.foldl_cons, List.foldl_nil]
  have hEE : (torches.foldl (fun acc t2 =>
      max acc (ceilSqrtPlus ((t2.x - px) * (t2.x - px) + (t2.y - py) * (t2.y - py)) t2.radius))
        (max 1 (pyInt (lr - 1/2)))) ≤
      max (torches.foldl (fun acc t2 =>
        max acc (ceilSqrtPlus ((t2.x - px) * (t2.x - px) + (t2.y - py) * (t2.y - py)) t2.radius))
          (max 1 (pyInt (lr - 1/2))))
        (ceilSqrtPlus ((t.x - px) * (t.x - px) + (t.y - py) * (t.y - py)) t.radius) :=
    le_max_left _ _
  have hlos := compute_radius_mono d px py hEE
  refine List.Subset.trans (torchFold_mono d hlos torches _ _
    (filter_subset_of_subset _ hlos)) ?_
  split
  · exact List.subset_append_left _ _
  · exact List.Subset.refl _

/-- C8: Multi-source lighting composes monotonically: appending a
source never decreases the brightness evaluate_light_sources returns
and never removes a tile from the composed visible set, and the
composed brightness at any tile dominates the brightness any single
member source alone would give it. -/
theorem c8_multi_source_monotone (wx wy : Int) (sources : List LightSource)
    (s : LightSource) (d : Dungeon) (px py : Int) (lr : ℚ)
    (torches : List Torch) (t : Torch) :
    (evaluate_light_sources sources wx wy).1 ≤
      (evaluate_light_sources (sources ++ [s]) wx wy).1 ∧
    composedVisible d px py lr torches ⊆ composedVisible d px py lr (torches ++ [t]) ∧
    ∀ s0 ∈ sources, (evaluate_light_sources [s0] wx wy).1 ≤
      (evaluate_light_sources sources wx wy).1 := by
  refine ⟨?_, composedVisible_append d px py lr torches t,
    fun s0 h => lightFold_single wx wy sources s0 h⟩
  unfold evaluate_light_sources
  rw [List.foldl_append, List.foldl_cons, List.foldl_nil]
  exact lightStep_ge wx wy _ s

/-- Witness for C8 with one quadratic source plus a torch source, and an
empty torch list extended by one torch on a concrete dungeon. -/
theorem c8_multi_source_monotone_witness :
    (evaluate_light_sources [⟨(1, 1), 3, 1, Falloff.quadratic, false⟩] 0 0).1 ≤
      (evaluate_light_sources ([⟨(1, 1), 3, 1, Falloff.quadratic, false⟩] ++
        [⟨(4, 4), 2, 1, Falloff.linear, true⟩]) 0 0).1 ∧
    composedVisible (Dungeon.init 5 5) 2 2 2 [] ⊆
      composedVisible (Dungeon.init 5 5) 2 2 2 ([] ++ [⟨3, 3, 2⟩]) :=
  ⟨(c8_multi_source_monotone 0 0 [⟨(1, 1), 3, 1, Falloff.quadratic, false⟩]
      ⟨(4, 4), 2, 1, Falloff.linear, true⟩ (Dungeon.init 5 5) 2 2 2 [] ⟨3, 3, 2⟩).1,
   (c8_multi_source_monotone 0 0 [⟨(1, 1), 3, 1, Falloff.quadratic, false⟩]
      ⟨(4, 4), 2, 1, Falloff.linear, true⟩ (Dungeon.init 5 5) 2 2 2 [] ⟨3, 3, 2⟩).2.1⟩
